import Mathlib

/-!
# FastLogger (MMCore/FastLogger.cpp): a shallow embedding

The logger object, the module-level worker pointer and the part of the
environment the logger touches (standard error, the files it opens, HOME)
are gathered in one record, `State`.  Every member function of
`FastLogger` becomes a function on `State`.  Text is `String`; the
formatter works on `List Char`, the characters of a C string.

Two further parts follow the logger: the scopes in which its functions hold
the two locks, as a skeleton of each function body with the paths through it,
and the dispatch of `LaserFactory::Create`
(DeviceAdapters/CoboltOfficial/LaserFactory.cpp).
-/

namespace FastLogger

/-! ## Declarations of IMMLogger.h and FastLogger.h -/

/-- Modelled from the spec: `IMMLogger::priority` is declared in IMMLogger.h,
which is not among the sources.  The six selectable levels run from the least
severe (`trace`) to the most severe (`alert`); `none` and `any` are the two
end markers of the enumeration (`any` initialises `level_` in the
constructor). -/
inductive priority where
  | none | trace | debug | info | warning | error | alert | any
  deriving DecidableEq, Repr

/-- Modelled from the spec: the enumerators of `IMMLogger::priority` are
single bits in the order of severity, `any` is the OR-ed combination of all
of them. -/
def priority.toNat : priority → Nat
  | .none => 0
  | .trace => 1
  | .debug => 2
  | .info => 4
  | .warning => 8
  | .error => 16
  | .alert => 32
  | .any => 0xffff

/-- The six levels a caller can select or log at. -/
def priority.selectable : priority → Bool
  | .none => false
  | .any => false
  | _ => true

/-- Modelled from the spec: the `Fast_Log_Priorities` bits of FastLogger.h
(not among the sources), one distinct bit per level. -/
def FL_TRACE : Nat := 0o2
/-- Modelled from the spec: the debug bit of `Fast_Log_Priorities`. -/
def FL_DEBUG : Nat := 0o4
/-- Modelled from the spec: the info bit of `Fast_Log_Priorities`. -/
def FL_INFO : Nat := 0o10
/-- Modelled from the spec: the notice bit of `Fast_Log_Priorities`. -/
def FL_NOTICE : Nat := 0o20
/-- Modelled from the spec: the warning bit of `Fast_Log_Priorities`. -/
def FL_WARNING : Nat := 0o40
/-- Modelled from the spec: the error bit of `Fast_Log_Priorities`. -/
def FL_ERROR : Nat := 0o200
/-- Modelled from the spec: the critical bit of `Fast_Log_Priorities`. -/
def FL_CRITICAL : Nat := 0o400
/-- Modelled from the spec: the alert bit of `Fast_Log_Priorities`. -/
def FL_ALERT : Nat := 0o1000
/-- Modelled from the spec: the emergency bit of `Fast_Log_Priorities`. -/
def FL_EMERGENCY : Nat := 0o2000

/-- Modelled from the spec: the console-sink bit of the flag set
(`Fast_Log_Flags` of FastLogger.h, not among the sources). -/
def STDERR : Nat := 1
/-- Modelled from the spec: the file-sink bit of the flag set. -/
def OSTREAM : Nat := 4

/-- The diagnostic of line 50. -/
def g_textLogIniFiled : String := "Logging initialization failed\n"

/-! ## State -/

/-- Open modes used by the logger: `ios_base::app` and `ios_base::trunc`. -/
inductive openmode where
  | app | trunc
  deriving DecidableEq, Repr

/-- A `std::ofstream`: whether it is open, and the file it is associated
with while it is open. -/
structure ofstream where
  is_open : Bool
  path : String
  deriving DecidableEq, Repr

/-- The members of `LoggerThread` that the logger reads or writes, and
whether its thread is running `svc`. -/
structure LoggerThread where
  stop_ : Bool
  active : Bool
  deriving DecidableEq, Repr

/-- The logger, the worker pointer and the environment.

Members of `FastLogger`: `level_` .. `plogFile_g`.  Module-level:
`pLogThread_g`.  Environment: `cerr` is the text written to standard error
so far, `disk` the content of each file (`none`: no such file), `writable`
tells whether opening a path for output succeeds, `readable` whether
opening it for input does, `HOME` is `getenv("HOME")`, and `opened` lists the
`open` calls made on the log stream, oldest first. -/
structure State where
  level_ : Nat
  timestamp_level_ : Nat
  fast_log_flags_ : Nat
  flags_ : Nat
  logFileName_ : String
  failureReported : Bool
  logInstanceName_ : String
  stringToWrite_g : String
  plogFile_g : Option ofstream
  pLogThread_g : Option LoggerThread
  cerr : String
  disk : String → Option String
  writable : String → Bool
  readable : String → Bool
  HOME : String
  opened : List (String × openmode)

/-- Modelled from the spec: `flags()` of FastLogger.h reads the flag set. -/
def flags (s : State) : Nat := s.flags_

/-- Modelled from the spec: `set_flags` of FastLogger.h (not among the
sources) installs the reconfigured flag set. -/
def set_flags (s : State) (f : Nat) : State := { s with flags_ := f }

/-- The C expression `x & ~f` on unsigned words: the bits of `x` that are
not bits of `f` (a bit of `x` survives exactly when it differs from the bit
of `f`). -/
def andNot (x f : Nat) : Nat := x &&& (x ^^^ f)

/-- Modelled from the spec: `clr_flags` of FastLogger.h (not among the
sources) disables the given flag bits. -/
def clr_flags (s : State) (f : Nat) : State := { s with flags_ := andNot s.flags_ f }

/-- The constructor (lines 99-107) in a given environment.  `flags_` is not
initialised by the constructor, so its first value is a parameter; the worker
pointer starts as NULL (line 96). -/
def new (flags0 : Nat) (home : String) (writable readable : String → Bool)
    (disk : String → Option String) : State :=
  { level_ := priority.any.toNat
    timestamp_level_ := priority.any.toNat
    fast_log_flags_ := priority.any.toNat
    flags_ := flags0
    logFileName_ := ""
    failureReported := false
    logInstanceName_ := ""
    stringToWrite_g := ""
    plogFile_g := none
    pLogThread_g := none
    cerr := ""
    disk := disk
    writable := writable
    readable := readable
    HOME := home
    opened := [] }

/-! ## The priority gate -/

/-- Lines 211-232: the switch falls through from the selected case to the
last one; `default` sits in front of `case info`. -/
def SetPriorityLevel (s : State) (level_flag : priority) : State :=
  let m0 : Nat := 0
  let fromAlert (m : Nat) : Nat := m ||| (FL_ALERT ||| FL_EMERGENCY ||| FL_CRITICAL)
  let fromError (m : Nat) : Nat := fromAlert (m ||| FL_ERROR)
  let fromWarning (m : Nat) : Nat := fromError (m ||| FL_WARNING)
  let fromInfo (m : Nat) : Nat := fromWarning (m ||| (FL_INFO ||| FL_NOTICE))
  let fromDebug (m : Nat) : Nat := fromInfo (m ||| FL_DEBUG)
  let fromTrace (m : Nat) : Nat := fromDebug (m ||| FL_TRACE)
  let ACE_Process_priority_mask : Nat :=
    match level_flag with
    | .trace => fromTrace m0
    | .debug => fromDebug m0
    | .info => fromInfo m0
    | .warning => fromWarning m0
    | .error => fromError m0
    | .alert => fromAlert m0
    | _ => fromInfo m0
  { s with level_ := ACE_Process_priority_mask }

/-- Lines 516-519: the two-level mapping, on the numeric value of the
priority (it is also applied to `timestamp_level_`). -/
def MatchACEPriority (p : Nat) : Nat :=
  if p ≤ priority.debug.toNat then FL_DEBUG else FL_INFO

/-! ## Failure reporting -/

/-- Lines 475-488. -/
def ReportLogFailure (s : State) : State :=
  if !s.failureReported then
    { s with failureReported := true, cerr := s.cerr ++ g_textLogIniFiled }
  else s

/-! ## The file sink -/

/-- Whether the system opens a path for output: never the empty path. -/
def canOpen (writable : String → Bool) (name : String) : Bool :=
  decide (name ≠ "") && writable name

/-- The call `plogFile_g->open(name, mode)`.  The call is recorded in `opened`.
It fails on a stream that is already open, on the empty path and on a path
that cannot be opened for output; on success the stream is associated with
`name`, the file is created when it is missing and emptied in mode `trunc`.
With a NULL stream nothing happens (no caller reaches that). -/
def ofstream_open (s : State) (name : String) (mode : openmode) : State :=
  match s.plogFile_g with
  | none => s
  | some f =>
    let s1 := { s with opened := s.opened ++ [(name, mode)] }
    if f.is_open then s1
    else if canOpen s.writable name then
      { s1 with
        plogFile_g := some { is_open := true, path := name }
        disk := fun q =>
          if q = name then
            (match mode with
             | .app => some ((s.disk name).getD "")
             | .trunc => some "")
          else s.disk q }
    else s1

/-- The call `plogFile_g->close()`. -/
def ofstream_close (s : State) : State :=
  match s.plogFile_g with
  | none => s
  | some f => { s with plogFile_g := some { f with is_open := false } }

/-- Whether the log stream exists and is open. -/
def fileOpen (s : State) : Bool :=
  match s.plogFile_g with
  | none => false
  | some f => f.is_open

/-- The statement `*plogFile_g << text << flush`: the text goes to the end of
the associated file; a stream that is not open writes nothing. -/
def ofstream_write (s : State) (text : String) : State :=
  match s.plogFile_g with
  | none => s
  | some f =>
    if f.is_open then
      { s with disk := fun q =>
          if q = f.path then some ((s.disk f.path).getD "" ++ text) else s.disk q }
    else s

/-- Lines 530-577.  No modelled step throws, so the empty handler of line 574
is never entered. -/
def Open (s : State) (specifiedFile : String) : Bool × State :=
  let s1 :=
    match s.plogFile_g with
    | none => { s with plogFile_g := some { is_open := false, path := "" } }
    | some _ => s
  let s2 :=
    if !fileOpen s1 then
      let s3 := if s1.logFileName_.length < 1 then { s1 with logFileName_ := specifiedFile } else s1
      let s4 := ofstream_open s3 s3.logFileName_ .app
      if !fileOpen s4 then
        let homePath := s4.HOME ++ "/"
        let s5 := { s4 with logFileName_ := homePath ++ specifiedFile }
        ofstream_open s5 s5.logFileName_ .app
      else s4
    else s1
  (fileOpen s2, s2)

/-- Line 60: `Start`. -/
def LoggerThread.Start (t : LoggerThread) : LoggerThread :=
  { t with stop_ := false, active := true }

/-- Line 59 followed by `wait()`: the worker sees the flag after its sleep and
its thread ends. -/
def LoggerThread.StopAndWait (t : LoggerThread) : LoggerThread :=
  { t with stop_ := true, active := false }

/-- Lines 126-158.  No modelled step throws, so the handler of lines 152-156
is never entered and the call returns `bRet`. -/
def Initialize (s : State) (logFileName logInstanceName : String) : Bool × State :=
  let s1 := { s with failureReported := false, logInstanceName_ := logInstanceName }
  let r := Open s1 logFileName
  let bRet := r.1
  let s2 := { r.2 with fast_log_flags_ := flags r.2 }
  let s3 := if bRet then { s2 with fast_log_flags_ := s2.fast_log_flags_ ||| OSTREAM } else s2
  let s4 := { s3 with fast_log_flags_ := s3.fast_log_flags_ ||| STDERR }
  let s5 := set_flags s4 s4.fast_log_flags_
  let s6 :=
    match s5.pLogThread_g with
    | none => { s5 with pLogThread_g := some (LoggerThread.Start { stop_ := false, active := false }) }
    | some _ => s5
  (bRet, s6)

/-- Lines 161-183. -/
def Shutdown (s : State) : State :=
  let s1 := { s with failureReported := false }
  let s2 :=
    match s1.plogFile_g with
    | some _ => { ofstream_close s1 with plogFile_g := none }
    | none => s1
  clr_flags s2 OSTREAM

/-- Lines 185-209. -/
def Reset (s : State) : Bool × State :=
  let s1 := { s with failureReported := false }
  match s1.plogFile_g with
  | some f =>
    let s2 := if f.is_open then ofstream_close s1 else s1
    (true, ofstream_open s2 s2.logFileName_ .trunc)
  | none => (false, s1)

/-- Lines 617-621. -/
def LogPath (s : State) : String := s.logFileName_

/-- The path `Open` tries first: the fixed path, or the requested one when no
path has been fixed (lines 544-547). -/
def firstPath (s : State) (specifiedFile : String) : String :=
  if s.logFileName_.length < 1 then specifiedFile else s.logFileName_

/-- The fallback path of lines 560-562. -/
def fallbackPath (s : State) (specifiedFile : String) : String :=
  (s.HOME ++ "/") ++ specifiedFile

/-- The link between the stream and the fixed path in every state the logger
reaches: an open stream is open on the fixed path, which is not empty. -/
def WF (s : State) : Prop :=
  ∀ f, s.plogFile_g = some f → f.is_open = true → f.path = s.logFileName_ ∧ f.path ≠ ""

/-! ## The accumulation buffer and the worker -/

/-- Lines 454-459: the critical section of `Log`. -/
def appendLine (s : State) (workingString : String) : State :=
  let b := if 0 < s.stringToWrite_g.length then s.stringToWrite_g ++ "\n" else s.stringToWrite_g
  { s with stringToWrite_g := b ++ workingString }

/-- Lines 73-88: one iteration of the loop of `LoggerThread::svc`, up to the
sleep. -/
def svcIteration (s : State) : State :=
  let stmp := s.stringToWrite_g
  let s1 := { s with stringToWrite_g := "" }
  if 0 < stmp.length then
    let s2 := if flags s1 &&& STDERR ≠ 0 then { s1 with cerr := s1.cerr ++ stmp ++ "\n" } else s1
    match s2.plogFile_g with
    | some _ => ofstream_write s2 (stmp ++ "\n")
    | none => s2
  else s1

/-! ## The formatter -/

/-- How a call can fail to return a value in the model: the C++ code has
undefined behaviour there (a NULL pointer is dereferenced, `va_arg` reads an
argument that was not passed), a loop was still running when the fuel ran
out, or a C++ exception was thrown inside a `try` block. -/
inductive Fault where
  | undefinedBehaviour | outOfFuel | thrown
  deriving DecidableEq, Repr

deriving instance DecidableEq for Except

/-- One variadic argument after the default promotions: an `int` (which a
`char` argument is promoted to), a `double` with a finite value, or a
`char*` pointing to a C string. -/
inductive VArg where
  | int (n : Int)
  | chr (c : Char)
  | dbl (x : Rat)
  | str (text : List Char)

/-- What `Log` obtains from the platform during one call: the text of
`to_iso_extended_string(local_time())`, the text of the thread id, the text of
the process id, and `snprintf` for a floating-point conversion (conversion
specification, value converted to `float`). -/
structure Platform where
  todaysDate : List Char
  percentt : List Char
  percentP : List Char
  snprintf_f : List Char → Rat → List Char

/-- The terminator of a C string. -/
def NUL : Char := Char.ofNat 0

/-- Line 256. -/
def MaxBuf : Nat := 32767

/-- The expression `format[i]`: the C string ends with a terminator. -/
def strAt (format : List Char) (i : Nat) : Char := format.getD i NUL

/-- The characters of a C string: those in front of the first terminator. -/
def c_str (text : List Char) : List Char := text.takeWhile (fun c => c ≠ NUL)

/-- The call `strlen(format)`. -/
def strlen (format : List Char) : Nat := (c_str format).length

/-- The text `snprintf(buffer, n, ...)` leaves in the buffer, read back as a
C string: at most `n - 1` characters of the conversion. -/
def snprintf (n : Nat) (converted : List Char) : List Char := (c_str converted).take (n - 1)

/-- The call `va_arg(argp, int)`. -/
def va_arg_int : List VArg → Except Fault (Int × List VArg)
  | .int n :: rest => .ok (n, rest)
  | .chr c :: rest => .ok (Int.ofNat c.toNat, rest)
  | _ => .error .undefinedBehaviour

/-- The call `va_arg(argp, double)`. -/
def va_arg_double : List VArg → Except Fault (Rat × List VArg)
  | .dbl x :: rest => .ok (x, rest)
  | _ => .error .undefinedBehaviour

/-- The call `va_arg(argp, char *)`. -/
def va_arg_str : List VArg → Except Fault (List Char × List VArg)
  | .str text :: rest => .ok (text, rest)
  | _ => .error .undefinedBehaviour

/-- The conversion of an `int` to `char`. -/
def toChar (n : Int) : Char := Char.ofNat (n % 256).toNat

/-- Lines 313-383: the switch on `curc = format[i]`, entered with `i` already
incremented.  The result is `i` after the switch, the remaining arguments
and the text added to `workingString`.  Inside the loop `flen` is at least 1,
so `flen - 1` does not wrap. -/
def directive (pf : Platform) (format : List Char) (flen i : Nat) (argp : List VArg) :
    Except Fault (Nat × List VArg × List Char) :=
  let curc := strAt format i
  if curc = 'd' then
    match va_arg_int argp with
    | .ok (n, rest) => .ok (i, rest, snprintf MaxBuf (toString n).toList)
    | .error e => .error e
  else if curc = 'f' then
    match va_arg_double argp with
    | .ok (f, rest) => .ok (i, rest, snprintf MaxBuf (pf.snprintf_f ['%', 'f'] f))
    | .error e => .error e
  else if curc = 'e' then
    match va_arg_double argp with
    | .ok (f, rest) => .ok (i, rest, snprintf MaxBuf (pf.snprintf_f ['%', 'e'] f))
    | .error e => .error e
  else if curc = 'g' then
    match va_arg_double argp with
    | .ok (f, rest) => .ok (i, rest, snprintf MaxBuf (pf.snprintf_f ['%', 'g'] f))
    | .error e => .error e
  else if curc = 'c' then
    match va_arg_int argp with
    | .ok (n, rest) => .ok (i, rest, snprintf MaxBuf [toChar n])
    | .error e => .error e
  else if curc = 's' then
    match va_arg_str argp with
    | .ok (text, rest) => .ok (i, rest, snprintf MaxBuf text)
    | .error e => .error e
  else if curc = '.' then
    match va_arg_double argp with
    | .ok (f, rest) =>
      if i < flen - 1 then
        .ok (i + 2, rest, snprintf MaxBuf (pf.snprintf_f ['%', '.', strAt format (i + 1), 'f'] f))
      else
        .ok (i, rest, snprintf MaxBuf (pf.snprintf_f ['%'] f))
    | .error e => .error e
  else if curc = 't' ∨ curc = 'D' ∨ curc = 'P' then
    .ok (i, argp, snprintf 2 ['%'] ++ snprintf 2 [curc])
  else
    .ok (i, argp, [])

/-- Lines 304-392: the loop over the template, `fuel` iterations at most.
After `va_start` the test `0 == argp` of line 310 is false. -/
def scanLoop (pf : Platform) (format : List Char) (flen : Nat) :
    Nat → Nat → List VArg → List Char → Except Fault (List Char)
  | 0, _, _, _ => .error .outOfFuel
  | fuel + 1, i, argp, workingString =>
    if strAt format i = NUL then .ok workingString
    else if strAt format i = '%' then
      match directive pf format flen (i + 1) argp with
      | .error e => .error e
      | .ok (j, rest, out) =>
        if strAt format j = NUL then .ok (workingString ++ out)
        else scanLoop pf format flen fuel (j + 1) rest (workingString ++ out)
    else
      scanLoop pf format flen fuel (i + 1) argp (workingString ++ [strAt format i])

/-- Lines 301-392: the scan of the whole template.  Every iteration moves `i`
forward and `i` never passes the terminator, so `flen + 1` iterations are
enough. -/
def scan (pf : Platform) (format : List Char) (args : List VArg) : Except Fault (List Char) :=
  scanLoop pf format (strlen format) (strlen format + 1) 0 args []

/-- The call `workingString.find(token)`: the first position at which the
token occurs. -/
def find : List Char → List Char → Option Nat
  | [], token => if token.isPrefixOf [] then some 0 else none
  | c :: w, token =>
    if token.isPrefixOf (c :: w) then some 0 else (find w token).map (fun i => i + 1)

/-- The call `workingString.replace(pos, n, text)`. -/
def replace (w : List Char) (pos n : Nat) (text : List Char) : List Char :=
  w.take pos ++ text ++ w.drop (pos + n)

/-- Lines 412-417 (and 430-435, 442-447): replace the token until `find` no
longer finds it, `fuel` tests of the loop condition at most. -/
def replaceLoop (token text : List Char) : Nat → List Char → Except Fault (List Char)
  | 0, _ => .error .outOfFuel
  | fuel + 1, w =>
    match find w token with
    | none => .ok w
    | some ifind => replaceLoop token text fuel (replace w ifind 2 text)

/-- The macros of lines 490-493. -/
def CORE_DEBUG_PREFIX_T : List Char := "%D p:%P t:%t [dbg] ".toList
/-- Line 491. -/
def CORE_LOG_PREFIX_T : List Char := "%D p:%P t:%t [LOG] ".toList
/-- Line 492. -/
def CORE_DEBUG_PREFIX : List Char := "%D p:%P t:%t [dbg] ".toList
/-- Line 493. -/
def CORE_LOG_PREFIX : List Char := "%D p:%P t:%t [LOG] ".toList

/-- Lines 495-512. -/
def GetFormatPrefix (s : State) (p : Nat) : List Char :=
  if MatchACEPriority s.timestamp_level_ &&& p ≠ 0 then
    if p = FL_DEBUG then CORE_DEBUG_PREFIX_T else CORE_LOG_PREFIX_T
  else
    if p = FL_DEBUG then CORE_DEBUG_PREFIX else CORE_LOG_PREFIX

/-- The call `workingString.at(pos)`: `none` stands for `std::out_of_range`. -/
def string_at (w : List Char) (pos : Nat) : Option Char := w.get? pos

/-- Lines 289-450 of `Log`: the text that reaches the critical section.
`at(length() - 1)` throws on an empty string (the index wraps around). -/
def formatLine (fuel : Nat) (pf : Platform) (s : State) (ace_p : Nat) (format : List Char)
    (args : List VArg) : Except Fault (List Char) :=
  let formatPrefix := GetFormatPrefix s ace_p
  match scan pf format args with
  | .error e => .error e
  | .ok body =>
    match replaceLoop ['%', 'D'] pf.todaysDate fuel (formatPrefix ++ body) with
    | .error e => .error e
    | .ok w1 =>
      match replaceLoop ['%', 't'] pf.percentt fuel w1 with
      | .error e => .error e
      | .ok w2 =>
        match replaceLoop ['%', 'P'] pf.percentP fuel w2 with
        | .error e => .error e
        | .ok w3 =>
          match string_at w3 (w3.length - 1) with
          | none => .error .thrown
          | some last =>
            if last = '\n' then .ok (replace w3 (w3.length - 1) 1 []) else .ok w3

/-- Lines 264-473.  Each of the three replacement loops may test its condition
`fuel` times.  An exception thrown in the `try` block ends in
`ReportLogFailure` (line 466). -/
def Log (fuel : Nat) (pf : Platform) (s : State) (p : priority) (format : List Char)
    (args : List VArg) : Except Fault State :=
  match s.plogFile_g with
  | none => .ok { s with cerr := s.cerr ++ " log file is NULL!" ++ "\n" }
  | some _ =>
    let ace_p := MatchACEPriority p.toNat
    if ace_p &&& s.level_ = 0 then .ok s
    else
      match formatLine fuel pf s ace_p format args with
      | .ok workingString => .ok (appendLine s (String.mk workingString))
      | .error .thrown => .ok (ReportLogFailure s)
      | .error e => .error e

/-! ## Console switch and snapshot -/

/-- Lines 234-253.  The worker pointer is dereferenced without a test. -/
def EnableLogToStderr (s : State) (enable : Bool) : Except Fault (Bool × State) :=
  let bRet := decide (s.fast_log_flags_ ||| STDERR ≠ 0)
  let s1 := { s with fast_log_flags_ := s.fast_log_flags_ ||| OSTREAM }
  let s2 :=
    if enable then { s1 with fast_log_flags_ := s1.fast_log_flags_ ||| STDERR }
    else { s1 with fast_log_flags_ := andNot s1.fast_log_flags_ STDERR }
  match s2.pLogThread_g with
  | none => .error .undefinedBehaviour
  | some t =>
    let s3 := { s2 with pLogThread_g := some t.StopAndWait }
    let s4 := set_flags s3 s3.fast_log_flags_
    .ok (bRet, { s4 with pLogThread_g := some t.StopAndWait.Start })

/-- The limit of line 597 (a 64-bit `size_t`). -/
def SIZE_MAX : Nat := 2 ^ 64 - 1

/-- Lines 579-614.  The result is the buffer (`none`: the NULL pointer) and
`len`.  The stream pointer is dereferenced without a test. -/
def LogContents (s : State) : Except Fault ((Option String × Nat) × State) :=
  match s.plogFile_g with
  | none => .error .undefinedBehaviour
  | some f =>
    let s1 := if f.is_open then ofstream_close s else s
    let ifile : Option String :=
      if s1.readable s1.logFileName_ = true then s1.disk s1.logFileName_ else none
    let r : Option String × Nat :=
      match ifile with
      | some text => if text.length < SIZE_MAX then (some text, text.length) else (none, 0)
      | none => (none, 0)
    .ok (r, ofstream_open s1 s1.logFileName_ .app)

/-! ## The buffer protocol as a step relation -/

/-- An atomic step of the buffer protocol: a producer appends a line (the
critical section of `Log`), or the worker drains (one iteration of `svc`). -/
inductive Step where
  | append (line : String)
  | drain

/-- The effect of one step. -/
def Step.apply (s : State) : Step → State
  | .append line => appendLine s line
  | .drain => svcIteration s

/-- The effect of an interleaving, first step first. -/
def run (s : State) (steps : List Step) : State := steps.foldl Step.apply s

/-- Lines joined by single newlines. -/
def joined : List String → String
  | [] => ""
  | [line] => line
  | line :: rest => line ++ "\n" ++ joined rest

/-- The pending buffer text, with a final newline when the buffer is not empty. -/
def pending (buffer : String) : String := if 0 < buffer.length then buffer ++ "\n" else buffer

/-- The content of the file at a path; a missing file has no content. -/
def fileText (s : State) (path : String) : String := (s.disk path).getD ""

/-! ## Concrete states and inputs -/

/-- A platform: a timestamp, a thread id, a process id, and a stand-in for the
floating-point conversion that shows the conversion specification it was
given. -/
def examplePlatform : Platform :=
  { todaysDate := "2009-11-11T10:20:30.123456".toList
    percentt := "140735".toList
    percentP := "4242".toList
    snprintf_f := fun spec _ => spec }

/-- A newly constructed logger in an environment where every path can be
opened and no file exists yet. -/
def freshState : State :=
  new 0 "/home/user" (fun _ => true) (fun _ => true) (fun _ => none)

/-- The logger after a first `Initialize`. -/
def openState : State := (Initialize freshState "CoreLog.txt" "core").2

/-- A newly constructed logger in an environment where no path can be opened
for output. -/
def lockedState : State :=
  new 0 "/home/user" (fun _ => false) (fun _ => true) (fun _ => none)

/-- The logger of `openState` after a reported failure: the latch is set. -/
def latchedState : State := ReportLogFailure openState

/-- A logger without a stream whose latch is set. -/
def latchedLockedState : State := ReportLogFailure lockedState

/-- The logger after an `Initialize` whose opens both failed: the stream
exists, is closed, and the fixed path is the fallback path. -/
def failedState : State := (Initialize lockedState "CoreLog.txt" "core").2

/-- The logger of `openState` after `EnableLogToStderr(false)`. -/
def consoleOffState : State :=
  match EnableLogToStderr openState false with
  | .ok r => r.2
  | .error _ => openState

/-- The logger of `openState` with one line waiting in the buffer. -/
def pendingState : State := appendLine openState "earlier line"

/-- The logger of `openState` with one line already in the file and a second
line still waiting in the buffer. -/
def writtenPendingState : State :=
  run openState [.append "first line", .drain, .append "second line"]

/-! ## The scan, as the specification words it -/

/-- The text of an argument read as a decimal integer. -/
def intText : VArg → Option (List Char)
  | .int n => some (toString n).toList
  | .chr c => some (toString c.toNat).toList
  | _ => none

/-- The text of an argument read as a single character. -/
def charText : VArg → Option (List Char)
  | .chr c => some [c]
  | .int n => some [toChar n]
  | _ => none

/-- The text of an argument read as a string. -/
def strText : VArg → Option (List Char)
  | .str text => some text
  | _ => none

/-- The text a floating-point argument is rendered to under a conversion
specification. -/
def dblText (pf : Platform) (spec : List Char) : VArg → Option (List Char)
  | .dbl x => some (pf.snprintf_f spec x)
  | _ => none

/-- The next argument, read by `conv`: its text and the arguments after it.
A missing argument or one of another kind leaves the behaviour undefined. -/
def nextArg (conv : VArg → Option (List Char)) :
    List VArg → Except Fault (List Char × List VArg)
  | a :: rest =>
    match conv a with
    | some text => .ok (text, rest)
    | none => .error .undefinedBehaviour
  | [] => .error .undefinedBehaviour

/-- The reference definition of the scan, from the words of the specification:
the template is read left to right; a character other than the percent sign is
copied; `%d`, `%c`, `%s` are replaced by the text of the next argument;
`%f`, `%e`, `%g` by the next floating-point argument in that form; `%.` takes
the next character as the precision of a float conversion and skips the
character after it; `%t`, `%D`, `%P` stay in place for the replacement that
follows; a percent sign followed by anything else, or by the end of the
template, emits nothing.  `clip` is what the rendering does to each converted
text (nothing, in the words of the specification). -/
def scanSpec (clip : List Char → List Char) (pf : Platform) :
    List Char → List VArg → Except Fault (List Char)
  | [], _ => .ok []
  | [x], _ => if x = '%' then .ok [] else .ok [x]
  | x :: y :: rest, args =>
    if x ≠ '%' then
      (scanSpec clip pf (y :: rest) args).map (fun out => x :: out)
    else if y = 'd' then
      match nextArg intText args with
      | .ok (text, args1) => (scanSpec clip pf rest args1).map (fun out => clip text ++ out)
      | .error e => .error e
    else if y = 'f' ∨ y = 'e' ∨ y = 'g' then
      match nextArg (dblText pf ['%', y]) args with
      | .ok (text, args1) => (scanSpec clip pf rest args1).map (fun out => clip text ++ out)
      | .error e => .error e
    else if y = 'c' then
      match nextArg charText args with
      | .ok (text, args1) => (scanSpec clip pf rest args1).map (fun out => clip text ++ out)
      | .error e => .error e
    else if y = 's' then
      match nextArg strText args with
      | .ok (text, args1) => (scanSpec clip pf rest args1).map (fun out => clip text ++ out)
      | .error e => .error e
    else if y = '.' then
      match rest with
      | [] =>
        match nextArg (dblText pf ['%']) args with
        | .ok (text, _) => .ok (clip text)
        | .error e => .error e
      | [n] =>
        match nextArg (dblText pf ['%', '.', n, 'f']) args with
        | .ok (text, _) => .ok (clip text)
        | .error e => .error e
      | n :: _ :: rest1 =>
        match nextArg (dblText pf ['%', '.', n, 'f']) args with
        | .ok (text, args1) => (scanSpec clip pf rest1 args1).map (fun out => clip text ++ out)
        | .error e => .error e
    else if y = 't' ∨ y = 'D' ∨ y = 'P' then
      (scanSpec clip pf rest args).map (fun out => '%' :: y :: out)
    else
      scanSpec clip pf rest args

/-- Every character argument is a byte, as a `char` is. -/
def bytesOnly (args : List VArg) : Prop :=
  ∀ c, VArg.chr c ∈ args → c.toNat < 256

/-- A string argument as long as the conversion buffer. -/
def longArgument : List Char := List.replicate MaxBuf 'a'

/-- A non-negative number in decimal, padded with zeros to `digits` places. -/
def paddedDecimal (digits n : Nat) : List Char :=
  List.replicate (digits - (toString n).length) '0' ++ (toString n).toList

/-- A rational in fixed-point notation with `digits` places after the point,
rounded to the nearest such number. -/
def fixedText (digits : Nat) (x : Rat) : List Char :=
  let scaled : Nat := (x.num.natAbs * 10 ^ digits * 2 + x.den) / (2 * x.den)
  (if x.num < 0 then ['-'] else []) ++ (toString (scaled / 10 ^ digits)).toList
    ++ (if digits = 0 then [] else '.' :: paddedDecimal digits (scaled % 10 ^ digits))

/-- A platform whose floating-point conversion renders `%.Nf` with N places
after the point and `%f` with six. -/
def decimalPlatform : Platform :=
  { examplePlatform with
    snprintf_f := fun spec x =>
      match spec with
      | ['%', '.', n, 'f'] => fixedText (n.toNat - 48) x
      | ['%', 'f'] => fixedText 6 x
      | _ => [] }

/-- The number 3.14159, in lowest terms. -/
def ratioArgument : Rat :=
  { num := 314159, den := 100000, den_nz := by decide, reduced := by decide }

/-! ## The replacement of the logger tokens, as the specification words it -/

/-- Whether the token `%c` occurs in a text. -/
def hasToken (c : Char) : List Char → Bool
  | x :: y :: rest => (x == '%' && y == c) || hasToken c (y :: rest)
  | _ => false

/-- A text read left to right with every token `%c` replaced by `text`. -/
def expandToken (c : Char) (text : List Char) : List Char → List Char
  | x :: y :: rest =>
    if x = '%' ∧ y = c then text ++ expandToken c text rest
    else x :: expandToken c text (y :: rest)
  | w => w

/-- A text read left to right with every `%D` replaced by the timestamp, every
`%t` by the thread id and every `%P` by the process id. -/
def expandTokens (pf : Platform) : List Char → List Char
  | x :: y :: rest =>
    if x = '%' ∧ y = 'D' then pf.todaysDate ++ expandTokens pf rest
    else if x = '%' ∧ y = 't' then pf.percentt ++ expandTokens pf rest
    else if x = '%' ∧ y = 'P' then pf.percentP ++ expandTokens pf rest
    else x :: expandTokens pf (y :: rest)
  | w => w

/-- A text without its final newline, when it ends with one. -/
def stripNewline (w : List Char) : List Char :=
  if w.getLast? = some '\n' then w.dropLast else w

/-- What the platform texts are like: not empty, free of percent signs, and
not beginning with `D`, `t` or `P`. -/
def stampOk (text : List Char) : Prop :=
  text ≠ [] ∧ '%' ∉ text ∧ text.head? ≠ some 'D' ∧ text.head? ≠ some 't' ∧
    text.head? ≠ some 'P'

/-! ## The worker loop and the destructor -/

/-- Lines 71-90: the `do ... while (!stop_)` loop of `svc` against a schedule.
A round is the loop body (the drain of `svcIteration`, then `SleepMs(30)`)
followed by the loop test; the schedule gives, for each round, the lines the
producers append (critical section of `Log`) between the drain and the test,
and the value of `stop_` the test reads.  The loop ends with the first test
that reads `true`, or when the schedule ends. -/
def svc (s : State) : List (List String × Bool) → State
  | [] => s
  | (during, stop_) :: rounds =>
    let s1 := run (svcIteration s) (during.map Step.append)
    if stop_ then s1 else svc s1 rounds

/-- Lines 109-118: `~FastLogger`.  When the worker exists it is stopped,
joined (`Stop`, `wait`) and deleted, the pointer keeps its value; then
`Shutdown` runs.  No statement reads the accumulation buffer. -/
def destructor (s : State) : State :=
  let s1 :=
    match s.pLogThread_g with
    | some t => { s with pLogThread_g := some t.StopAndWait }
    | none => s
  Shutdown s1

/-! ## The Cobolt adapter: `LaserFactory::Create` -/

/-- The value `std::string::npos`: the largest `size_t` (64 bits). -/
def npos : Nat := 2 ^ 64 - 1

/-- The call `text.find(token)` of `std::string` as the number it returns:
the first position at which the token occurs, `npos` when it occurs nowhere. -/
def string_find (text token : List Char) : Nat := (find text token).getD npos

/-- The object `Create` returns, by the class that is instantiated, with the
constructor arguments taken from the model string or given as literals. -/
inductive LaserInstance where
  | OldDpl06Laser (wavelength : List Char)
  | Dpl06Laser (wavelength : List Char)
  | OldMld06Laser (name : List Char)
  | Mld06Laser (wavelength : List Char)
  | Gen5Laser (wavelength : List Char)
  | SkyraLaser (line1 line2 line3 line4 : Bool)
  | Laser (name : List Char)
  deriving DecidableEq, Repr

/-- The call `driver->SendCommand(command, &response)`: the response when the
return code is `return_code::ok`, `none` otherwise. -/
abbrev LaserDriver := List Char → Option (List Char)

/-- Lines 131-138 of `LaserFactory.cpp`: the body of the loop over the lines
of a Skyra, for the index `i`; `none` is the `return NULL` of line 134. -/
def enabledLine (driver : LaserDriver) (i : Nat) : Option Bool :=
  match driver ((toString (i + 1)).toList ++ "glm?".toList) with
  | none => none
  | some submodelString =>
    some (decide (string_find submodelString "MLD".toList ≠ npos ∨
      string_find submodelString "DPL".toList ≠ npos))

/-- Lines 89-153 of `LaserFactory.cpp`: the dispatch of `LaserFactory::Create`
on the firmware version and the model string the driver has answered (lines
67-77) and the wavelength text of lines 83-87; `none` is a NULL result.  A
`find` result compared with `npos` tells whether the token occurs; in lines
117-119 the `find` results themselves are the operands of `||`, so each
counts as true when it is not zero. -/
def Create (driver : LaserDriver) (firmwareVersion modelString wavelength : List Char) :
    Option LaserInstance :=
  if string_find modelString "-06-51-".toList ≠ npos ∨
      string_find modelString "-06-53-".toList ≠ npos ∨
      string_find modelString "-06-57-".toList ≠ npos ∨
      string_find modelString "-06-91-".toList ≠ npos ∨
      string_find modelString "-06-93-".toList ≠ npos ∨
      string_find modelString "-06-97-".toList ≠ npos then
    some (.OldDpl06Laser wavelength)
  else if string_find firmwareVersion "/1005.".toList ≠ npos then
    some (.Dpl06Laser wavelength)
  else if string_find modelString "-06-01-".toList ≠ npos ∨
      string_find modelString "-06-03-".toList ≠ npos then
    some (.OldMld06Laser "06-MLD".toList)
  else if string_find firmwareVersion "/1004.".toList ≠ npos then
    some (.Mld06Laser wavelength)
  else if string_find modelString "-05-01-".toList ≠ 0 ∨
      string_find modelString "-05-03-".toList ≠ 0 ∨
      string_find modelString "-05-41-".toList ≠ 0 then
    some (.Gen5Laser wavelength)
  else if string_find firmwareVersion "9.001".toList ≠ npos then
    match enabledLine driver 0 with
    | none => none
    | some line1 =>
      match enabledLine driver 1 with
      | none => none
      | some line2 =>
        match enabledLine driver 2 with
        | none => none
        | some line3 =>
          match enabledLine driver 3 with
          | none => none
          | some line4 => some (.SkyraLaser line1 line2 line3 line4)
  else
    some (.Laser "Unknown".toList)

/-- A driver that answers no command. -/
def silentDriver : LaserDriver := fun _ => none

/-! ## The two locks -/

/-- The two locks of the logger: `logFileLock_g` guards the sinks,
`logStringLock_g` the accumulation buffer. -/
inductive Lock where
  | logFileLock_g
  | logStringLock_g
  deriving DecidableEq, Repr

/-- What a thread does to a lock. -/
inductive LockEvent where
  | acquire (l : Lock)
  | release (l : Lock)
  deriving DecidableEq, Repr

/-- How control leaves a piece of code: at its end, by a `return`, or by an
exception. -/
inductive Exit where
  | normal
  | returned
  | thrown
  deriving DecidableEq, Repr

/-- The lock skeleton of a function body.  `work` stands for statements that
take no lock: they complete or throw.  `guard l rest` is the declaration
`MMThreadGuard g(l);` followed by the rest of the enclosing block.  `choice`
is an `if` with its two branches, `ret` a `return`, `raise` a `throw`
statement, `tryCatch` a `try` block with its `catch(...)` handler. -/
inductive Code where
  | skip
  | work
  | ret
  | raise
  | guard (l : Lock) (rest : Code)
  | seq (a b : Code)
  | choice (a b : Code)
  | tryCatch (body handler : Code)
  deriving Repr

/-- Modelled from the spec: `MMThreadGuard` (DeviceThreads.h, not among the
sources) acquires the lock in its constructor and releases it in its
destructor, that is when the enclosing block is left, be it at its end, by a
`return` or by an exception (before a handler of an enclosing `try` runs).
The function lists every path through a skeleton: the lock events in order,
and how the path leaves. -/
def Code.paths : Code → List (List LockEvent × Exit)
  | .skip => [([], .normal)]
  | .work => [([], .normal), ([], .thrown)]
  | .ret => [([], .returned)]
  | .raise => [([], .thrown)]
  | .guard l rest =>
    (Code.paths rest).map (fun p => (LockEvent.acquire l :: p.1 ++ [LockEvent.release l], p.2))
  | .seq a b =>
    (Code.paths a).flatMap (fun p =>
      match p.2 with
      | .normal => (Code.paths b).map (fun q => (p.1 ++ q.1, q.2))
      | _ => [p])
  | .choice a b => Code.paths a ++ Code.paths b
  | .tryCatch body handler =>
    (Code.paths body).flatMap (fun p =>
      match p.2 with
      | .thrown => (Code.paths handler).map (fun q => (p.1 ++ q.1, q.2))
      | _ => [p])

/-- Lines 475-488: `ReportLogFailure`. -/
def ReportLogFailure_skeleton : Code :=
  .choice (.seq .work (.guard .logFileLock_g (.tryCatch .work .skip))) .skip

/-- Lines 264-473: `Log`.  The first block holds the sink lock and may return;
the `try` block computes the gate (and may return), formats, and appends
inside a block of its own that holds the buffer lock; the handler calls
`ReportLogFailure`. -/
def Log_skeleton : Code :=
  .seq (.guard .logFileLock_g (.choice (.seq .work .ret) .skip))
    (.tryCatch
      (.seq .work (.seq (.choice .ret .skip) (.seq .work (.guard .logStringLock_g .work))))
      ReportLogFailure_skeleton)

/-- Lines 71-89: the body of the loop of `LoggerThread::svc`: the copy of the
buffer in a block that holds the buffer lock, then, when the copy is not
empty, the console write followed by the file write under the sink lock, then
the sleep. -/
def svcBody_skeleton : Code :=
  .seq .work
    (.seq (.guard .logStringLock_g .work)
      (.seq (.choice (.seq .work (.guard .logFileLock_g .work)) .skip) .work))

/-- Lines 69-93: `LoggerThread::svc` when the loop body runs `n + 1` times. -/
def svc_skeleton : Nat → Code
  | 0 => svcBody_skeleton
  | n + 1 => .seq svcBody_skeleton (svc_skeleton n)

/-- Lines 126-158: `Initialize`. -/
def Initialize_skeleton : Code :=
  .tryCatch (.seq .work (.seq (.guard .logFileLock_g .work) .work))
    (.seq ReportLogFailure_skeleton .raise)

/-- Lines 161-183: `Shutdown`. -/
def Shutdown_skeleton : Code :=
  .tryCatch (.guard .logFileLock_g .work) (.seq .work (.seq ReportLogFailure_skeleton .raise))

/-- Lines 185-209: `Reset`. -/
def Reset_skeleton : Code :=
  .tryCatch (.guard .logFileLock_g .work) (.seq ReportLogFailure_skeleton .raise)

/-- Lines 579-614: `LogContents`. -/
def LogContents_skeleton : Code :=
  .seq .work (.guard .logFileLock_g .work)

/-- The lock a thread holds after a sequence of lock events, when it held
`held` before; the outer `none` when an event breaks the discipline: a lock is
acquired while a lock is held, or a lock is released that is not held. -/
def holds : Option Lock → List LockEvent → Option (Option Lock)
  | held, [] => some held
  | none, .acquire l :: rest => holds (some l) rest
  | some _, .acquire _ :: _ => none
  | some h, .release l :: rest => if h = l then holds none rest else none
  | none, .release _ :: _ => none

/-- A sequence of lock events that never takes a lock while one is held, and
ends with no lock held. -/
def neverNested (events : List LockEvent) : Bool := holds none events = some none

/-- A thread among others: the lock it holds and the lock events it still has
to perform. -/
structure ThreadState where
  held : Option Lock
  todo : List LockEvent
  deriving DecidableEq, Repr

/-- A thread whose remaining events keep the discipline from the lock it holds. -/
def ThreadState.disciplined (th : ThreadState) : Bool :=
  decide (holds th.held th.todo = some none)

/-- The thread after its next lock event. -/
def ThreadState.step (th : ThreadState) : ThreadState :=
  match th.todo with
  | [] => th
  | .acquire l :: rest => { held := some l, todo := rest }
  | .release _ :: rest => { held := none, todo := rest }

/-- Whether a thread of a pool can perform its next lock event: a release
always, an acquire when no thread of the pool holds the lock. -/
def canStep (pool : List ThreadState) (th : ThreadState) : Bool :=
  match th.todo with
  | [] => false
  | .release _ :: _ => true
  | .acquire l :: _ => pool.all (fun other => decide (other.held ≠ some l))

/-- Two threads: a producer inside the critical section of `Log`, and the
worker about to copy the buffer. -/
def examplePool : List ThreadState :=
  [{ held := some .logStringLock_g, todo := [.release .logStringLock_g] },
   { held := none,
     todo := [.acquire .logStringLock_g, .release .logStringLock_g,
       .acquire .logFileLock_g, .release .logFileLock_g] }]

/-! ## `Log` when memory runs out -/

/-- The statements of the `try` block of `Log` taken as able to fail with an
exception for lack of memory (`std::bad_alloc`, `std::length_error`): the
allocation of the conversion buffer (line 299, before the first `va_arg`) and
the two appends of the critical section (lines 457 and 458). -/
inductive Exhaustion where
  | bigBuffer
  | separator
  | workingString
  deriving DecidableEq, Repr

/-- Lines 264-473 in an execution where the statement `failure`, if one is
named and reached, throws.  An append of `std::string` that throws leaves the
string as it was; the guard of the critical section releases and the handler
of lines 464-467 calls `ReportLogFailure`.  With no statement named the steps
are those of `Log`. -/
def LogWithFailure (failure : Option Exhaustion) (fuel : Nat) (pf : Platform) (s : State)
    (p : priority) (format : List Char) (args : List VArg) : Except Fault State :=
  match s.plogFile_g with
  | none => .ok { s with cerr := s.cerr ++ " log file is NULL!" ++ "\n" }
  | some _ =>
    let ace_p := MatchACEPriority p.toNat
    if ace_p &&& s.level_ = 0 then .ok s
    else if failure = some .bigBuffer then .ok (ReportLogFailure s)
    else
      match formatLine fuel pf s ace_p format args with
      | .ok workingString =>
        if 0 < s.stringToWrite_g.length then
          if failure = some .separator then .ok (ReportLogFailure s)
          else
            let s1 := { s with stringToWrite_g := s.stringToWrite_g ++ "\n" }
            if failure = some .workingString then .ok (ReportLogFailure s1)
            else .ok { s1 with stringToWrite_g := s1.stringToWrite_g ++ String.mk workingString }
        else
          if failure = some .workingString then .ok (ReportLogFailure s)
          else .ok { s with stringToWrite_g := s.stringToWrite_g ++ String.mk workingString }
      | .error .thrown => .ok (ReportLogFailure s)
      | .error e => .error e

/-! ## Text lemmas -/

theorem string_length_eq_zero (t : String) : t.length = 0 ↔ t = "" := by
  constructor
  · intro h
    apply String.ext
    exact List.length_eq_zero.mp h
  · intro h; subst h; rfl

theorem string_length_pos (t : String) : 0 < t.length ↔ t ≠ "" := by
  rw [Nat.pos_iff_ne_zero, Ne, string_length_eq_zero]

theorem pending_empty : pending "" = "" := by decide

theorem pending_appendLine (s : State) (line : String) (h : line ≠ "") :
    pending (appendLine s line).stringToWrite_g = pending s.stringToWrite_g ++ (line ++ "\n") := by
  have hl : 0 < line.length := (string_length_pos line).mpr h
  unfold pending appendLine
  by_cases hb : 0 < s.stringToWrite_g.length
  · have h2 : 0 < (s.stringToWrite_g ++ "\n" ++ line).length := by
      simp only [String.length_append]; omega
    dsimp only
    rw [if_pos hb, if_pos h2]
    simp only [String.append_assoc]
  · have h2 : 0 < (s.stringToWrite_g ++ line).length := by
      simp only [String.length_append]; omega
    have hb' : s.stringToWrite_g = "" := by
      rw [← string_length_eq_zero]; omega
    dsimp only
    rw [if_neg hb, if_pos h2]
    simp only [String.append_assoc]

theorem joined_snoc (lines : List String) (line : String) :
    joined (lines ++ [line]) = if lines = [] then line else joined lines ++ "\n" ++ line := by
  induction lines with
  | nil => rfl
  | cons a rest ih =>
    cases rest with
    | nil => simp [joined]
    | cons b rest2 =>
      simp only [List.cons_append] at ih ⊢
      simp only [joined, reduceCtorEq, if_false] at ih ⊢
      rw [ih]; simp only [String.append_assoc, List.cons_append]

theorem joined_eq_empty (lines : List String) (h : ∀ l ∈ lines, l ≠ "") :
    joined lines = "" ↔ lines = [] := by
  constructor
  · intro hj
    cases lines with
    | nil => rfl
    | cons a rest =>
      exfalso
      have ha : a ≠ "" := h a (List.mem_cons_self _ _)
      have hpos : 0 < a.length := (string_length_pos a).mpr ha
      have : 0 < (joined (a :: rest)).length := by
        cases rest with
        | nil => simpa [joined] using hpos
        | cons b r => simp only [joined, String.length_append]; omega
      rw [hj] at this; exact absurd this (by decide)
  · intro h; subst h; rfl


theorem run_snoc (s : State) (steps : List Step) (st : Step) :
    run s (steps ++ [st]) = Step.apply (run s steps) st := by
  simp [run, List.foldl_append]

theorem strAt_strlen (format : List Char) : strAt format (strlen format) = NUL := by
  unfold strAt strlen c_str
  induction format with
  | nil => rfl
  | cons c rest ih =>
    by_cases hc : c = NUL
    · simp [List.takeWhile, hc]
    · simp [List.takeWhile, hc]
      simpa using ih

theorem lt_strlen_of_ne_NUL (format : List Char) (i : Nat) (hi : i ≤ strlen format)
    (h : strAt format i ≠ NUL) : i < strlen format := by
  rcases Nat.lt_or_ge i (strlen format) with h1 | h1
  · exact h1
  · have : i = strlen format := Nat.le_antisymm hi h1
    rw [this, strAt_strlen] at h
    exact absurd rfl h

theorem va_arg_int_fault (argp : List VArg) (e : Fault) (h : va_arg_int argp = .error e) :
    e = .undefinedBehaviour := by
  unfold va_arg_int at h
  split at h <;> simp_all

theorem va_arg_double_fault (argp : List VArg) (e : Fault) (h : va_arg_double argp = .error e) :
    e = .undefinedBehaviour := by
  unfold va_arg_double at h
  split at h <;> simp_all

theorem va_arg_str_fault (argp : List VArg) (e : Fault) (h : va_arg_str argp = .error e) :
    e = .undefinedBehaviour := by
  unfold va_arg_str at h
  split at h <;> simp_all

/-- The switch fails only where `va_arg` has undefined behaviour. -/
theorem directive_fault (pf : Platform) (format : List Char) (flen i : Nat) (argp : List VArg)
    (e : Fault) (h : directive pf format flen i argp = .error e) : e = .undefinedBehaviour := by
  unfold directive at h
  dsimp only at h
  split_ifs at h
  all_goals try split at h
  all_goals first
    | (rename_i e2 he
       injection h with h; subst h
       first
         | exact va_arg_int_fault _ _ he
         | exact va_arg_double_fault _ _ he
         | exact va_arg_str_fault _ _ he)
    | simp at h

/-- The switch never moves `i` backwards and never past the terminator. -/
theorem directive_index (pf : Platform) (format : List Char) (flen i : Nat) (argp : List VArg)
    (j : Nat) (rest : List VArg) (out : List Char)
    (h : directive pf format flen i argp = .ok (j, rest, out)) :
    i ≤ j ∧ (i ≤ flen → j ≤ flen) := by
  unfold directive at h
  dsimp only at h
  split_ifs at h
  all_goals try split at h
  all_goals first
    | (simp only [Except.ok.injEq, Prod.mk.injEq] at h
       obtain ⟨h1, -, -⟩ := h
       subst h1
       exact ⟨by omega, fun _ => by omega⟩)
    | simp at h

/-- The loop over the template ends before its fuel does, and throws nothing. -/
theorem scanLoop_fault (pf : Platform) (format : List Char) :
    ∀ (fuel i : Nat) (argp : List VArg) (w : List Char) (e : Fault),
      i ≤ strlen format → strlen format + 1 ≤ fuel + i →
      scanLoop pf format (strlen format) fuel i argp w = .error e → e = .undefinedBehaviour := by
  intro fuel
  induction fuel with
  | zero => intro i argp w e h1 h2 _; omega
  | succ fuel ih =>
    intro i argp w e h1 h2 h
    unfold scanLoop at h
    split_ifs at h with hnul hpc
    · have hlt := lt_strlen_of_ne_NUL format i h1 hnul
      split at h
      · rename_i e2 he
        injection h with h; subst h
        exact directive_fault _ _ _ _ _ _ he
      · rename_i j rest out he
        have hj := directive_index _ _ _ _ _ _ _ _ he
        split_ifs at h with hj0
        have hjlt := lt_strlen_of_ne_NUL format j (hj.2 hlt) hj0
        exact ih (j + 1) rest _ e hjlt (by omega) h
    · have hlt := lt_strlen_of_ne_NUL format i h1 hnul
      exact ih (i + 1) argp _ e hlt (by omega) h

theorem scan_fault (pf : Platform) (format : List Char) (args : List VArg) (e : Fault)
    (h : scan pf format args = .error e) : e = .undefinedBehaviour :=
  scanLoop_fault pf format _ 0 args [] e (Nat.zero_le _) (by omega) h
theorem find_some (token : List Char) : ∀ (w : List Char) (i : Nat), find w token = some i →
    w = w.take i ++ token ++ w.drop (i + token.length) := by
  intro w
  induction w with
  | nil =>
    intro i h
    unfold find at h
    split_ifs at h with hp
    have : token = [] := by
      cases token with
      | nil => rfl
      | cons a t => simp [List.isPrefixOf] at hp
    subst this
    simp
  | cons c w ih =>
    intro i h
    unfold find at h
    split_ifs at h with hp
    · injection h with h; subst h
      have := List.prefix_iff_eq_append.mp (List.isPrefixOf_iff_prefix.mp hp)
      simpa using this.symm
    · cases hf : find w token with
      | none => rw [hf] at h; simp at h
      | some k =>
        rw [hf] at h
        simp only [Option.map_some'] at h
        injection h with h; subst h
        have := ih k hf
        simp only [List.take_succ_cons, List.cons_append]
        rw [show k + 1 + token.length = (k + token.length) + 1 by omega, List.drop_succ_cons]
        congr 1

/-- One replacement removes one percent sign when the inserted text has none. -/
theorem count_replace (w text : List Char) (c : Char) (i : Nat)
    (htext : '%' ∉ text) (hc : c ≠ '%') (h : find w ['%', c] = some i) :
    List.count '%' (replace w i 2 text) + 1 = List.count '%' w := by
  have hw := find_some ['%', c] w i h
  have hc' : ('%' == c) = false := by
    simp only [beq_eq_false_iff_ne, ne_eq]; exact fun h => hc h.symm
  have e1 : List.count '%' w
      = List.count '%' (w.take i) + 1 + List.count '%' (w.drop (i + 2)) := by
    conv_lhs => rw [hw]
    simp [List.count_append, List.count_cons, hc', hc]
    omega
  unfold replace
  rw [e1]
  simp [List.count_append, List.count_eq_zero_of_not_mem htext]
  omega

/-- A character that is not part of the token survives a replacement. -/
theorem mem_replace (w text : List Char) (c x : Char) (i : Nat)
    (hx1 : x ≠ '%') (hx2 : x ≠ c) (h : find w ['%', c] = some i) (hx : x ∈ w) :
    x ∈ replace w i 2 text := by
  have hw := find_some ['%', c] w i h
  rw [hw] at hx
  unfold replace
  simp only [List.mem_append, List.mem_cons, List.length_cons, List.length_nil] at hx ⊢
  rcases hx with (hx | hx | hx | hx) | hx
  · exact Or.inl (Or.inl hx)
  · exact absurd hx hx1
  · exact absurd hx hx2
  · simp at hx
  · exact Or.inr hx

/-- The replacement loop ends when the inserted text has no percent sign: with
more fuel than percent signs the result does not depend on the fuel. -/
theorem replaceLoop_ok (text : List Char) (c x : Char) (htext : '%' ∉ text) (hc : c ≠ '%')
    (hx1 : x ≠ '%') (hx2 : x ≠ c) :
    ∀ (n : Nat) (w : List Char), List.count '%' w ≤ n → x ∈ w →
      ∃ w2, (∀ fuel, n < fuel → replaceLoop ['%', c] text fuel w = .ok w2) ∧
        List.count '%' w2 ≤ List.count '%' w ∧ x ∈ w2 := by
  intro n
  induction n with
  | zero =>
    intro w hn hx
    refine ⟨w, ?_, Nat.le_refl _, hx⟩
    intro fuel hf
    obtain ⟨f, rfl⟩ : ∃ f, fuel = f + 1 := ⟨fuel - 1, by omega⟩
    unfold replaceLoop
    cases hfind : find w ['%', c] with
    | none => rfl
    | some i =>
      have := count_replace w text c i htext hc hfind
      omega
  | succ n ih =>
    intro w hn hx
    cases hfind : find w ['%', c] with
    | none =>
      refine ⟨w, ?_, Nat.le_refl _, hx⟩
      intro fuel hf
      obtain ⟨f, rfl⟩ : ∃ f, fuel = f + 1 := ⟨fuel - 1, by omega⟩
      unfold replaceLoop
      rw [hfind]
    | some i =>
      have hcount := count_replace w text c i htext hc hfind
      obtain ⟨w2, h1, h2, h3⟩ := ih (replace w i 2 text) (by omega)
        (mem_replace w text c x i hx1 hx2 hfind hx)
      refine ⟨w2, ?_, by omega, h3⟩
      intro fuel hf
      obtain ⟨f, rfl⟩ : ∃ f, fuel = f + 1 := ⟨fuel - 1, by omega⟩
      unfold replaceLoop
      rw [hfind]
      exact h1 f (by omega)
theorem space_mem_GetFormatPrefix (s : State) (p : Nat) : ' ' ∈ GetFormatPrefix s p := by
  unfold GetFormatPrefix
  split_ifs <;> decide

theorem mem_take_of_ne_last (w : List Char) (x last : Char)
    (hlast : string_at w (w.length - 1) = some last) (hx : x ∈ w) (hne : x ≠ last) :
    x ∈ w.take (w.length - 1) := by
  unfold string_at at hlast
  have hlen : w.length - 1 < w.length := by
    rcases List.get?_eq_some.mp hlast with ⟨h, -⟩
    exact h
  rw [← List.take_append_drop (w.length - 1) w] at hx
  rcases List.mem_append.mp hx with h | h
  · exact h
  · exfalso
    have hd : w.drop (w.length - 1) = [last] := by
      have h1 : (w.drop (w.length - 1)).length = 1 := by
        rw [List.length_drop]; omega
      have h2 : (w.drop (w.length - 1))[0]? = some last := by
        rw [List.getElem?_drop]; simpa [List.get?_eq_getElem?] using hlast
      match hw : w.drop (w.length - 1), h1, h2 with
      | [a], _, h2 => simp at h2; rw [h2]
    rw [hd] at h
    exact hne (List.mem_singleton.mp h)

/-- With platform texts free of percent signs, a template the arguments match
is rendered to a non-empty line, whatever fuel above the number of percent
signs the loops are given. -/
theorem formatLine_ok (pf : Platform) (s : State) (ace_p : Nat) (format : List Char)
    (args : List VArg) (body : List Char)
    (hD : '%' ∉ pf.todaysDate) (ht : '%' ∉ pf.percentt) (hP : '%' ∉ pf.percentP)
    (hscan : scan pf format args = .ok body) :
    ∃ line, line ≠ [] ∧
      ∀ fuel, List.count '%' (GetFormatPrefix s ace_p ++ body) < fuel →
        formatLine fuel pf s ace_p format args = .ok line := by
  have hsp : ' ' ∈ GetFormatPrefix s ace_p ++ body :=
    List.mem_append_left _ (space_mem_GetFormatPrefix s ace_p)
  obtain ⟨w1, h1, c1, m1⟩ := replaceLoop_ok pf.todaysDate 'D' ' ' hD (by decide) (by decide)
    (by decide) _ _ (Nat.le_refl _) hsp
  obtain ⟨w2, h2, c2, m2⟩ := replaceLoop_ok pf.percentt 't' ' ' ht (by decide) (by decide)
    (by decide) _ _ c1 m1
  obtain ⟨w3, h3, c3, m3⟩ := replaceLoop_ok pf.percentP 'P' ' ' hP (by decide) (by decide)
    (by decide) _ _ (Nat.le_trans c2 c1) m2
  have hlen : 0 < w3.length := List.length_pos_of_mem m3
  cases hat : string_at w3 (w3.length - 1) with
  | none =>
    exfalso
    unfold string_at at hat
    rw [List.get?_eq_none] at hat
    omega
  | some last =>
    by_cases hnl : last = '\n'
    · refine ⟨replace w3 (w3.length - 1) 1 [], ?_, ?_⟩
      · have : ' ' ∈ w3.take (w3.length - 1) :=
          mem_take_of_ne_last w3 ' ' last hat m3 (by rw [hnl]; decide)
        unfold replace
        intro hnil
        rw [List.append_nil] at hnil
        have h0 := List.append_eq_nil.mp hnil
        rw [h0.1] at this
        exact absurd this (List.not_mem_nil _)
      · intro fuel hf
        unfold formatLine
        simp only [hscan, h1 fuel hf, h2 fuel hf, h3 fuel hf, hat, hnl, if_true]
    · refine ⟨w3, List.ne_nil_of_length_pos hlen, ?_⟩
      intro fuel hf
      unfold formatLine
      simp only [hscan, h1 fuel hf, h2 fuel hf, h3 fuel hf, hat, hnl, if_false]

/-- The mask installed by `SetPriorityLevel` does not depend on the state. -/
theorem SetPriorityLevel_level (s t : State) (T : priority) :
    (SetPriorityLevel s T).level_ = (SetPriorityLevel t T).level_ := by
  cases T <;> rfl

/-- The gate of line 286 after `SetPriorityLevel`: the pairs that pass. -/
theorem gate_open (s : State) (T p : priority) (hT : T = .trace ∨ T = .debug ∨ T = .info)
    (hp : p.selectable = true) (hle : T.toNat ≤ p.toNat) :
    MatchACEPriority p.toNat &&& (SetPriorityLevel s T).level_ ≠ 0 := by
  rcases hT with h | h | h <;> subst h <;> cases p <;>
    first
      | exact absurd hp (by decide)
      | exact absurd hle (by decide)
      | (simp only [SetPriorityLevel]; decide)

theorem gate_closed (s : State) (T p : priority) (hT : T.selectable = true)
    (hp : p.selectable = true) (hlt : p.toNat < T.toNat) (hex : ¬ (T = .debug ∧ p = .trace)) :
    MatchACEPriority p.toNat &&& (SetPriorityLevel s T).level_ = 0 := by
  cases T <;> cases p <;>
    first
      | exact absurd hT (by decide)
      | exact absurd hp (by decide)
      | exact absurd hlt (by decide)
      | (exfalso; apply hex; constructor <;> rfl)
      | (simp only [SetPriorityLevel]; decide)

/-! ## C1: the buffer protocol -/

/-- C2 (as stated, refuted): after `SetPriorityLevel(alert)` a call of `Log` at
priority `alert`, with the file handle present, does not pass the gate: the
call returns with the state, and so the buffer, unchanged. -/
theorem C2_counterexample :
    (SetPriorityLevel openState .alert).plogFile_g ≠ none ∧
    priority.alert.toNat ≤ priority.alert.toNat ∧
    MatchACEPriority priority.alert.toNat &&& (SetPriorityLevel openState .alert).level_ = 0 ∧
    Log 8 examplePlatform (SetPriorityLevel openState .alert) .alert "laser on".toList []
      = .ok (SetPriorityLevel openState .alert) ∧
    (SetPriorityLevel openState .alert).stringToWrite_g = "" :=
  ⟨by decide, by decide, by decide, rfl, by decide⟩

/-- C2 (amended): for every threshold T among trace, debug and info and every
selectable priority p at least as severe as T, a call of `Log` at p made after
`SetPriorityLevel(T)` with the file handle present passes the gate; when the
arguments match the directives of the template and the platform texts hold no
percent sign, the call returns, whatever fuel above a bound the replacement
loops get, and appends the rendered, non-empty line to the buffer. -/
theorem C2_log_at_or_above_threshold (pf : Platform) (s : State) (T p : priority)
    (format : List Char) (args : List VArg)
    (hT : T = .trace ∨ T = .debug ∨ T = .info) (hp : p.selectable = true)
    (hle : T.toNat ≤ p.toNat) (hfile : s.plogFile_g ≠ none)
    (hD : '%' ∉ pf.todaysDate) (ht : '%' ∉ pf.percentt) (hP : '%' ∉ pf.percentP)
    (hargs : scan pf format args ≠ .error .undefinedBehaviour) :
    MatchACEPriority p.toNat &&& (SetPriorityLevel s T).level_ ≠ 0 ∧
    ∃ line bound, line ≠ [] ∧ ∀ fuel, bound ≤ fuel →
      formatLine fuel pf (SetPriorityLevel s T) (MatchACEPriority p.toNat) format args
        = .ok line ∧
      Log fuel pf (SetPriorityLevel s T) p format args
        = .ok (appendLine (SetPriorityLevel s T) (String.mk line)) := by
  have hgate := gate_open s T p hT hp hle
  refine ⟨hgate, ?_⟩
  cases hscan : scan pf format args with
  | error e =>
    exfalso
    have := scan_fault pf format args e hscan
    subst this
    exact hargs hscan
  | ok body =>
    obtain ⟨line, hne, hline⟩ := formatLine_ok pf (SetPriorityLevel s T)
      (MatchACEPriority p.toNat) format args body hD ht hP hscan
    refine ⟨line, List.count '%' (GetFormatPrefix (SetPriorityLevel s T)
      (MatchACEPriority p.toNat) ++ body) + 1, hne, ?_⟩
    intro fuel hfuel
    have hfl := hline fuel (by omega)
    refine ⟨hfl, ?_⟩
    unfold Log
    have hfile2 : (SetPriorityLevel s T).plogFile_g = s.plogFile_g := rfl
    cases hpf : s.plogFile_g with
    | none => exact absurd hpf hfile
    | some f =>
      rw [hfile2, hpf]
      simp only [hgate, if_false, hfl]

theorem C2_log_at_or_above_threshold_witness :
    MatchACEPriority priority.error.toNat &&& (SetPriorityLevel openState .debug).level_ ≠ 0 ∧
    ∃ line bound, line ≠ [] ∧ ∀ fuel, bound ≤ fuel →
      formatLine fuel examplePlatform (SetPriorityLevel openState .debug)
          (MatchACEPriority priority.error.toNat) "shutter %d: %s\n".toList
          [.int 2, .str "stuck".toList]
        = .ok line ∧
      Log fuel examplePlatform (SetPriorityLevel openState .debug) .error
          "shutter %d: %s\n".toList [.int 2, .str "stuck".toList]
        = .ok (appendLine (SetPriorityLevel openState .debug) (String.mk line)) :=
  C2_log_at_or_above_threshold examplePlatform openState .debug .error
    "shutter %d: %s\n".toList [.int 2, .str "stuck".toList]
    (by decide) (by decide) (by decide) (by decide) (by decide) (by decide) (by decide)
    (by decide)

/-- C3 (as stated, refuted): after `SetPriorityLevel(debug)` a call of `Log` at
priority `trace`, strictly less severe than `debug`, is not a no-op: its line
is appended to the empty buffer. -/
theorem C3_counterexample :
    priority.trace.toNat < priority.debug.toNat ∧
    (SetPriorityLevel openState .debug).stringToWrite_g = "" ∧
    (Log 8 examplePlatform (SetPriorityLevel openState .debug) .trace
        "entering %s".toList [.str "snap".toList]).toOption.map (fun r => r.stringToWrite_g)
      = some "2009-11-11T10:20:30.123456 p:4242 t:140735 [dbg] entering snap" := by
  decide

/-- C3 (amended): for every selectable threshold T and every selectable
priority p strictly less severe than T, other than T = debug with p = trace,
a call of `Log` at p made after `SetPriorityLevel(T)` returns for every fuel
and leaves the buffer, the files and, with the file handle present, the whole
state (the console text included) unchanged. -/
theorem C3_log_below_threshold_is_noop (fuel : Nat) (pf : Platform) (s : State)
    (T p : priority) (format : List Char) (args : List VArg)
    (hT : T.selectable = true) (hp : p.selectable = true) (hlt : p.toNat < T.toNat)
    (hex : ¬ (T = .debug ∧ p = .trace)) :
    ∃ r, Log fuel pf (SetPriorityLevel s T) p format args = .ok r ∧
      r.stringToWrite_g = (SetPriorityLevel s T).stringToWrite_g ∧
      r.disk = (SetPriorityLevel s T).disk ∧
      (s.plogFile_g ≠ none → r = SetPriorityLevel s T) := by
  have hgate := gate_closed s T p hT hp hlt hex
  have hfile2 : (SetPriorityLevel s T).plogFile_g = s.plogFile_g := rfl
  unfold Log
  cases hpf : s.plogFile_g with
  | none =>
    rw [hfile2, hpf]
    exact ⟨_, rfl, rfl, rfl, fun h => absurd rfl h⟩
  | some f =>
    rw [hfile2, hpf]
    simp only [hgate, if_true]
    exact ⟨_, rfl, rfl, rfl, fun _ => rfl⟩

theorem C3_log_below_threshold_is_noop_witness :
    ∃ r, Log 0 examplePlatform (SetPriorityLevel openState .error) .info
        "exposure %d".toList [.int 10] = .ok r ∧
      r.stringToWrite_g = (SetPriorityLevel openState .error).stringToWrite_g ∧
      r.disk = (SetPriorityLevel openState .error).disk ∧
      (openState.plogFile_g ≠ none → r = SetPriorityLevel openState .error) :=
  C3_log_below_threshold_is_noop 0 examplePlatform openState .error .info
    "exposure %d".toList [.int 10] (by decide) (by decide) (by decide) (by decide)

/-- C4: `SetPriorityLevel(T)` installs the cumulative mask of T and every more
severe level, for each of the six thresholds; a bit of another level is never
set; and the mask of a less severe threshold contains the mask of a more
severe one. -/
theorem C4_cumulative_mask (s : State) :
    ((SetPriorityLevel s .trace).level_ = (FL_TRACE ||| FL_DEBUG ||| FL_INFO ||| FL_NOTICE |||
        FL_WARNING ||| FL_ERROR ||| FL_ALERT ||| FL_EMERGENCY ||| FL_CRITICAL) ∧
      (SetPriorityLevel s .debug).level_ = (FL_DEBUG ||| FL_INFO ||| FL_NOTICE |||
        FL_WARNING ||| FL_ERROR ||| FL_ALERT ||| FL_EMERGENCY ||| FL_CRITICAL) ∧
      (SetPriorityLevel s .info).level_ = (FL_INFO ||| FL_NOTICE |||
        FL_WARNING ||| FL_ERROR ||| FL_ALERT ||| FL_EMERGENCY ||| FL_CRITICAL) ∧
      (SetPriorityLevel s .warning).level_ =
        (FL_WARNING ||| FL_ERROR ||| FL_ALERT ||| FL_EMERGENCY ||| FL_CRITICAL) ∧
      (SetPriorityLevel s .error).level_ =
        (FL_ERROR ||| FL_ALERT ||| FL_EMERGENCY ||| FL_CRITICAL) ∧
      (SetPriorityLevel s .alert).level_ = (FL_ALERT ||| FL_EMERGENCY ||| FL_CRITICAL)) ∧
    ((SetPriorityLevel s .debug).level_ &&& FL_TRACE = 0 ∧
      (SetPriorityLevel s .info).level_ &&& (FL_TRACE ||| FL_DEBUG) = 0 ∧
      (SetPriorityLevel s .warning).level_ &&&
        (FL_TRACE ||| FL_DEBUG ||| FL_INFO ||| FL_NOTICE) = 0 ∧
      (SetPriorityLevel s .error).level_ &&&
        (FL_TRACE ||| FL_DEBUG ||| FL_INFO ||| FL_NOTICE ||| FL_WARNING) = 0 ∧
      (SetPriorityLevel s .alert).level_ &&&
        (FL_TRACE ||| FL_DEBUG ||| FL_INFO ||| FL_NOTICE ||| FL_WARNING ||| FL_ERROR) = 0) ∧
    ∀ T U : priority, T.selectable = true → U.selectable = true → T.toNat ≤ U.toNat →
      (SetPriorityLevel s T).level_ &&& (SetPriorityLevel s U).level_
        = (SetPriorityLevel s U).level_ := by
  refine ⟨?_, ?_, ?_⟩
  · simp only [SetPriorityLevel]; decide
  · simp only [SetPriorityLevel]; decide
  · intro T U hT hU hle
    cases T <;> cases U <;>
      first
        | exact absurd hT (by decide)
        | exact absurd hU (by decide)
        | exact absurd hle (by decide)
        | (simp only [SetPriorityLevel]; decide)

theorem C4_cumulative_mask_witness :
    (SetPriorityLevel openState .info).level_ &&& (SetPriorityLevel openState .error).level_
      = (SetPriorityLevel openState .error).level_ :=
  (C4_cumulative_mask openState).2.2 .info .error (by decide) (by decide) (by decide)

/-! ## C5: the failure latch -/

/-- C5: from a state with the latch unset, the first call of `ReportLogFailure`
sets the latch and adds the fixed diagnostic to the console text; every
sequence of k calls, k at least 1, ends in that same state, so the diagnostic
is emitted exactly once; and a call made with the latch set changes nothing. -/
theorem C5_report_once (s : State) (k : Nat) (hlatch : s.failureReported = false)
    (hk : 1 ≤ k) :
    ReportLogFailure s
        = { s with failureReported := true
                   cerr := s.cerr ++ "Logging initialization failed\n" } ∧
      Nat.iterate ReportLogFailure k s = ReportLogFailure s ∧
      (Nat.iterate ReportLogFailure k s).failureReported = true ∧
      (Nat.iterate ReportLogFailure k s).cerr = s.cerr ++ "Logging initialization failed\n" ∧
      ∀ t : State, t.failureReported = true → ReportLogFailure t = t := by
  have hset : ∀ t : State, t.failureReported = true → ReportLogFailure t = t := by
    intro t ht
    unfold ReportLogFailure
    simp [ht]
  have h1 : ReportLogFailure s
      = { s with failureReported := true
                 cerr := s.cerr ++ "Logging initialization failed\n" } := by
    unfold ReportLogFailure
    simp [hlatch, g_textLogIniFiled]
  have hlatched : (ReportLogFailure s).failureReported = true := by rw [h1]
  have hiter : ∀ n : Nat, Nat.iterate ReportLogFailure (n + 1) s = ReportLogFailure s := by
    intro n
    induction n with
    | zero => rfl
    | succ n ih =>
      rw [Function.iterate_succ_apply', ih]
      exact hset _ hlatched
  obtain ⟨n, rfl⟩ : ∃ n, k = n + 1 := ⟨k - 1, by omega⟩
  refine ⟨h1, hiter n, ?_, ?_, hset⟩
  · rw [hiter n]; exact hlatched
  · rw [hiter n, h1]

theorem C5_report_once_witness :
    (openState.failureReported = false ∧ 1 ≤ 3) ∧
    (ReportLogFailure openState
        = { openState with failureReported := true
                           cerr := openState.cerr ++ "Logging initialization failed\n" } ∧
      Nat.iterate ReportLogFailure 3 openState = ReportLogFailure openState ∧
      (Nat.iterate ReportLogFailure 3 openState).failureReported = true ∧
      (Nat.iterate ReportLogFailure 3 openState).cerr
        = openState.cerr ++ "Logging initialization failed\n" ∧
      ∀ t : State, t.failureReported = true → ReportLogFailure t = t) :=
  ⟨⟨by decide, by decide⟩, C5_report_once openState 3 (by decide) (by decide)⟩
/-! ## The open sequence -/

theorem Open_of_open (s : State) (name : String) (h : fileOpen s = true) :
    Open s name = (true, s) := by
  unfold fileOpen at h
  cases hpf : s.plogFile_g with
  | none => rw [hpf] at h; exact absurd h (by decide)
  | some f =>
    rw [hpf] at h
    simp only at h
    simp [Open, fileOpen, hpf, h]

/-- The first attempt of `Open` succeeds. -/
theorem Open_first (s : State) (name : String) (h : fileOpen s = false)
    (h1 : canOpen s.writable (firstPath s name) = true) :
    Open s name = (true,
      { s with
        logFileName_ := firstPath s name
        plogFile_g := some { is_open := true, path := firstPath s name }
        opened := s.opened ++ [(firstPath s name, .app)]
        disk := fun q =>
          if q = firstPath s name then some ((s.disk (firstPath s name)).getD "") else s.disk q }) := by
  unfold fileOpen at h
  unfold firstPath at h1 ⊢
  cases hpf : s.plogFile_g with
  | none =>
    by_cases hl : s.logFileName_.length < 1
    · simp only [hl, if_true] at h1 ⊢
      simp [Open, fileOpen, hpf, ofstream_open, hl, h1]
    · simp only [hl, if_false] at h1 ⊢
      simp [Open, fileOpen, hpf, ofstream_open, hl, h1]
  | some f =>
    rw [hpf] at h
    simp only at h
    by_cases hl : s.logFileName_.length < 1
    · simp only [hl, if_true] at h1 ⊢
      simp [Open, fileOpen, hpf, ofstream_open, hl, h1, h]
    · simp only [hl, if_false] at h1 ⊢
      simp [Open, fileOpen, hpf, ofstream_open, hl, h1, h]

/-- The first attempt of `Open` fails and the retry at the fallback path
succeeds. -/
theorem Open_fallback (s : State) (name : String) (h : fileOpen s = false)
    (h1 : canOpen s.writable (firstPath s name) = false)
    (h2 : canOpen s.writable (fallbackPath s name) = true) :
    Open s name = (true,
      { s with
        logFileName_ := fallbackPath s name
        plogFile_g := some { is_open := true, path := fallbackPath s name }
        opened := s.opened ++ [(firstPath s name, .app), (fallbackPath s name, .app)]
        disk := fun q =>
          if q = fallbackPath s name then some ((s.disk (fallbackPath s name)).getD "")
          else s.disk q }) := by
  unfold fileOpen at h
  unfold firstPath at h1 ⊢
  unfold fallbackPath at h2 ⊢
  cases hpf : s.plogFile_g with
  | none =>
    by_cases hl : s.logFileName_.length < 1
    · simp only [hl, if_true] at h1 ⊢
      simp [Open, fileOpen, hpf, ofstream_open, hl, h1, h2]
    · simp only [hl, if_false] at h1 ⊢
      simp [Open, fileOpen, hpf, ofstream_open, hl, h1, h2]
  | some f =>
    rw [hpf] at h
    simp only at h
    by_cases hl : s.logFileName_.length < 1
    · simp only [hl, if_true] at h1 ⊢
      simp [Open, fileOpen, hpf, ofstream_open, hl, h1, h2, h]
    · simp only [hl, if_false] at h1 ⊢
      simp [Open, fileOpen, hpf, ofstream_open, hl, h1, h2, h]

/-- Both attempts of `Open` fail. -/
theorem Open_fail (s : State) (name : String) (h : fileOpen s = false)
    (h1 : canOpen s.writable (firstPath s name) = false)
    (h2 : canOpen s.writable (fallbackPath s name) = false) :
    Open s name = (false,
      { s with
        logFileName_ := fallbackPath s name
        plogFile_g := some (s.plogFile_g.getD { is_open := false, path := "" })
        opened := s.opened ++ [(firstPath s name, .app), (fallbackPath s name, .app)] }) := by
  unfold fileOpen at h
  unfold firstPath at h1 ⊢
  unfold fallbackPath at h2 ⊢
  cases hpf : s.plogFile_g with
  | none =>
    by_cases hl : s.logFileName_.length < 1
    · simp only [hl, if_true] at h1 ⊢
      simp [Open, fileOpen, hpf, ofstream_open, hl, h1, h2]
    · simp only [hl, if_false] at h1 ⊢
      simp [Open, fileOpen, hpf, ofstream_open, hl, h1, h2]
  | some f =>
    rw [hpf] at h
    simp only at h
    by_cases hl : s.logFileName_.length < 1
    · simp only [hl, if_true] at h1 ⊢
      simp [Open, fileOpen, hpf, ofstream_open, hl, h1, h2, h]
    · simp only [hl, if_false] at h1 ⊢
      simp [Open, fileOpen, hpf, ofstream_open, hl, h1, h2, h]

/-- What `Initialize` does around `Open`. -/
theorem Initialize_of_Open (s : State) (name inst : String) (b : Bool) (t : State)
    (h : Open { s with failureReported := false, logInstanceName_ := inst } name = (b, t)) :
    Initialize s name inst =
      (b, { t with
            fast_log_flags_ := (if b then t.flags_ ||| OSTREAM else t.flags_) ||| STDERR
            flags_ := (if b then t.flags_ ||| OSTREAM else t.flags_) ||| STDERR
            pLogThread_g := some (t.pLogThread_g.getD { stop_ := false, active := true }) }) := by
  unfold Initialize
  simp only [h]
  cases b <;> cases hth : t.pLogThread_g <;>
    simp [flags, set_flags, hth, LoggerThread.Start]
/-- The four ways through `Open`. -/
theorem Open_cases (s : State) (name : String) :
    (fileOpen s = true ∧ Open s name = (true, s)) ∨
    (fileOpen s = false ∧ canOpen s.writable (firstPath s name) = true ∧
      Open s name = (true,
        { s with
          logFileName_ := firstPath s name
          plogFile_g := some { is_open := true, path := firstPath s name }
          opened := s.opened ++ [(firstPath s name, .app)]
          disk := fun q =>
            if q = firstPath s name then some ((s.disk (firstPath s name)).getD "")
            else s.disk q })) ∨
    (fileOpen s = false ∧ canOpen s.writable (firstPath s name) = false ∧
      canOpen s.writable (fallbackPath s name) = true ∧
      Open s name = (true,
        { s with
          logFileName_ := fallbackPath s name
          plogFile_g := some { is_open := true, path := fallbackPath s name }
          opened := s.opened ++ [(firstPath s name, .app), (fallbackPath s name, .app)]
          disk := fun q =>
            if q = fallbackPath s name then some ((s.disk (fallbackPath s name)).getD "")
            else s.disk q })) ∨
    (fileOpen s = false ∧ canOpen s.writable (firstPath s name) = false ∧
      canOpen s.writable (fallbackPath s name) = false ∧
      Open s name = (false,
        { s with
          logFileName_ := fallbackPath s name
          plogFile_g := some (s.plogFile_g.getD { is_open := false, path := "" })
          opened := s.opened ++ [(firstPath s name, .app), (fallbackPath s name, .app)] })) := by
  cases h : fileOpen s with
  | true => exact Or.inl ⟨rfl, Open_of_open s name h⟩
  | false =>
    cases h1 : canOpen s.writable (firstPath s name) with
    | true => exact Or.inr (Or.inl ⟨rfl, rfl, Open_first s name h h1⟩)
    | false =>
      cases h2 : canOpen s.writable (fallbackPath s name) with
      | true => exact Or.inr (Or.inr (Or.inl ⟨rfl, rfl, rfl, Open_fallback s name h h1 h2⟩))
      | false => exact Or.inr (Or.inr (Or.inr ⟨rfl, rfl, rfl, Open_fail s name h h1 h2⟩))

/-- `Open` returns whether the stream is open afterwards, and writes neither
to the console nor to the latch, the flags, the buffer or the worker. -/
theorem Open_frame (s : State) (name : String) :
    (Open s name).1 = fileOpen (Open s name).2 ∧
    (Open s name).2.cerr = s.cerr ∧
    (Open s name).2.failureReported = s.failureReported ∧
    (Open s name).2.flags_ = s.flags_ ∧
    (Open s name).2.stringToWrite_g = s.stringToWrite_g ∧
    (Open s name).2.level_ = s.level_ ∧
    (Open s name).2.pLogThread_g = s.pLogThread_g ∧
    (Open s name).2.writable = s.writable ∧
    (Open s name).2.HOME = s.HOME := by
  rcases Open_cases s name with ⟨h, e⟩ | ⟨h, -, e⟩ | ⟨h, -, -, e⟩ | ⟨h, -, -, e⟩
  · rw [e]; exact ⟨h.symm, rfl, rfl, rfl, rfl, rfl, rfl, rfl, rfl⟩
  · rw [e]; exact ⟨rfl, rfl, rfl, rfl, rfl, rfl, rfl, rfl, rfl⟩
  · rw [e]; exact ⟨rfl, rfl, rfl, rfl, rfl, rfl, rfl, rfl, rfl⟩
  · rw [e]
    refine ⟨?_, rfl, rfl, rfl, rfl, rfl, rfl, rfl, rfl⟩
    unfold fileOpen at h ⊢
    cases hpf : s.plogFile_g with
    | none => simp
    | some f => rw [hpf] at h; simp at h; simp [h]

/-- What `Initialize` leaves as `Open` left it, and what it sets. -/
theorem Initialize_frame (s : State) (name inst : String) :
    (Initialize s name inst).1
        = (Open { s with failureReported := false, logInstanceName_ := inst } name).1 ∧
    (Initialize s name inst).2.plogFile_g
        = (Open { s with failureReported := false, logInstanceName_ := inst } name).2.plogFile_g ∧
    (Initialize s name inst).2.logFileName_
        = (Open { s with failureReported := false, logInstanceName_ := inst } name).2.logFileName_ ∧
    (Initialize s name inst).2.disk
        = (Open { s with failureReported := false, logInstanceName_ := inst } name).2.disk ∧
    (Initialize s name inst).2.opened
        = (Open { s with failureReported := false, logInstanceName_ := inst } name).2.opened ∧
    (Initialize s name inst).2.cerr = s.cerr ∧
    (Initialize s name inst).2.failureReported = false ∧
    (Initialize s name inst).2.stringToWrite_g = s.stringToWrite_g ∧
    (Initialize s name inst).2.flags_
        = (if (Initialize s name inst).1 then s.flags_ ||| OSTREAM else s.flags_) ||| STDERR := by
  have hf := Open_frame { s with failureReported := false, logInstanceName_ := inst } name
  generalize hr : Open { s with failureReported := false, logInstanceName_ := inst } name = r at hf
  obtain ⟨b, t⟩ := r
  obtain ⟨-, h2, h3, h4, h5, -, -, -, -⟩ := hf
  rw [Initialize_of_Open s name inst b t hr]
  dsimp only at h2 h3 h4 h5 ⊢
  refine ⟨rfl, rfl, rfl, rfl, rfl, h2, h3, h5, ?_⟩
  rw [h4]
/-! ## C6, C7: who resets the latch, and what an open failure emits -/

/-- C6 (as stated, refuted): with the latch set, `Shutdown` clears it, an
`Initialize` whose two opens fail (it returns false) clears it, and a `Reset`
that returns false clears it. -/
theorem C6_counterexample :
    latchedState.failureReported = true ∧
      (Shutdown latchedState).failureReported = false ∧
    latchedLockedState.failureReported = true ∧
      (Initialize latchedLockedState "CoreLog.txt" "core").1 = false ∧
      (Initialize latchedLockedState "CoreLog.txt" "core").2.failureReported = false ∧
      (Reset latchedLockedState).1 = false ∧
      (Reset latchedLockedState).2.failureReported = false := by
  decide

/-- C6 (amended): `Initialize`, `Reset` and `Shutdown` clear the latch on entry
whatever their outcome, so from a state with the latch set each of them, also
an `Initialize` or a `Reset` that returns false, ends with the latch unset;
`Log`, `SetPriorityLevel`, `EnableLogToStderr` and `LogContents` leave the
latch set. -/
theorem C6_latch_frame (s : State) (hlatch : s.failureReported = true) :
    (Shutdown s).failureReported = false ∧
    (∀ name inst, (Initialize s name inst).2.failureReported = false) ∧
    (Reset s).2.failureReported = false ∧
    (∀ fuel pf p format args r, Log fuel pf s p format args = .ok r →
      r.failureReported = true) ∧
    (∀ T, (SetPriorityLevel s T).failureReported = true) ∧
    (∀ enable t, s.pLogThread_g = some t →
      ∃ r, EnableLogToStderr s enable = .ok r ∧ r.2.failureReported = true) ∧
    (∀ f, s.plogFile_g = some f →
      ∃ r, LogContents s = .ok r ∧ r.2.failureReported = true) := by
  refine ⟨?_, ?_, ?_, ?_, ?_, ?_, ?_⟩
  · unfold Shutdown
    cases hpf : s.plogFile_g <;> simp [hpf, clr_flags, ofstream_close]
  · intro name inst
    exact (Initialize_frame s name inst).2.2.2.2.2.2.1
  · unfold Reset
    cases hpf : s.plogFile_g with
    | none => simp [hpf]
    | some f =>
      cases ho : f.is_open <;>
        simp only [hpf, ho] <;>
        simp [ofstream_open, ofstream_close, hpf] <;>
        split_ifs <;> rfl
  · intro fuel pf p format args r h
    unfold Log at h
    cases hpf : s.plogFile_g with
    | none =>
      rw [hpf] at h
      injection h with h
      rw [← h]; exact hlatch
    | some f =>
      rw [hpf] at h
      dsimp only at h
      split_ifs at h with hg
      · injection h with h
        rw [← h]; exact hlatch
      · split at h
        · injection h with h
          rw [← h]; exact hlatch
        · injection h with h
          rw [← h]
          unfold ReportLogFailure
          simp [hlatch]
        · cases h
  · intro T
    exact hlatch
  · intro enable t ht
    unfold EnableLogToStderr
    cases enable <;> simp [ht, set_flags, hlatch]
  · intro f hf
    unfold LogContents
    simp only [hf]
    refine ⟨_, rfl, ?_⟩
    cases ho : f.is_open <;>
      simp [ofstream_open, ofstream_close, hf] <;>
      split_ifs <;> exact hlatch

theorem C6_latch_frame_witness :
    latchedState.failureReported = true ∧
    ((Shutdown latchedState).failureReported = false ∧
    (∀ name inst, (Initialize latchedState name inst).2.failureReported = false) ∧
    (Reset latchedState).2.failureReported = false ∧
    (∀ fuel pf p format args r, Log fuel pf latchedState p format args = .ok r →
      r.failureReported = true) ∧
    (∀ T, (SetPriorityLevel latchedState T).failureReported = true) ∧
    (∀ enable t, latchedState.pLogThread_g = some t →
      ∃ r, EnableLogToStderr latchedState enable = .ok r ∧ r.2.failureReported = true) ∧
    (∀ f, latchedState.plogFile_g = some f →
      ∃ r, LogContents latchedState = .ok r ∧ r.2.failureReported = true)) :=
  ⟨by decide, C6_latch_frame latchedState (by decide)⟩

/-- C7 (as stated, refuted): from a state with the latch unset and nothing on
the console, two consecutive calls of `Initialize` whose opens fail at the
requested path and at the fallback path both return false and leave the
console empty: no diagnostic is emitted, not one. -/
theorem C7_counterexample :
    lockedState.failureReported = false ∧ lockedState.cerr = "" ∧
    (Initialize lockedState "CoreLog.txt" "core").1 = false ∧
    (Initialize (Initialize lockedState "CoreLog.txt" "core").2 "CoreLog.txt" "core").1 = false ∧
    (Initialize (Initialize lockedState "CoreLog.txt" "core").2 "CoreLog.txt" "core").2.opened
      = [("CoreLog.txt", .app), ("/home/user/CoreLog.txt", .app),
         ("/home/user/CoreLog.txt", .app), ("/home/user/CoreLog.txt", .app)] ∧
    (Initialize (Initialize lockedState "CoreLog.txt" "core").2 "CoreLog.txt" "core").2.cerr
      = "" := by
  decide

theorem fallbackPath_length (s : State) (name : String) :
    ¬ (fallbackPath s name).length < 1 := by
  unfold fallbackPath
  simp only [String.length_append]
  have : "/".length = 1 := by decide
  omega

/-- C7 (amended): two consecutive calls of `Initialize` whose opens fail at the
path tried first and at the fallback path both return false, emit nothing on
the console and leave the latch unset, whatever the latch was before: an open
failure is reported through the return value alone. -/
theorem C7_open_failures_emit_nothing (s : State) (name1 inst1 name2 inst2 : String)
    (hclosed : fileOpen s = false)
    (h1 : canOpen s.writable (firstPath s name1) = false)
    (h2 : canOpen s.writable (fallbackPath s name1) = false)
    (h3 : canOpen s.writable (fallbackPath s name2) = false) :
    (Initialize s name1 inst1).1 = false ∧
    (Initialize (Initialize s name1 inst1).2 name2 inst2).1 = false ∧
    (Initialize (Initialize s name1 inst1).2 name2 inst2).2.cerr = s.cerr ∧
    (Initialize s name1 inst1).2.failureReported = false ∧
    (Initialize (Initialize s name1 inst1).2 name2 inst2).2.failureReported = false := by
  have a := Initialize_frame s name1 inst1
  have b := Initialize_frame (Initialize s name1 inst1).2 name2 inst2
  have e1 := Open_fail { s with failureReported := false, logInstanceName_ := inst1 } name1
    hclosed h1 h2
  have r1 : (Initialize s name1 inst1).1 = false := by rw [a.1, e1]
  have i1 := Initialize_of_Open s name1 inst1 _ _ e1
  have hpath : (Initialize s name1 inst1).2.logFileName_ = fallbackPath s name1 := by
    rw [i1]; rfl
  have hw : (Initialize s name1 inst1).2.writable = s.writable := by rw [i1]
  have hhome : (Initialize s name1 inst1).2.HOME = s.HOME := by rw [i1]
  have hclosed2 : fileOpen (Initialize s name1 inst1).2 = false := by
    rw [i1]
    unfold fileOpen at hclosed ⊢
    cases hpf : s.plogFile_g with
    | none => simp
    | some f => rw [hpf] at hclosed; simp at hclosed; simp [hclosed]
  have e2 := Open_fail
    { (Initialize s name1 inst1).2 with failureReported := false, logInstanceName_ := inst2 }
    name2 hclosed2
    (by
      unfold firstPath
      dsimp only
      rw [hpath, if_neg (fallbackPath_length s name1), hw]
      exact h2)
    (by
      unfold fallbackPath
      dsimp only
      rw [hw, hhome]
      exact h3)
  have r2 : (Initialize (Initialize s name1 inst1).2 name2 inst2).1 = false := by
    rw [b.1, e2]
  exact ⟨r1, r2, b.2.2.2.2.2.1.trans a.2.2.2.2.2.1, a.2.2.2.2.2.2.1, b.2.2.2.2.2.2.1⟩

theorem C7_open_failures_emit_nothing_witness :
    (Initialize lockedState "CoreLog.txt" "core").1 = false ∧
    (Initialize (Initialize lockedState "CoreLog.txt" "core").2 "Other.txt" "core").1
      = false ∧
    (Initialize (Initialize lockedState "CoreLog.txt" "core").2 "Other.txt" "core").2.cerr
      = lockedState.cerr ∧
    (Initialize lockedState "CoreLog.txt" "core").2.failureReported = false ∧
    (Initialize (Initialize lockedState "CoreLog.txt" "core").2 "Other.txt"
      "core").2.failureReported = false :=
  C7_open_failures_emit_nothing lockedState "CoreLog.txt" "core" "Other.txt" "core"
    (by decide) (by decide) (by decide) (by decide)
/-! ## C8: the result of Initialize -/

theorem lor_land_self (x b : Nat) : (x ||| b) &&& b = b := by
  apply Nat.eq_of_testBit_eq
  intro i
  simp only [Nat.testBit_and, Nat.testBit_or]
  cases x.testBit i <;> cases b.testBit i <;> rfl

theorem lor_lor_land_left (x a b : Nat) : ((x ||| a) ||| b) &&& a = a := by
  apply Nat.eq_of_testBit_eq
  intro i
  simp only [Nat.testBit_and, Nat.testBit_or]
  cases x.testBit i <;> cases a.testBit i <;> cases b.testBit i <;> rfl

/-- C8: `Initialize` returns true exactly when the log stream is open
afterwards, which is the case when it was open already, when the path tried
first opens, or when the fallback path opens; after a successful call the
console bit and the file bit of the flag set are both set; when the opens at
both paths fail the call returns false (it is a value, nothing is raised), the
stream is not open, and the console bit is set all the same. -/
theorem C8_initialize_result (s : State) (name inst : String) :
    (Initialize s name inst).1 = fileOpen (Initialize s name inst).2 ∧
    ((Initialize s name inst).1 = true →
      (Initialize s name inst).2.flags_ &&& STDERR ≠ 0 ∧
      (Initialize s name inst).2.flags_ &&& OSTREAM ≠ 0) ∧
    (Initialize s name inst).2.flags_ &&& STDERR ≠ 0 ∧
    (fileOpen s = true → (Initialize s name inst).1 = true) ∧
    (fileOpen s = false → canOpen s.writable (firstPath s name) = true →
      (Initialize s name inst).1 = true) ∧
    (fileOpen s = false → canOpen s.writable (firstPath s name) = false →
      canOpen s.writable (fallbackPath s name) = true →
      (Initialize s name inst).1 = true) ∧
    (fileOpen s = false → canOpen s.writable (firstPath s name) = false →
      canOpen s.writable (fallbackPath s name) = false →
      (Initialize s name inst).1 = false ∧
      fileOpen (Initialize s name inst).2 = false ∧
      (Initialize s name inst).2.flags_ &&& STDERR ≠ 0) := by
  have a := Initialize_frame s name inst
  have o := Open_frame { s with failureReported := false, logInstanceName_ := inst } name
  have hres : (Initialize s name inst).1 = fileOpen (Initialize s name inst).2 := by
    rw [a.1, o.1]
    unfold fileOpen
    rw [a.2.1]
  have hstderr : (Initialize s name inst).2.flags_ &&& STDERR ≠ 0 := by
    rw [a.2.2.2.2.2.2.2.2, lor_land_self]
    decide
  refine ⟨hres, ?_, hstderr, ?_, ?_, ?_, ?_⟩
  · intro h
    refine ⟨hstderr, ?_⟩
    rw [a.2.2.2.2.2.2.2.2, h, if_pos rfl, lor_lor_land_left]
    decide
  · intro h
    rw [a.1, Open_of_open { s with failureReported := false, logInstanceName_ := inst } name h]
  · intro h h1
    rw [a.1, Open_first { s with failureReported := false, logInstanceName_ := inst } name h h1]
  · intro h h1 h2
    rw [a.1, Open_fallback { s with failureReported := false, logInstanceName_ := inst } name h h1 h2]
  · intro h h1 h2
    have r : (Initialize s name inst).1 = false := by
      rw [a.1, Open_fail { s with failureReported := false, logInstanceName_ := inst } name h h1 h2]
    exact ⟨r, by rw [← hres]; exact r, hstderr⟩

theorem C8_initialize_result_witness :
    ((Initialize lockedState "CoreLog.txt" "core").1 = false ∧
      fileOpen (Initialize lockedState "CoreLog.txt" "core").2 = false ∧
      (Initialize lockedState "CoreLog.txt" "core").2.flags_ &&& STDERR ≠ 0) ∧
    (Initialize freshState "CoreLog.txt" "core").1 = true :=
  ⟨(C8_initialize_result lockedState "CoreLog.txt" "core").2.2.2.2.2.2
      (by decide) (by decide) (by decide),
   (C8_initialize_result freshState "CoreLog.txt" "core").2.2.2.2.1 (by decide) (by decide)⟩
/-! ## The stream stays on the fixed path -/

theorem canOpen_ne_empty (writable : String → Bool) (name : String)
    (h : canOpen writable name = true) : name ≠ "" := by
  unfold canOpen at h
  simp only [Bool.and_eq_true, decide_eq_true_eq] at h
  exact h.1

theorem WF_new (flags0 : Nat) (home : String) (writable readable : String → Bool)
    (disk : String → Option String) : WF (new flags0 home writable readable disk) := by
  intro f hf
  simp [new] at hf

theorem WF_Open (s : State) (name : String) (h : WF s) : WF (Open s name).2 := by
  rcases Open_cases s name with ⟨-, e⟩ | ⟨-, h1, e⟩ | ⟨-, -, h2, e⟩ | ⟨hc, -, -, e⟩
  · rw [e]; exact h
  · rw [e]
    intro f hf _
    simp only [Option.some.injEq] at hf
    subst hf
    exact ⟨rfl, canOpen_ne_empty _ _ h1⟩
  · rw [e]
    intro f hf _
    simp only [Option.some.injEq] at hf
    subst hf
    exact ⟨rfl, canOpen_ne_empty _ _ h2⟩
  · rw [e]
    intro f hf ho
    exfalso
    simp only [Option.some.injEq] at hf
    subst hf
    unfold fileOpen at hc
    cases hpf : s.plogFile_g with
    | none => rw [hpf] at ho; simp at ho
    | some g => rw [hpf] at hc ho; simp at hc ho; rw [hc] at ho; exact absurd ho (by decide)

theorem WF_Initialize (s : State) (name inst : String) (h : WF s) :
    WF (Initialize s name inst).2 := by
  have a := Initialize_frame s name inst
  have w := WF_Open { s with failureReported := false, logInstanceName_ := inst } name h
  intro f hf ho
  rw [a.2.1] at hf
  rw [a.2.2.1]
  exact w f hf ho

theorem WF_Shutdown (s : State) : WF (Shutdown s) := by
  intro f hf
  unfold Shutdown at hf
  cases hpf : s.plogFile_g <;> simp [hpf, clr_flags, ofstream_close] at hf

theorem WF_Reset (s : State) : WF (Reset s).2 := by
  unfold Reset
  cases hpf : s.plogFile_g with
  | none =>
    intro f hf
    simp [hpf] at hf
  | some g =>
    intro f hf ho
    cases hg : g.is_open <;> cases hc : canOpen s.writable s.logFileName_ <;>
      simp [hpf, hg, ofstream_open, ofstream_close, hc] at hf
    · subst hf; rw [hg] at ho; exact absurd ho (by decide)
    · subst hf
      simp [hpf, hg, ofstream_open, ofstream_close, hc]
      exact canOpen_ne_empty _ _ hc
    · subst hf; simp at ho
    · subst hf
      simp [hpf, hg, ofstream_open, ofstream_close, hc]
      exact canOpen_ne_empty _ _ hc

theorem fileOpen_false_of_no_path (s : State) (h : WF s) (hnone : s.logFileName_ = "") :
    fileOpen s = false := by
  unfold fileOpen
  cases hpf : s.plogFile_g with
  | none => rfl
  | some f =>
    cases ho : f.is_open with
    | false => simp [ho]
    | true =>
      exfalso
      have := h f hpf ho
      rw [hnone] at this
      exact this.2 this.1
theorem WF_LogContents (s : State) (r : (Option String × Nat) × State)
    (h : LogContents s = .ok r) : WF r.2 := by
  unfold LogContents at h
  cases hpf : s.plogFile_g with
  | none => rw [hpf] at h; cases h
  | some g =>
    rw [hpf] at h
    simp only [Except.ok.injEq] at h
    rw [← h]
    intro f hf ho
    cases hg : g.is_open <;> cases hc : canOpen s.writable s.logFileName_ <;>
      simp [hpf, hg, ofstream_open, ofstream_close, hc] at hf
    · subst hf; rw [hg] at ho; exact absurd ho (by decide)
    · subst hf
      simp [hpf, hg, ofstream_open, ofstream_close, hc]
      exact canOpen_ne_empty _ _ hc
    · subst hf; simp at ho
    · subst hf
      simp [hpf, hg, ofstream_open, ofstream_close, hc]
      exact canOpen_ne_empty _ _ hc

theorem WF_svcIteration (s : State) (h : WF s) : WF (svcIteration s) := by
  have e1 : (svcIteration s).plogFile_g = s.plogFile_g := by
    unfold svcIteration
    dsimp only
    split_ifs <;> cases hpf : s.plogFile_g <;> simp [hpf, ofstream_write] <;>
      split_ifs <;> rfl
  have e2 : (svcIteration s).logFileName_ = s.logFileName_ := by
    unfold svcIteration
    dsimp only
    split_ifs <;> cases hpf : s.plogFile_g <;> simp [hpf, ofstream_write] <;>
      split_ifs <;> rfl
  intro f hf ho
  rw [e1] at hf
  rw [e2]
  exact h f hf ho

theorem WF_Log (fuel : Nat) (pf : Platform) (s : State) (p : priority) (format : List Char)
    (args : List VArg) (r : State) (h : WF s) (hr : Log fuel pf s p format args = .ok r) :
    WF r := by
  have e : r.plogFile_g = s.plogFile_g ∧ r.logFileName_ = s.logFileName_ := by
    unfold Log at hr
    cases hpf : s.plogFile_g with
    | none =>
      rw [hpf] at hr
      injection hr with hr
      rw [← hr]; exact ⟨rfl, rfl⟩
    | some g =>
      rw [hpf] at hr
      dsimp only at hr
      split_ifs at hr with hg
      · injection hr with hr
        rw [← hr]; exact ⟨hpf, rfl⟩
      · split at hr
        · injection hr with hr
          rw [← hr]; exact ⟨hpf, rfl⟩
        · injection hr with hr
          rw [← hr]
          unfold ReportLogFailure
          split_ifs <;> exact ⟨hpf, rfl⟩
        · cases hr
  intro f hf ho
  rw [e.1] at hf
  rw [e.2]
  exact h f hf ho

/-! ## C9, C10: the log path -/

theorem firstPath_of_no_path (s : State) (name : String) (hnone : s.logFileName_ = "") :
    firstPath s name = name := by
  unfold firstPath
  rw [hnone]
  rfl

theorem firstPath_of_fixed (s : State) (name : String) (hfixed : s.logFileName_ ≠ "") :
    firstPath s name = s.logFileName_ := by
  unfold firstPath
  have : 0 < s.logFileName_.length := (string_length_pos _).mpr hfixed
  rw [if_neg (by omega)]

/-- C9: from a reachable state in which no log path has been fixed, when
`name` opens in append mode `Initialize(name)` makes that one `open` call and
`LogPath()` is `name`; otherwise it makes exactly one more `open` call, at
HOME + "/" + name in append mode, and `LogPath()` is that fallback path; and
whenever `Initialize` returns true the stream is open on `LogPath()`. -/
theorem C9_log_path_resolution (s : State) (name inst : String) (hwf : WF s)
    (hnone : s.logFileName_ = "") :
    (canOpen s.writable name = true →
      (Initialize s name inst).1 = true ∧
      LogPath (Initialize s name inst).2 = name ∧
      (Initialize s name inst).2.opened = s.opened ++ [(name, .app)]) ∧
    (canOpen s.writable name = false →
      LogPath (Initialize s name inst).2 = (s.HOME ++ "/") ++ name ∧
      (Initialize s name inst).2.opened
        = s.opened ++ [(name, .app), ((s.HOME ++ "/") ++ name, .app)]) ∧
    ((Initialize s name inst).1 = true →
      (Initialize s name inst).2.plogFile_g
        = some { is_open := true, path := LogPath (Initialize s name inst).2 }) := by
  have a := Initialize_frame s name inst
  have hclosed : fileOpen { s with failureReported := false, logInstanceName_ := inst } = false :=
    fileOpen_false_of_no_path s hwf hnone
  have hfirst : firstPath { s with failureReported := false, logInstanceName_ := inst } name
      = name := firstPath_of_no_path _ name hnone
  refine ⟨?_, ?_, ?_⟩
  · intro h1
    have e := Open_first { s with failureReported := false, logInstanceName_ := inst } name
      hclosed (by rw [hfirst]; exact h1)
    rw [hfirst] at e
    refine ⟨by rw [a.1, e], ?_, ?_⟩
    · unfold LogPath; rw [a.2.2.1, e]
    · rw [a.2.2.2.2.1, e]
  · intro h1
    have hcases := Open_cases { s with failureReported := false, logInstanceName_ := inst } name
    rw [hfirst] at hcases
    rcases hcases with ⟨h, -⟩ | ⟨-, h, -⟩ | ⟨-, -, -, e⟩ | ⟨-, -, -, e⟩
    · rw [hclosed] at h; exact absurd h (by decide)
    · rw [h1] at h; exact absurd h (by decide)
    · refine ⟨?_, ?_⟩
      · unfold LogPath; rw [a.2.2.1, e]; rfl
      · rw [a.2.2.2.2.1, e]; rfl
    · refine ⟨?_, ?_⟩
      · unfold LogPath; rw [a.2.2.1, e]; rfl
      · rw [a.2.2.2.2.1, e]; rfl
  · intro hr
    have w := WF_Initialize s name inst hwf
    have hopen : fileOpen (Initialize s name inst).2 = true := by
      have o := Open_frame { s with failureReported := false, logInstanceName_ := inst } name
      rw [a.1, o.1] at hr
      unfold fileOpen at hr ⊢
      rw [a.2.1]
      exact hr
    unfold fileOpen at hopen
    cases hpf : (Initialize s name inst).2.plogFile_g with
    | none => rw [hpf] at hopen; exact absurd hopen (by decide)
    | some f =>
      rw [hpf] at hopen
      simp only at hopen
      have hp := (w f hpf hopen).1
      unfold LogPath
      rw [← hp]
      cases f
      simp only at hopen
      rw [hopen]

theorem C9_log_path_resolution_witness :
    (WF freshState ∧ freshState.logFileName_ = "" ∧ lockedState.logFileName_ = "") ∧
    ((Initialize freshState "CoreLog.txt" "core").1 = true ∧
      LogPath (Initialize freshState "CoreLog.txt" "core").2 = "CoreLog.txt" ∧
      (Initialize freshState "CoreLog.txt" "core").2.opened
        = freshState.opened ++ [("CoreLog.txt", .app)]) ∧
    (LogPath (Initialize lockedState "CoreLog.txt" "core").2
        = (lockedState.HOME ++ "/") ++ "CoreLog.txt" ∧
      (Initialize lockedState "CoreLog.txt" "core").2.opened
        = lockedState.opened
            ++ [("CoreLog.txt", .app), ((lockedState.HOME ++ "/") ++ "CoreLog.txt", .app)]) :=
  ⟨⟨WF_new _ _ _ _ _, by decide, by decide⟩,
   (C9_log_path_resolution freshState "CoreLog.txt" "core" (WF_new _ _ _ _ _)
      (by decide)).1 (by decide),
   (C9_log_path_resolution lockedState "CoreLog.txt" "core" (WF_new _ _ _ _ _)
      (by decide)).2.1 (by decide)⟩

/-- C10: once a log path P has been fixed, a later `Initialize` or `Open` with
another file name Q does not move the log.  With the file open the call
returns true and leaves `LogPath()`, the stream and every file as they were.
With the file closed and P still possible to open, the call makes one `open`
call, on P in append mode; the stream is then open on P, `LogPath()` is P and
no file content has changed; so it is after `Shutdown`. -/
theorem C10_fixed_path_is_kept (s : State) (P Q inst : String)
    (hP : s.logFileName_ = P) (hne : P ≠ "") :
    (fileOpen s = true →
      Open s Q = (true, s) ∧
      (Initialize s Q inst).1 = true ∧
      LogPath (Initialize s Q inst).2 = P ∧
      (Initialize s Q inst).2.plogFile_g = s.plogFile_g ∧
      (Initialize s Q inst).2.disk = s.disk ∧
      (Initialize s Q inst).2.opened = s.opened) ∧
    (fileOpen s = false → canOpen s.writable P = true →
      (Open s Q).1 = true ∧ LogPath (Open s Q).2 = P ∧
      (Initialize s Q inst).1 = true ∧
      LogPath (Initialize s Q inst).2 = P ∧
      (Initialize s Q inst).2.plogFile_g = some { is_open := true, path := P } ∧
      (Initialize s Q inst).2.opened = s.opened ++ [(P, .app)] ∧
      ∀ q, fileText (Initialize s Q inst).2 q = fileText s q) ∧
    (canOpen s.writable P = true →
      (Shutdown s).plogFile_g = none ∧
      (Initialize (Shutdown s) Q inst).1 = true ∧
      LogPath (Initialize (Shutdown s) Q inst).2 = P ∧
      (Initialize (Shutdown s) Q inst).2.plogFile_g = some { is_open := true, path := P } ∧
      (Initialize (Shutdown s) Q inst).2.opened = s.opened ++ [(P, .app)] ∧
      ∀ q, fileText (Initialize (Shutdown s) Q inst).2 q = fileText s q) := by
  have hclosedCase : ∀ t : State, t.logFileName_ = P → fileOpen t = false →
      canOpen t.writable P = true →
      (Open t Q).1 = true ∧ LogPath (Open t Q).2 = P ∧
      (Initialize t Q inst).1 = true ∧
      LogPath (Initialize t Q inst).2 = P ∧
      (Initialize t Q inst).2.plogFile_g = some { is_open := true, path := P } ∧
      (Initialize t Q inst).2.opened = t.opened ++ [(P, .app)] ∧
      ∀ q, fileText (Initialize t Q inst).2 q = fileText t q := by
    intro t htP hc h1
    have a := Initialize_frame t Q inst
    have hfp : firstPath t Q = P := by
      rw [firstPath_of_fixed t Q (by rw [htP]; exact hne), htP]
    have hfp2 : firstPath { t with failureReported := false, logInstanceName_ := inst } Q = P :=
      hfp
    have e0 := Open_first t Q hc (by rw [hfp]; exact h1)
    have e := Open_first { t with failureReported := false, logInstanceName_ := inst } Q hc
      (by rw [hfp2]; exact h1)
    rw [hfp] at e0
    rw [hfp2] at e
    refine ⟨by rw [e0], by rw [e0]; rfl, by rw [a.1, e], ?_, ?_, ?_, ?_⟩
    · unfold LogPath; rw [a.2.2.1, e]
    · rw [a.2.1, e]
    · rw [a.2.2.2.2.1, e]
    · intro q
      unfold fileText
      rw [a.2.2.2.1, e]
      by_cases hq : q = P
      · simp [hq]
      · simp [hq]
  refine ⟨?_, ?_, ?_⟩
  · intro h
    have a := Initialize_frame s Q inst
    have e := Open_of_open { s with failureReported := false, logInstanceName_ := inst } Q h
    refine ⟨Open_of_open s Q h, by rw [a.1, e], ?_, ?_, ?_, ?_⟩
    · unfold LogPath; rw [a.2.2.1, e]; exact hP
    · rw [a.2.1, e]
    · rw [a.2.2.2.1, e]
    · rw [a.2.2.2.2.1, e]
  · exact hclosedCase s hP
  · intro h1
    have hs : (Shutdown s).plogFile_g = none := by
      unfold Shutdown
      cases hpf : s.plogFile_g <;> simp [hpf, clr_flags, ofstream_close]
    have hs2 : (Shutdown s).logFileName_ = P := by
      rw [← hP]
      unfold Shutdown
      cases hpf : s.plogFile_g <;> simp [hpf, clr_flags, ofstream_close]
    have hs3 : (Shutdown s).writable = s.writable := by
      unfold Shutdown
      cases hpf : s.plogFile_g <;> simp [hpf, clr_flags, ofstream_close]
    have hs4 : (Shutdown s).opened = s.opened := by
      unfold Shutdown
      cases hpf : s.plogFile_g <;> simp [hpf, clr_flags, ofstream_close]
    have hs5 : (Shutdown s).disk = s.disk := by
      unfold Shutdown
      cases hpf : s.plogFile_g <;> simp [hpf, clr_flags, ofstream_close]
    have hc : fileOpen (Shutdown s) = false := by
      unfold fileOpen; rw [hs]
    have r := hclosedCase (Shutdown s) hs2 hc (by rw [hs3]; exact h1)
    refine ⟨hs, r.2.2.1, r.2.2.2.1, r.2.2.2.2.1, ?_, ?_⟩
    · rw [r.2.2.2.2.2.1, hs4]
    · intro q
      rw [r.2.2.2.2.2.2 q]
      unfold fileText
      rw [hs5]

theorem C10_fixed_path_is_kept_witness :
    (openState.logFileName_ = "CoreLog.txt" ∧ "CoreLog.txt" ≠ "") ∧
    (Open openState "Other.txt" = (true, openState) ∧
      (Initialize openState "Other.txt" "core").1 = true ∧
      LogPath (Initialize openState "Other.txt" "core").2 = "CoreLog.txt" ∧
      (Initialize openState "Other.txt" "core").2.plogFile_g = openState.plogFile_g ∧
      (Initialize openState "Other.txt" "core").2.disk = openState.disk ∧
      (Initialize openState "Other.txt" "core").2.opened = openState.opened) ∧
    ((Shutdown openState).plogFile_g = none ∧
      (Initialize (Shutdown openState) "Other.txt" "core").1 = true ∧
      LogPath (Initialize (Shutdown openState) "Other.txt" "core").2 = "CoreLog.txt" ∧
      (Initialize (Shutdown openState) "Other.txt" "core").2.plogFile_g
        = some { is_open := true, path := "CoreLog.txt" } ∧
      (Initialize (Shutdown openState) "Other.txt" "core").2.opened
        = openState.opened ++ [("CoreLog.txt", .app)] ∧
      ∀ q, fileText (Initialize (Shutdown openState) "Other.txt" "core").2 q
        = fileText openState q) :=
  ⟨⟨by decide, by decide⟩,
   (C10_fixed_path_is_kept openState "CoreLog.txt" "Other.txt" "core" (by decide)
      (by decide)).1 (by decide),
   (C10_fixed_path_is_kept openState "CoreLog.txt" "Other.txt" "core" (by decide)
      (by decide)).2.2 (by decide)⟩
/-! ## C11: the result of Reset -/

/-- C11 (the code departs from the claim): after an `Initialize` whose opens
failed the stream exists and the path is fixed; `Reset` then calls `open` with
`trunc` on the fixed path, the open fails, and `Reset` returns true all the
same, with the stream not open. -/
theorem C11_reset_true_without_reopen :
    failedState.logFileName_ = "/home/user/CoreLog.txt" ∧
    fileOpen failedState = false ∧
    (Reset failedState).1 = true ∧
    (Reset failedState).2.opened.getLast? = some ("/home/user/CoreLog.txt", .trunc) ∧
    (Reset failedState).2.logFileName_ = "/home/user/CoreLog.txt" ∧
    fileOpen (Reset failedState).2 = false := by
  decide

/-! ## C13: Shutdown -/

theorem andNot_land_self (x f : Nat) : andNot x f &&& f = 0 := by
  apply Nat.eq_of_testBit_eq
  intro i
  simp only [andNot, Nat.testBit_and, Nat.testBit_xor, Nat.zero_testBit]
  cases x.testBit i <;> cases f.testBit i <;> rfl

theorem andNot_andNot (x f : Nat) : andNot (andNot x f) f = andNot x f := by
  apply Nat.eq_of_testBit_eq
  intro i
  simp only [andNot, Nat.testBit_and, Nat.testBit_xor]
  cases x.testBit i <;> cases f.testBit i <;> rfl

/-- A bit outside `f` is not touched by `x & ~f`. -/
theorem andNot_land_other (x f g : Nat) (h : f &&& g = 0) : andNot x f &&& g = x &&& g := by
  apply Nat.eq_of_testBit_eq
  intro i
  have hi : (f &&& g).testBit i = false := by rw [h]; exact Nat.zero_testBit i
  simp only [Nat.testBit_and] at hi
  simp only [andNot, Nat.testBit_and, Nat.testBit_xor]
  cases hx : x.testBit i <;> cases hf : f.testBit i <;> cases hg : g.testBit i <;>
    simp_all

/-- What `Shutdown` leaves behind. -/
theorem Shutdown_eq (s : State) :
    Shutdown s = { s with failureReported := false, plogFile_g := none,
                          flags_ := andNot s.flags_ OSTREAM } := by
  unfold Shutdown
  cases hpf : s.plogFile_g <;> simp [hpf, clr_flags, ofstream_close]

/-- C13: after `Shutdown` the stream pointer is NULL and the file bit of the
flag set is off; a second `Shutdown` gives exactly the state of the first (the
call is a total function: nothing is raised); the buffer, the fixed path and
the priority mask are left as they were. -/
theorem C13_shutdown_idempotent (s : State) :
    (Shutdown s).plogFile_g = none ∧
    (Shutdown s).flags_ &&& OSTREAM = 0 ∧
    Shutdown (Shutdown s) = Shutdown s ∧
    (Shutdown s).stringToWrite_g = s.stringToWrite_g ∧
    (Shutdown s).logFileName_ = s.logFileName_ ∧
    (Shutdown s).level_ = s.level_ := by
  refine ⟨?_, ?_, ?_, ?_, ?_, ?_⟩
  · rw [Shutdown_eq]
  · rw [Shutdown_eq]; exact andNot_land_self _ _
  · rw [Shutdown_eq (Shutdown s), Shutdown_eq s]
    simp only [andNot_andNot]
  · rw [Shutdown_eq]
  · rw [Shutdown_eq]
  · rw [Shutdown_eq]

/-! ## C16: the result of EnableLogToStderr -/

/-- C16 (the code departs from the claim): with the console bit off in both
flag words, `EnableLogToStderr(true)` returns true, not the previous state of
the console sink: line 236 tests `fast_log_flags_ | STDERR`, which is never 0. -/
theorem C16_previous_state_always_true :
    consoleOffState.flags_ &&& STDERR = 0 ∧
    consoleOffState.fast_log_flags_ &&& STDERR = 0 ∧
    (EnableLogToStderr consoleOffState true).map (fun r => r.1) = .ok true ∧
    (EnableLogToStderr consoleOffState false).map (fun r => r.1) = .ok true := by
  decide
/-- After `EnableLogToStderr` the console bit of the flag set is as requested
(with `set_flags` installing the word it is given). -/
theorem EnableLogToStderr_bit (s : State) (enable : Bool) (t : LoggerThread)
    (ht : s.pLogThread_g = some t) :
    ∃ r, EnableLogToStderr s enable = .ok r ∧ r.1 = true ∧
      (r.2.flags_ &&& STDERR ≠ 0 ↔ enable = true) := by
  unfold EnableLogToStderr
  cases enable with
  | true =>
    simp only [if_true, ht, set_flags]
    refine ⟨_, rfl, ?_, ?_⟩
    · simp only [decide_eq_true_eq]
      intro h
      have := congrArg (fun n => n &&& STDERR) h
      simp only [lor_land_self, Nat.zero_and] at this
      exact absurd this (by decide)
    · simp only [lor_land_self, iff_true]
      decide
  | false =>
    simp only [ht, set_flags]
    refine ⟨_, rfl, ?_, ?_⟩
    · simp only [decide_eq_true_eq]
      intro h
      have := congrArg (fun n => n &&& STDERR) h
      simp only [lor_land_self, Nat.zero_and] at this
      exact absurd this (by decide)
    · simp [andNot_land_self]

/-! ## Log, drain and snapshot on an open file -/

/-- With the stream pointer set and the gate open, `Log` appends the line that
`formatLine` renders. -/
theorem Log_appends (fuel : Nat) (pf : Platform) (s : State) (p : priority)
    (format : List Char) (args : List VArg) (line : List Char)
    (hfile : s.plogFile_g ≠ none)
    (hgate : MatchACEPriority p.toNat &&& s.level_ ≠ 0)
    (hline : formatLine fuel pf s (MatchACEPriority p.toNat) format args = .ok line) :
    Log fuel pf s p format args = .ok (appendLine s (String.mk line)) := by
  unfold Log
  cases hpf : s.plogFile_g with
  | none => exact absurd hpf hfile
  | some f => simp only [hgate, if_false, hline]

/-- With a NULL stream pointer `Log` writes its notice and returns. -/
theorem Log_of_null (fuel : Nat) (pf : Platform) (s : State) (p : priority)
    (format : List Char) (args : List VArg) (hfile : s.plogFile_g = none) :
    Log fuel pf s p format args
      = .ok { s with cerr := s.cerr ++ " log file is NULL!" ++ "\n" } := by
  unfold Log
  rw [hfile]

theorem string_mk_ne_empty (line : List Char) (h : line ≠ []) : String.mk line ≠ "" := by
  intro e
  apply h
  have := congrArg String.data e
  simpa using this

/-- A drain of a non-empty buffer into an open stream. -/
theorem svcIteration_open (s : State) (f : ofstream) (hpf : s.plogFile_g = some f)
    (hopen : f.is_open = true) (hb : s.stringToWrite_g ≠ "") :
    svcIteration s =
      { s with
        stringToWrite_g := ""
        cerr := if s.flags_ &&& STDERR ≠ 0 then s.cerr ++ s.stringToWrite_g ++ "\n" else s.cerr
        disk := fun q =>
          if q = f.path then some ((s.disk f.path).getD "" ++ (s.stringToWrite_g ++ "\n"))
          else s.disk q } := by
  have hlen : 0 < s.stringToWrite_g.length := (string_length_pos _).mpr hb
  unfold svcIteration
  dsimp only
  rw [if_pos hlen]
  by_cases hc : flags { s with stringToWrite_g := "" } &&& STDERR ≠ 0
  · have hc2 : s.flags_ &&& STDERR ≠ 0 := hc
    rw [if_pos hc, if_pos hc2]
    simp [hpf, ofstream_write, hopen]
  · have hc2 : ¬ s.flags_ &&& STDERR ≠ 0 := hc
    rw [if_neg hc, if_neg hc2]
    simp [hpf, ofstream_write, hopen]

/-- A drain of an empty buffer does nothing. -/
theorem svcIteration_empty (s : State) (hb : s.stringToWrite_g = "") :
    svcIteration s = s := by
  unfold svcIteration
  dsimp only
  rw [hb, if_neg (by decide)]
  cases s
  simp only at hb
  subst hb
  rfl

/-- A drain with a NULL stream pointer writes to the console alone. -/
theorem svcIteration_null (s : State) (hpf : s.plogFile_g = none) :
    (svcIteration s).cerr
        = (if s.flags_ &&& STDERR ≠ 0 then s.cerr ++ pending s.stringToWrite_g else s.cerr) ∧
      (svcIteration s).disk = s.disk ∧ (svcIteration s).stringToWrite_g = "" := by
  unfold svcIteration pending
  dsimp only
  by_cases hlen : 0 < s.stringToWrite_g.length
  · rw [if_pos hlen, if_pos hlen]
    by_cases hc : flags { s with stringToWrite_g := "" } &&& STDERR ≠ 0
    · have hc2 : s.flags_ &&& STDERR ≠ 0 := hc
      rw [if_pos hc, if_pos hc2]
      simp [hpf, String.append_assoc]
    · have hc2 : ¬ s.flags_ &&& STDERR ≠ 0 := hc
      rw [if_neg hc, if_neg hc2]
      simp [hpf]
  · rw [if_neg hlen, if_neg hlen]
    have hb : s.stringToWrite_g = "" := by
      rw [← string_length_eq_zero]; omega
    refine ⟨?_, rfl, rfl⟩
    rw [hb]
    split_ifs
    · exact (String.append_empty _).symm
    · rfl

/-- What `Reset` does to an open stream whose path can be opened again. -/
theorem Reset_open (s : State) (f : ofstream) (hpf : s.plogFile_g = some f)
    (hreopen : canOpen s.writable s.logFileName_ = true) :
    Reset s = (true,
      { s with
        failureReported := false
        plogFile_g := some { is_open := true, path := s.logFileName_ }
        opened := s.opened ++ [(s.logFileName_, .trunc)]
        disk := fun q => if q = s.logFileName_ then some "" else s.disk q }) := by
  unfold Reset
  cases ho : f.is_open <;>
    simp [hpf, ho, ofstream_open, ofstream_close, hreopen]

/-- What `LogContents` does on a stream whose file can be read and opened
again. -/
theorem LogContents_open (s : State) (f : ofstream) (text : String)
    (hpf : s.plogFile_g = some f)
    (hdisk : s.disk s.logFileName_ = some text) (hsize : text.length < SIZE_MAX)
    (hread : s.readable s.logFileName_ = true)
    (hreopen : canOpen s.writable s.logFileName_ = true) :
    LogContents s = .ok ((some text, text.length),
      { s with
        plogFile_g := some { is_open := true, path := s.logFileName_ }
        opened := s.opened ++ [(s.logFileName_, .app)] }) := by
  have hd : (fun q => if q = s.logFileName_ then some text else s.disk q) = s.disk := by
    funext q
    by_cases hq : q = s.logFileName_
    · rw [if_pos hq, hq, hdisk]
    · rw [if_neg hq]
  unfold LogContents
  cases ho : f.is_open <;>
    simp [hpf, ho, ofstream_open, ofstream_close, hreopen, hread, hdisk, hsize, hd]
/-! ## C12: Reset, one Log, one drain -/

/-- C12 (as stated, refuted): with the file open and one line waiting in the
buffer, `Reset`, then one `Log` call that passes the gate, then a drain leave a
file that holds the waiting line in front of the rendered one. -/
theorem C12_counterexample :
    fileOpen pendingState = true ∧ pendingState.stringToWrite_g = "earlier line" ∧
    (Reset pendingState).1 = true ∧
    (Log 8 examplePlatform (Reset pendingState).2 .info "laser on".toList []).map
        (fun r => fileText (svcIteration r) "CoreLog.txt")
      = .ok ("earlier line\n"
          ++ "2009-11-11T10:20:30.123456 p:4242 t:140735 [LOG] laser on\n") := by
  decide

/-- C12 (amended): for every state with the log file open on the fixed path,
an empty accumulation buffer and a path that opens again, `Reset` returns
true, and a single `Log` call that passes the gate (arguments matching the
template, platform texts free of percent signs) followed by one drain leaves a
file whose content is exactly the rendered line and one newline, whatever the
file held before. -/
theorem C12_reset_log_drain (pf : Platform) (s : State) (P : String) (p : priority)
    (format : List Char) (args : List VArg)
    (hopen : s.plogFile_g = some { is_open := true, path := P })
    (hpath : s.logFileName_ = P) (hbuf : s.stringToWrite_g = "")
    (hreopen : canOpen s.writable P = true)
    (hgate : MatchACEPriority p.toNat &&& s.level_ ≠ 0)
    (hD : '%' ∉ pf.todaysDate) (ht : '%' ∉ pf.percentt) (hP : '%' ∉ pf.percentP)
    (hargs : scan pf format args ≠ .error .undefinedBehaviour) :
    (Reset s).1 = true ∧
    ∃ line bound, line ≠ [] ∧ ∀ fuel, bound ≤ fuel →
      formatLine fuel pf (Reset s).2 (MatchACEPriority p.toNat) format args = .ok line ∧
      ∃ r, Log fuel pf (Reset s).2 p format args = .ok r ∧
        fileText (svcIteration r) P = String.mk line ++ "\n" := by
  subst hpath
  have hr := Reset_open s _ hopen hreopen
  rw [hr]
  refine ⟨rfl, ?_⟩
  cases hscan : scan pf format args with
  | error e =>
    exfalso
    have := scan_fault pf format args e hscan
    subst this
    exact hargs hscan
  | ok body =>
    dsimp only
    generalize hs1 : ({ s with
        failureReported := false
        plogFile_g := some { is_open := true, path := s.logFileName_ }
        opened := s.opened ++ [(s.logFileName_, openmode.trunc)]
        disk := fun q => if q = s.logFileName_ then some "" else s.disk q } : State) = s1
    have e1 : s1.plogFile_g = some { is_open := true, path := s.logFileName_ } := by
      rw [← hs1]
    have e2 : s1.level_ = s.level_ := by rw [← hs1]
    have e3 : s1.stringToWrite_g = "" := by rw [← hs1]; exact hbuf
    have e4 : s1.disk s.logFileName_ = some "" := by rw [← hs1]; simp
    obtain ⟨line, hne, hline⟩ := formatLine_ok pf s1 (MatchACEPriority p.toNat) format args
      body hD ht hP hscan
    refine ⟨line, List.count '%' (GetFormatPrefix s1 (MatchACEPriority p.toNat) ++ body) + 1,
      hne, ?_⟩
    intro fuel hfuel
    have hfl := hline fuel (by omega)
    refine ⟨hfl, _, Log_appends fuel pf s1 p format args line (by rw [e1]; simp)
      (by rw [e2]; exact hgate) hfl, ?_⟩
    have hb : (appendLine s1 (String.mk line)).stringToWrite_g = String.mk line := by
      unfold appendLine
      dsimp only
      rw [e3, if_neg (by decide)]
      exact String.empty_append _
    rw [svcIteration_open (appendLine s1 (String.mk line)) _ e1 rfl
      (by rw [hb]; exact string_mk_ne_empty line hne)]
    unfold fileText
    dsimp only
    rw [if_pos rfl, hb]
    have : (appendLine s1 (String.mk line)).disk s.logFileName_ = some "" := e4
    rw [this]
    simp

theorem C12_reset_log_drain_witness :
    (Reset openState).1 = true ∧
    ∃ line bound, line ≠ [] ∧ ∀ fuel, bound ≤ fuel →
      formatLine fuel examplePlatform (Reset openState).2 (MatchACEPriority priority.info.toNat)
        "laser %d on".toList [.int 3] = .ok line ∧
      ∃ r, Log fuel examplePlatform (Reset openState).2 .info "laser %d on".toList [.int 3]
          = .ok r ∧
        fileText (svcIteration r) "CoreLog.txt" = String.mk line ++ "\n" :=
  C12_reset_log_drain examplePlatform openState "CoreLog.txt" .info "laser %d on".toList
    [.int 3] (by decide) (by decide) (by decide) (by decide) (by decide) (by decide)
    (by decide) (by decide) (by decide)

/-! ## C14: Log after Shutdown -/

/-- C14 (as stated, refuted): with the console bit set and the worker running,
a `Log` call that would pass the gate, made after `Shutdown`, is not appended
to the buffer, and the next drain forwards nothing of it to the console: the
console holds the notice about the NULL file pointer and nothing else. -/
theorem C14_counterexample :
    openState.flags_ &&& STDERR ≠ 0 ∧
    openState.pLogThread_g = some { stop_ := false, active := true } ∧
    MatchACEPriority priority.info.toNat &&& (Shutdown openState).level_ ≠ 0 ∧
    (Log 8 examplePlatform (Shutdown openState) .info "laser on".toList []).map
        (fun r => r.stringToWrite_g) = .ok "" ∧
    (Log 8 examplePlatform (Shutdown openState) .info "laser on".toList []).map
        (fun r => (svcIteration r).cerr) = .ok " log file is NULL!\n" := by
  decide

/-- C14 (amended): after `Shutdown` every `Log` call, whatever its priority,
finds the stream pointer NULL, writes the notice " log file is NULL!" to the
console and returns without appending to the buffer; `Shutdown` keeps the
console bit, and with that bit set the next drain forwards to the console the
text that was waiting in the buffer before the call, and nothing of the new
message; no file is written. -/
theorem C14_log_after_shutdown (fuel : Nat) (pf : Platform) (s : State) (p : priority)
    (format : List Char) (args : List VArg) (hconsole : s.flags_ &&& STDERR ≠ 0) :
    (Shutdown s).flags_ &&& STDERR ≠ 0 ∧
    ∃ r, Log fuel pf (Shutdown s) p format args = .ok r ∧
      r.stringToWrite_g = s.stringToWrite_g ∧
      r.cerr = s.cerr ++ " log file is NULL!" ++ "\n" ∧
      (svcIteration r).cerr = r.cerr ++ pending s.stringToWrite_g ∧
      (svcIteration r).disk = s.disk := by
  have hflag : (Shutdown s).flags_ &&& STDERR ≠ 0 := by
    rw [Shutdown_eq]
    show andNot s.flags_ OSTREAM &&& STDERR ≠ 0
    rw [andNot_land_other _ _ _ (by decide)]
    exact hconsole
  refine ⟨hflag, _, Log_of_null fuel pf (Shutdown s) p format args (by rw [Shutdown_eq]), ?_⟩
  have hn := svcIteration_null
    { Shutdown s with cerr := (Shutdown s).cerr ++ " log file is NULL!" ++ "\n" }
    (by rw [Shutdown_eq])
  refine ⟨by rw [Shutdown_eq], by rw [Shutdown_eq], ?_, ?_⟩
  · rw [hn.1]
    have : ({ Shutdown s with
        cerr := (Shutdown s).cerr ++ " log file is NULL!" ++ "\n" } : State).flags_
          &&& STDERR ≠ 0 := hflag
    rw [if_pos this]
    rw [Shutdown_eq]
  · rw [hn.2.1, Shutdown_eq]

theorem C14_log_after_shutdown_witness :
    pendingState.flags_ &&& STDERR ≠ 0 ∧
    ((Shutdown pendingState).flags_ &&& STDERR ≠ 0 ∧
    ∃ r, Log 8 examplePlatform (Shutdown pendingState) .error "laser off".toList [] = .ok r ∧
      r.stringToWrite_g = pendingState.stringToWrite_g ∧
      r.cerr = pendingState.cerr ++ " log file is NULL!" ++ "\n" ∧
      (svcIteration r).cerr = r.cerr ++ pending pendingState.stringToWrite_g ∧
      (svcIteration r).disk = pendingState.disk) :=
  ⟨by decide,
   C14_log_after_shutdown 8 examplePlatform pendingState .error "laser off".toList []
    (by decide)⟩
/-! ## C15: the snapshot -/

/-- C15 (as stated, refuted): with the file open and a line waiting in the
buffer, `LogContents`, then a passing `Log` call and a drain, then
`LogContents` again does not return the first result followed by the new line
alone: the line that was waiting comes in between. -/
theorem C15_counterexample :
    fileOpen writtenPendingState = true ∧
    (LogContents writtenPendingState).map (fun r => r.1) = .ok (some "first line\n", 11) ∧
    ((LogContents writtenPendingState).bind (fun r1 =>
        (Log 8 examplePlatform r1.2 .info "laser on".toList []).bind (fun r2 =>
          (LogContents (svcIteration r2)).map (fun r3 => r3.1.1))))
      = .ok (some ("first line\n" ++ "second line\n"
          ++ "2009-11-11T10:20:30.123456 p:4242 t:140735 [LOG] laser on\n")) := by
  decide

/-- C15 (amended): with the log file open on the fixed path, readable, possible
to open again and shorter than SIZE_MAX, `LogContents` returns the content of
the file and its length, leaves every file and the accumulation buffer as they
were, and leaves the stream open on the fixed path after one `open` call in
append mode.  A passing `Log` call and a drain after it, then `LogContents`
again, return the first result followed by the text that was waiting in the
buffer (with its newline), the newly rendered line and its newline; with the
buffer empty at the first call that is the first result followed by the new
line and its newline. -/
theorem C15_snapshot (pf : Platform) (s : State) (P text : String) (p : priority)
    (format : List Char) (args : List VArg)
    (hopen : s.plogFile_g = some { is_open := true, path := P })
    (hpath : s.logFileName_ = P) (hdisk : s.disk P = some text)
    (hsize : text.length < SIZE_MAX)
    (hread : s.readable P = true) (hreopen : canOpen s.writable P = true)
    (hgate : MatchACEPriority p.toNat &&& s.level_ ≠ 0)
    (hD : '%' ∉ pf.todaysDate) (ht : '%' ∉ pf.percentt) (hP : '%' ∉ pf.percentP)
    (hargs : scan pf format args ≠ .error .undefinedBehaviour) :
    ∃ s1, LogContents s = .ok ((some text, text.length), s1) ∧
      s1.disk = s.disk ∧ s1.stringToWrite_g = s.stringToWrite_g ∧
      s1.plogFile_g = some { is_open := true, path := P } ∧
      s1.opened = s.opened ++ [(P, .app)] ∧
      ∃ line bound, line ≠ [] ∧ ∀ fuel, bound ≤ fuel →
        formatLine fuel pf s1 (MatchACEPriority p.toNat) format args = .ok line ∧
        ∃ r, Log fuel pf s1 p format args = .ok r ∧
          (s.stringToWrite_g = "" →
            fileText (svcIteration r) P = text ++ (String.mk line ++ "\n")) ∧
          fileText (svcIteration r) P
            = text ++ pending s.stringToWrite_g ++ (String.mk line ++ "\n") ∧
          ((text ++ pending s.stringToWrite_g ++ (String.mk line ++ "\n")).length < SIZE_MAX →
            (LogContents (svcIteration r)).map (fun r3 => r3.1)
              = .ok (some (text ++ pending s.stringToWrite_g ++ (String.mk line ++ "\n")),
                  (text ++ pending s.stringToWrite_g ++ (String.mk line ++ "\n")).length)) := by
  subst hpath
  have h1 := LogContents_open s _ text hopen hdisk hsize hread hreopen
  generalize hs1 : ({ s with
      plogFile_g := some { is_open := true, path := s.logFileName_ }
      opened := s.opened ++ [(s.logFileName_, openmode.app)] } : State) = s1 at h1
  have e1 : s1.plogFile_g = some { is_open := true, path := s.logFileName_ } := by rw [← hs1]
  have e2 : s1.level_ = s.level_ := by rw [← hs1]
  have e3 : s1.stringToWrite_g = s.stringToWrite_g := by rw [← hs1]
  have e4 : s1.disk = s.disk := by rw [← hs1]
  have e5 : s1.logFileName_ = s.logFileName_ := by rw [← hs1]
  have e6 : s1.readable = s.readable := by rw [← hs1]
  have e7 : s1.writable = s.writable := by rw [← hs1]
  refine ⟨s1, h1, e4, e3, e1, by rw [← hs1], ?_⟩
  cases hscan : scan pf format args with
  | error e =>
    exfalso
    have := scan_fault pf format args e hscan
    subst this
    exact hargs hscan
  | ok body =>
    obtain ⟨line, hne, hline⟩ := formatLine_ok pf s1 (MatchACEPriority p.toNat) format args
      body hD ht hP hscan
    refine ⟨line, List.count '%' (GetFormatPrefix s1 (MatchACEPriority p.toNat) ++ body) + 1,
      hne, ?_⟩
    intro fuel hfuel
    have hfl := hline fuel (by omega)
    refine ⟨hfl, _, Log_appends fuel pf s1 p format args line (by rw [e1]; simp)
      (by rw [e2]; exact hgate) hfl, ?_⟩
    have hmk : String.mk line ≠ "" := string_mk_ne_empty line hne
    have hpos : 0 < (appendLine s1 (String.mk line)).stringToWrite_g.length := by
      unfold appendLine
      dsimp only
      have := (string_length_pos _).mpr hmk
      rw [String.length_append]
      omega
    have hbne : (appendLine s1 (String.mk line)).stringToWrite_g ≠ "" :=
      (string_length_pos _).mp hpos
    have hb : (appendLine s1 (String.mk line)).stringToWrite_g ++ "\n"
        = pending s.stringToWrite_g ++ (String.mk line ++ "\n") := by
      have := pending_appendLine s1 (String.mk line) hmk
      rw [e3] at this
      rw [← this]
      unfold pending
      rw [if_pos hpos]
    have hsvc := svcIteration_open (appendLine s1 (String.mk line)) _ e1 rfl hbne
    have hfile : fileText (svcIteration (appendLine s1 (String.mk line))) s.logFileName_
        = text ++ pending s.stringToWrite_g ++ (String.mk line ++ "\n") := by
      rw [hsvc]
      unfold fileText
      dsimp only
      rw [if_pos rfl, hb]
      have : (appendLine s1 (String.mk line)).disk s.logFileName_ = some text := by
        show s1.disk s.logFileName_ = some text
        rw [e4]; exact hdisk
      rw [this]
      simp [String.append_assoc]
    refine ⟨?_, hfile, ?_⟩
    · intro hempty
      rw [hfile, hempty, pending_empty, String.append_empty]
    · intro hsize2
      have hdisk2 : (svcIteration (appendLine s1 (String.mk line))).disk
          (svcIteration (appendLine s1 (String.mk line))).logFileName_
          = some (text ++ pending s.stringToWrite_g ++ (String.mk line ++ "\n")) := by
        have hfn : (svcIteration (appendLine s1 (String.mk line))).logFileName_
            = s.logFileName_ := by rw [hsvc]; exact e5
        rw [hfn]
        unfold fileText at hfile
        rw [hsvc] at hfile ⊢
        dsimp only at hfile ⊢
        rw [if_pos rfl] at hfile ⊢
        rw [← hfile]
        rfl
      have hfn : (svcIteration (appendLine s1 (String.mk line))).logFileName_
          = s.logFileName_ := by rw [hsvc]; exact e5
      rw [LogContents_open (svcIteration (appendLine s1 (String.mk line))) _ _
        (by rw [hsvc]; exact e1) hdisk2 hsize2
        (by rw [hfn]; rw [hsvc]; show s1.readable s.logFileName_ = true; rw [e6]; exact hread)
        (by rw [hfn]; rw [hsvc]; show canOpen s1.writable s.logFileName_ = true
            rw [e7]; exact hreopen)]
      rfl

theorem C15_snapshot_witness :
    ∃ s1, LogContents writtenPendingState = .ok ((some "first line\n", "first line\n".length), s1) ∧
      s1.disk = writtenPendingState.disk ∧
      s1.stringToWrite_g = writtenPendingState.stringToWrite_g ∧
      s1.plogFile_g = some { is_open := true, path := "CoreLog.txt" } ∧
      s1.opened = writtenPendingState.opened ++ [("CoreLog.txt", .app)] ∧
      ∃ line bound, line ≠ [] ∧ ∀ fuel, bound ≤ fuel →
        formatLine fuel examplePlatform s1 (MatchACEPriority priority.info.toNat)
          "laser on".toList [] = .ok line ∧
        ∃ r, Log fuel examplePlatform s1 .info "laser on".toList [] = .ok r ∧
          (writtenPendingState.stringToWrite_g = "" →
            fileText (svcIteration r) "CoreLog.txt"
              = "first line\n" ++ (String.mk line ++ "\n")) ∧
          fileText (svcIteration r) "CoreLog.txt"
            = "first line\n" ++ pending writtenPendingState.stringToWrite_g
                ++ (String.mk line ++ "\n") ∧
          (("first line\n" ++ pending writtenPendingState.stringToWrite_g
              ++ (String.mk line ++ "\n")).length < SIZE_MAX →
            (LogContents (svcIteration r)).map (fun r3 => r3.1)
              = .ok (some ("first line\n" ++ pending writtenPendingState.stringToWrite_g
                      ++ (String.mk line ++ "\n")),
                  ("first line\n" ++ pending writtenPendingState.stringToWrite_g
                      ++ (String.mk line ++ "\n")).length)) :=
  C15_snapshot examplePlatform writtenPendingState "CoreLog.txt" "first line\n" .info
    "laser on".toList [] (by decide) (by decide) (by decide) (by decide) (by decide)
    (by decide) (by decide) (by decide) (by decide) (by decide) (by decide)
/-! ## The scan against its reference definition -/

theorem drop_cons_next {α : Type} (t : List α) (i : Nat) (x : α) (r : List α)
    (h : t.drop i = x :: r) : t.drop (i + 1) = r ∧ i < t.length := by
  constructor
  · rw [← List.drop_drop, h]
    rfl
  · by_contra hlt
    rw [List.drop_eq_nil_of_le (by omega)] at h
    cases h

theorem takeWhile_drop_cons (p : Char → Bool) (l : List Char) :
    ∀ (i : Nat) (x : Char) (r : List Char), (l.takeWhile p).drop i = x :: r →
      l.getD i NUL = x ∧ p x = true := by
  induction l with
  | nil => intro i x r h; simp at h
  | cons a l ih =>
    intro i x r h
    by_cases ha : p a = true
    · rw [List.takeWhile_cons_of_pos ha] at h
      cases i with
      | zero =>
        simp only [List.drop_zero, List.cons.injEq] at h
        obtain ⟨h1, -⟩ := h
        subst h1
        exact ⟨rfl, ha⟩
      | succ k =>
        simp only [List.drop_succ_cons] at h
        simpa using ih k x r h
    · rw [List.takeWhile_cons_of_neg ha] at h
      simp at h

/-- The character at a position inside the template. -/
theorem strAt_of_drop (format : List Char) (i : Nat) (x : Char) (r : List Char)
    (h : (c_str format).drop i = x :: r) :
    strAt format i = x ∧ x ≠ NUL ∧ (c_str format).drop (i + 1) = r ∧ i < strlen format := by
  have h1 := takeWhile_drop_cons (fun c => c ≠ NUL) format i x r h
  have h2 := drop_cons_next _ i x r h
  refine ⟨h1.1, ?_, h2.1, h2.2⟩
  simpa using h1.2

/-- The character at the end of the template. -/
theorem strAt_of_drop_nil (format : List Char) (i : Nat) (hi : i ≤ strlen format)
    (h : (c_str format).drop i = []) : strAt format i = NUL := by
  have : strlen format ≤ i := by
    unfold strlen
    exact List.drop_eq_nil_iff.mp h
  have e : i = strlen format := by omega
  rw [e]
  exact strAt_strlen format
theorem directive_d (pf : Platform) (format : List Char) (flen i : Nat) (argp : List VArg)
    (h : strAt format i = 'd') :
    directive pf format flen i argp =
      match va_arg_int argp with
      | .ok (n, rest) => .ok (i, rest, snprintf MaxBuf (toString n).toList)
      | .error e => .error e := by
  unfold directive
  simp [h]

theorem directive_float (pf : Platform) (format : List Char) (flen i : Nat) (argp : List VArg)
    (y : Char) (h : strAt format i = y) (hy : y = 'f' ∨ y = 'e' ∨ y = 'g') :
    directive pf format flen i argp =
      match va_arg_double argp with
      | .ok (f, rest) => .ok (i, rest, snprintf MaxBuf (pf.snprintf_f ['%', y] f))
      | .error e => .error e := by
  unfold directive
  rcases hy with hy | hy | hy <;> subst hy <;> simp [h]

theorem directive_c (pf : Platform) (format : List Char) (flen i : Nat) (argp : List VArg)
    (h : strAt format i = 'c') :
    directive pf format flen i argp =
      match va_arg_int argp with
      | .ok (n, rest) => .ok (i, rest, snprintf MaxBuf [toChar n])
      | .error e => .error e := by
  unfold directive
  simp [h]

theorem directive_s (pf : Platform) (format : List Char) (flen i : Nat) (argp : List VArg)
    (h : strAt format i = 's') :
    directive pf format flen i argp =
      match va_arg_str argp with
      | .ok (text, rest) => .ok (i, rest, snprintf MaxBuf text)
      | .error e => .error e := by
  unfold directive
  simp [h]

theorem directive_dot (pf : Platform) (format : List Char) (flen i : Nat) (argp : List VArg)
    (h : strAt format i = '.') :
    directive pf format flen i argp =
      match va_arg_double argp with
      | .ok (f, rest) =>
        if i < flen - 1 then
          .ok (i + 2, rest,
            snprintf MaxBuf (pf.snprintf_f ['%', '.', strAt format (i + 1), 'f'] f))
        else .ok (i, rest, snprintf MaxBuf (pf.snprintf_f ['%'] f))
      | .error e => .error e := by
  unfold directive
  simp [h]

theorem directive_token (pf : Platform) (format : List Char) (flen i : Nat) (argp : List VArg)
    (y : Char) (h : strAt format i = y) (hy : y = 't' ∨ y = 'D' ∨ y = 'P') :
    directive pf format flen i argp = .ok (i, argp, ['%', y]) := by
  unfold directive
  rcases hy with hy | hy | hy <;> subst hy <;> simp [h] <;> decide

theorem directive_other (pf : Platform) (format : List Char) (flen i : Nat) (argp : List VArg)
    (y : Char) (h : strAt format i = y)
    (h1 : y ≠ 'd') (h2 : ¬ (y = 'f' ∨ y = 'e' ∨ y = 'g')) (h3 : y ≠ 'c') (h4 : y ≠ 's')
    (h5 : y ≠ '.') (h6 : ¬ (y = 't' ∨ y = 'D' ∨ y = 'P')) :
    directive pf format flen i argp = .ok (i, argp, []) := by
  unfold directive
  simp only [not_or] at h2 h6
  simp [h, h1, h2.1, h2.2.1, h2.2.2, h3, h4, h5, h6.1, h6.2.1, h6.2.2]
theorem bytesOnly_tail (a : VArg) (rest : List VArg) (h : bytesOnly (a :: rest)) :
    bytesOnly rest :=
  fun c hc => h c (List.mem_cons_of_mem _ hc)

theorem toChar_toNat (c : Char) (h : c.toNat < 256) : toChar (Int.ofNat c.toNat) = c := by
  unfold toChar
  have e : (Int.ofNat c.toNat % 256).toNat = c.toNat := by
    have : (Int.ofNat c.toNat % 256) = Int.ofNat (c.toNat % 256) := by
      simp [Int.ofNat_eq_coe]
    rw [this, Nat.mod_eq_of_lt h]
    rfl
  rw [e]
  exact Char.ofNat_toNat c

theorem va_arg_int_spec (argp : List VArg) :
    va_arg_int argp
      = (match argp with
         | .int n :: rest => .ok (n, rest)
         | .chr c :: rest => .ok (Int.ofNat c.toNat, rest)
         | _ => .error .undefinedBehaviour) := by
  unfold va_arg_int
  rfl

/-- `%d`: the loop and the reference read the same text and leave the same
arguments. -/
theorem nextArg_intText (argp : List VArg) :
    nextArg intText argp
      = match va_arg_int argp with
        | .ok (n, rest) => .ok ((toString n).toList, rest)
        | .error e => .error e := by
  cases argp with
  | nil => rfl
  | cons a rest => cases a <;> rfl

theorem nextArg_charText (argp : List VArg) (hb : bytesOnly argp) :
    nextArg charText argp
      = match va_arg_int argp with
        | .ok (n, rest) => .ok ([toChar n], rest)
        | .error e => .error e := by
  cases argp with
  | nil => rfl
  | cons a rest =>
    cases a with
    | int n => rfl
    | chr c =>
      have := toChar_toNat c (hb c (List.mem_cons_self _ _))
      simp only [nextArg, charText, va_arg_int, this]
    | dbl x => rfl
    | str t => rfl

theorem nextArg_strText (argp : List VArg) :
    nextArg strText argp
      = match va_arg_str argp with
        | .ok (text, rest) => .ok (text, rest)
        | .error e => .error e := by
  cases argp with
  | nil => rfl
  | cons a rest => cases a <;> rfl

theorem nextArg_dblText (pf : Platform) (spec : List Char) (argp : List VArg) :
    nextArg (dblText pf spec) argp
      = match va_arg_double argp with
        | .ok (x, rest) => .ok (pf.snprintf_f spec x, rest)
        | .error e => .error e := by
  cases argp with
  | nil => rfl
  | cons a rest => cases a <;> rfl

theorem va_arg_int_rest (argp rest : List VArg) (n : Int) (h : va_arg_int argp = .ok (n, rest))
    (hb : bytesOnly argp) : bytesOnly rest := by
  cases argp with
  | nil => simp [va_arg_int] at h
  | cons a as =>
    cases a <;> simp [va_arg_int] at h
    all_goals
      obtain ⟨-, h2⟩ := h
      subst h2
      exact bytesOnly_tail _ _ hb

theorem va_arg_double_rest (argp rest : List VArg) (x : Rat)
    (h : va_arg_double argp = .ok (x, rest)) (hb : bytesOnly argp) : bytesOnly rest := by
  cases argp with
  | nil => simp [va_arg_double] at h
  | cons a as =>
    cases a <;> simp [va_arg_double] at h
    obtain ⟨-, h2⟩ := h
    subst h2
    exact bytesOnly_tail _ _ hb

theorem va_arg_str_rest (argp rest : List VArg) (t : List Char)
    (h : va_arg_str argp = .ok (t, rest)) (hb : bytesOnly argp) : bytesOnly rest := by
  cases argp with
  | nil => simp [va_arg_str] at h
  | cons a as =>
    cases a <;> simp [va_arg_str] at h
    obtain ⟨-, h2⟩ := h
    subst h2
    exact bytesOnly_tail _ _ hb
theorem scanSpec_plain (clip : List Char → List Char) (pf : Platform) (x y : Char)
    (rest : List Char) (args : List VArg) (h : x ≠ '%') :
    scanSpec clip pf (x :: y :: rest) args
      = (scanSpec clip pf (y :: rest) args).map (fun out => x :: out) := by
  rcases rest with _ | ⟨n, _ | ⟨u, rest1⟩⟩ <;> (conv_lhs => rw [scanSpec]) <;> simp [h]

theorem scanSpec_d (clip : List Char → List Char) (pf : Platform)
    (rest : List Char) (args : List VArg) :
    scanSpec clip pf ('%' :: 'd' :: rest) args
      = match nextArg intText args with
        | .ok (text, args1) => (scanSpec clip pf rest args1).map (fun out => clip text ++ out)
        | .error e => .error e := by
  rcases rest with _ | ⟨n, _ | ⟨u, rest1⟩⟩ <;> (conv_lhs => rw [scanSpec]) <;> simp

theorem scanSpec_float (clip : List Char → List Char) (pf : Platform) (y : Char)
    (rest : List Char) (args : List VArg) (hy : y = 'f' ∨ y = 'e' ∨ y = 'g') :
    scanSpec clip pf ('%' :: y :: rest) args
      = match nextArg (dblText pf ['%', y]) args with
        | .ok (text, args1) => (scanSpec clip pf rest args1).map (fun out => clip text ++ out)
        | .error e => .error e := by
  rcases rest with _ | ⟨n, _ | ⟨u, rest1⟩⟩ <;> (conv_lhs => rw [scanSpec]) <;>
    rcases hy with hy | hy | hy <;> subst hy <;> simp

theorem scanSpec_c (clip : List Char → List Char) (pf : Platform)
    (rest : List Char) (args : List VArg) :
    scanSpec clip pf ('%' :: 'c' :: rest) args
      = match nextArg charText args with
        | .ok (text, args1) => (scanSpec clip pf rest args1).map (fun out => clip text ++ out)
        | .error e => .error e := by
  rcases rest with _ | ⟨n, _ | ⟨u, rest1⟩⟩ <;> (conv_lhs => rw [scanSpec]) <;> simp

theorem scanSpec_s (clip : List Char → List Char) (pf : Platform)
    (rest : List Char) (args : List VArg) :
    scanSpec clip pf ('%' :: 's' :: rest) args
      = match nextArg strText args with
        | .ok (text, args1) => (scanSpec clip pf rest args1).map (fun out => clip text ++ out)
        | .error e => .error e := by
  rcases rest with _ | ⟨n, _ | ⟨u, rest1⟩⟩ <;> (conv_lhs => rw [scanSpec]) <;> simp

theorem scanSpec_dot_end (clip : List Char → List Char) (pf : Platform) (args : List VArg) :
    scanSpec clip pf ['%', '.'] args
      = match nextArg (dblText pf ['%']) args with
        | .ok (text, _) => .ok (clip text)
        | .error e => .error e := by
  conv_lhs => rw [scanSpec]
  simp

theorem scanSpec_dot_one (clip : List Char → List Char) (pf : Platform) (n : Char)
    (args : List VArg) :
    scanSpec clip pf ['%', '.', n] args
      = match nextArg (dblText pf ['%', '.', n, 'f']) args with
        | .ok (text, _) => .ok (clip text)
        | .error e => .error e := by
  conv_lhs => rw [scanSpec]
  simp

theorem scanSpec_dot (clip : List Char → List Char) (pf : Platform) (n u : Char)
    (rest : List Char) (args : List VArg) :
    scanSpec clip pf ('%' :: '.' :: n :: u :: rest) args
      = match nextArg (dblText pf ['%', '.', n, 'f']) args with
        | .ok (text, args1) => (scanSpec clip pf rest args1).map (fun out => clip text ++ out)
        | .error e => .error e := by
  conv_lhs => rw [scanSpec]
  simp

theorem scanSpec_token (clip : List Char → List Char) (pf : Platform) (y : Char)
    (rest : List Char) (args : List VArg) (hy : y = 't' ∨ y = 'D' ∨ y = 'P') :
    scanSpec clip pf ('%' :: y :: rest) args
      = (scanSpec clip pf rest args).map (fun out => '%' :: y :: out) := by
  rcases rest with _ | ⟨n, _ | ⟨u, rest1⟩⟩ <;> (conv_lhs => rw [scanSpec]) <;>
    rcases hy with hy | hy | hy <;> subst hy <;> simp

theorem scanSpec_other (clip : List Char → List Char) (pf : Platform) (y : Char)
    (rest : List Char) (args : List VArg)
    (h1 : y ≠ 'd') (h2 : ¬ (y = 'f' ∨ y = 'e' ∨ y = 'g')) (h3 : y ≠ 'c') (h4 : y ≠ 's')
    (h5 : y ≠ '.') (h6 : ¬ (y = 't' ∨ y = 'D' ∨ y = 'P')) :
    scanSpec clip pf ('%' :: y :: rest) args = scanSpec clip pf rest args := by
  rcases rest with _ | ⟨n, _ | ⟨u, rest1⟩⟩ <;> (conv_lhs => rw [scanSpec]) <;>
    simp [h1, h2, h3, h4, h5, h6]

theorem except_map_map {ε α β γ : Type} (e : Except ε α) (f : α → β) (g : β → γ) :
    (e.map f).map g = e.map (fun a => g (f a)) := by
  cases e <;> rfl

theorem scanSpec_nil (clip : List Char → List Char) (pf : Platform) (args : List VArg) :
    scanSpec clip pf [] args = .ok [] := by
  rw [scanSpec]

theorem scanSpec_single (clip : List Char → List Char) (pf : Platform) (x : Char)
    (args : List VArg) :
    scanSpec clip pf [x] args = if x = '%' then .ok [] else .ok [x] := by
  rw [scanSpec]

/-- The loop of lines 304-392, started at position `i` with text `w` collected
so far, computes what the reference definition computes on the rest of the
template, every converted text passing through the buffer of `MaxBuf`
bytes. -/
theorem scanLoop_eq_scanSpec (pf : Platform) (format : List Char) :
    ∀ (fuel i : Nat) (argp : List VArg) (w : List Char), bytesOnly argp →
      i ≤ strlen format → strlen format + 1 ≤ fuel + i →
      scanLoop pf format (strlen format) fuel i argp w
        = (scanSpec (snprintf MaxBuf) pf ((c_str format).drop i) argp).map
            (fun out => w ++ out) := by
  intro fuel
  induction fuel with
  | zero => intro i argp w _ h1 h2; omega
  | succ fuel ih =>
    intro i argp w hb h1 h2
    cases hd : (c_str format).drop i with
    | nil =>
      have h0 := strAt_of_drop_nil format i h1 hd
      unfold scanLoop
      rw [if_pos h0, scanSpec_nil]
      simp [Except.map]
    | cons x r =>
      obtain ⟨hx, hxn, hr, hlt⟩ := strAt_of_drop format i x r hd
      unfold scanLoop
      rw [hx, if_neg hxn]
      by_cases hp : x = '%'
      · rw [if_pos hp]
        subst hp
        cases r with
        | nil =>
          have h0 := strAt_of_drop_nil format (i + 1) (by omega) hr
          rw [directive_other pf format _ (i + 1) argp NUL h0 (by decide) (by decide)
            (by decide) (by decide) (by decide) (by decide)]
          simp [h0, scanSpec_single, Except.map]
        | cons y rest =>
          obtain ⟨hy, hyn, hrest, hlt2⟩ := strAt_of_drop format (i + 1) y rest hr
          have hnext : ∀ (rest1 : List VArg) (out : List Char), bytesOnly rest1 →
              scanLoop pf format (strlen format) fuel (i + 1 + 1) rest1 (w ++ out)
                = (scanSpec (snprintf MaxBuf) pf rest rest1).map
                    (fun o => w ++ (out ++ o)) := by
            intro rest1 out hb1
            rw [ih (i + 1 + 1) rest1 _ hb1 (by omega) (by omega), hrest]
            simp only [List.append_assoc]
          by_cases hyd : y = 'd'
          · rw [directive_d _ _ _ _ _ (hy.trans hyd)]
            subst hyd
            rw [scanSpec_d, nextArg_intText]
            cases hva : va_arg_int argp with
            | error e => rfl
            | ok v =>
              obtain ⟨n, rest1⟩ := v
              simp only [hy, hyn, if_false]
              rw [hnext _ _ (va_arg_int_rest _ _ _ hva hb), except_map_map]
          · by_cases hyf : y = 'f' ∨ y = 'e' ∨ y = 'g'
            · rw [directive_float _ _ _ _ _ y hy hyf, scanSpec_float _ _ _ _ _ hyf,
                nextArg_dblText]
              cases hva : va_arg_double argp with
              | error e => rfl
              | ok v =>
                obtain ⟨f, rest1⟩ := v
                simp only [hy, hyn, if_false]
                rw [hnext _ _ (va_arg_double_rest _ _ _ hva hb), except_map_map]
            · by_cases hyc : y = 'c'
              · rw [directive_c _ _ _ _ _ (hy.trans hyc)]
                subst hyc
                rw [scanSpec_c, nextArg_charText _ hb]
                cases hva : va_arg_int argp with
                | error e => rfl
                | ok v =>
                  obtain ⟨n, rest1⟩ := v
                  simp only [hy, hyn, if_false]
                  rw [hnext _ _ (va_arg_int_rest _ _ _ hva hb), except_map_map]
              · by_cases hys : y = 's'
                · rw [directive_s _ _ _ _ _ (hy.trans hys)]
                  subst hys
                  rw [scanSpec_s, nextArg_strText]
                  cases hva : va_arg_str argp with
                  | error e => rfl
                  | ok v =>
                    obtain ⟨t, rest1⟩ := v
                    simp only [hy, hyn, if_false]
                    rw [hnext _ _ (va_arg_str_rest _ _ _ hva hb), except_map_map]
                · by_cases hydot : y = '.'
                  · rw [directive_dot _ _ _ _ _ (hy.trans hydot)]
                    subst hydot
                    have hlen : strlen format = (c_str format).length := rfl
                    cases rest with
                    | nil =>
                      have hend : strlen format ≤ i + 1 + 1 := by
                        rw [hlen]; exact List.drop_eq_nil_iff.mp hrest
                      rw [scanSpec_dot_end, nextArg_dblText]
                      cases hva : va_arg_double argp with
                      | error e => rfl
                      | ok v =>
                        obtain ⟨f, rest1⟩ := v
                        have hcond : ¬ (i + 1 < strlen format - 1) := by omega
                        simp only [hcond, if_false, hy, hyn]
                        rw [hnext _ _ (va_arg_double_rest _ _ _ hva hb), scanSpec_nil]
                        simp [Except.map]
                    | cons n rest2 =>
                      obtain ⟨hn, hnn, hrest2, hlt3⟩ :=
                        strAt_of_drop format (i + 1 + 1) n rest2 hrest
                      have hcond : i + 1 < strlen format - 1 := by omega
                      cases rest2 with
                      | nil =>
                        have h0 := strAt_of_drop_nil format (i + 1 + 1 + 1) (by omega) hrest2
                        rw [scanSpec_dot_one, nextArg_dblText]
                        cases hva : va_arg_double argp with
                        | error e => rfl
                        | ok v =>
                          obtain ⟨f, rest1⟩ := v
                          simp only [hcond, if_true, hn]
                          rw [show i + 1 + 2 = i + 1 + 1 + 1 by omega, if_pos h0]
                          rfl
                      | cons u rest3 =>
                        obtain ⟨hu, hun, hrest3, hlt4⟩ :=
                          strAt_of_drop format (i + 1 + 1 + 1) u rest3 hrest2
                        rw [scanSpec_dot, nextArg_dblText]
                        cases hva : va_arg_double argp with
                        | error e => rfl
                        | ok v =>
                          obtain ⟨f, rest1⟩ := v
                          simp only [hcond, if_true, hn]
                          rw [show i + 1 + 2 = i + 1 + 1 + 1 by omega, hu, if_neg hun,
                            ih (i + 1 + 1 + 1 + 1) rest1 _ (va_arg_double_rest _ _ _ hva hb)
                              (by omega) (by omega), hrest3, except_map_map]
                          simp only [List.append_assoc]
                  · by_cases hytok : y = 't' ∨ y = 'D' ∨ y = 'P'
                    · rw [directive_token _ _ _ _ _ y hy hytok,
                        scanSpec_token _ _ _ _ _ hytok]
                      simp only [hy, hyn, if_false]
                      rw [hnext _ _ hb, except_map_map]
                      rfl
                    · rw [directive_other _ _ _ _ _ y hy hyd hyf hyc hys hydot hytok,
                        scanSpec_other _ _ _ _ _ hyd hyf hyc hys hydot hytok]
                      simp only [hy, hyn, if_false]
                      rw [hnext _ _ hb]
                      simp only [List.nil_append]
      · rw [if_neg hp, ih (i + 1) argp _ hb (by omega) (by omega), hr]
        cases r with
        | nil => simp [scanSpec_single, scanSpec_nil, Except.map, hp]
        | cons y rest =>
          rw [scanSpec_plain _ _ _ _ _ _ hp, except_map_map]
          simp only [List.append_assoc, List.singleton_append]
theorem ratioArgument_eq : ratioArgument = 3.14159 := by
  have h := (Rat.num_div_den ratioArgument).symm
  rw [h]
  have h1 : ratioArgument.num = 314159 := rfl
  have h2 : ratioArgument.den = 100000 := rfl
  rw [h1, h2]
  norm_num

/-- The scan of the whole template against the reference definition. -/
theorem scan_eq_scanSpec (pf : Platform) (format : List Char) (args : List VArg)
    (hb : bytesOnly args) :
    scan pf format args = scanSpec (snprintf MaxBuf) pf (c_str format) args := by
  unfold scan
  rw [scanLoop_eq_scanSpec pf format _ 0 args [] hb (Nat.zero_le _) (by omega)]
  simp only [List.drop_zero, List.nil_append]
  cases scanSpec (snprintf MaxBuf) pf (c_str format) args <;> rfl

theorem takeWhile_replicate_of_pos (p : Char → Bool) (a : Char) (h : p a = true) :
    ∀ n : Nat, (List.replicate n a).takeWhile p = List.replicate n a := by
  intro n
  induction n with
  | zero => rfl
  | succ n ih => rw [List.replicate_succ, List.takeWhile_cons_of_pos h, ih]

/-- A text without terminator that fits the buffer passes through it
unchanged. -/
theorem snprintf_of_short (n : Nat) (text : List Char) (hnul : NUL ∉ text)
    (hlen : text.length < n) : snprintf n text = text := by
  unfold snprintf c_str
  have h1 : text.takeWhile (fun c => decide (c ≠ NUL)) = text := by
    rw [List.takeWhile_eq_self_iff]
    intro c hc
    simp only [ne_eq, decide_not, Bool.not_eq_true', decide_eq_false_iff_not]
    intro e
    exact hnul (e ▸ hc)
  rw [h1]
  exact List.take_of_length_le (by omega)

/-! ## C17: the scan and its reference definition -/

/-- C17 (as stated, refuted): for the template `%s` and a string argument of
32767 characters the reference definition gives the text of the argument,
while the scan gives its first 32766 characters: the conversion goes through a
buffer of `MaxBuf` bytes. -/
theorem C17_counterexample :
    scanSpec id examplePlatform "%s".toList [.str longArgument] = .ok longArgument ∧
    scan examplePlatform "%s".toList [.str longArgument]
      = .ok (List.replicate (MaxBuf - 1) 'a') ∧
    scan examplePlatform "%s".toList [.str longArgument]
      ≠ scanSpec id examplePlatform "%s".toList [.str longArgument] := by
  have e1 : scanSpec id examplePlatform "%s".toList [.str longArgument] = .ok longArgument := by
    rw [show "%s".toList = ['%', 's'] from rfl, scanSpec_s]
    simp [nextArg, strText, scanSpec_nil, Except.map]
  have e2 : scan examplePlatform "%s".toList [.str longArgument]
      = .ok (List.replicate (MaxBuf - 1) 'a') := by
    rw [scan_eq_scanSpec _ _ _ (by intro c hc; simp at hc),
      show c_str "%s".toList = ['%', 's'] from by decide, scanSpec_s]
    have hs : snprintf MaxBuf longArgument = List.replicate (MaxBuf - 1) 'a' := by
      unfold snprintf c_str longArgument
      rw [takeWhile_replicate_of_pos _ _ (by decide), List.take_replicate]
      rfl
    simp [nextArg, strText, scanSpec_nil, Except.map, hs]
  refine ⟨e1, e2, ?_⟩
  rw [e1, e2]
  intro h
  injection h with h
  have hl := congrArg List.length h
  unfold longArgument at hl
  rw [List.length_replicate, List.length_replicate] at hl
  exact absurd hl (by decide)

/-- C17 (amended): for every template and every argument list whose character
arguments are bytes, the scan equals the reference definition in which each
converted text is read as a C string and cut to the `MaxBuf - 1` characters the
conversion buffer holds; a text without terminator and shorter than `MaxBuf`
is not changed by that cut. -/
theorem C17_scan_refines_reference (pf : Platform) (format : List Char) (args : List VArg)
    (hb : bytesOnly args) :
    scan pf format args = scanSpec (snprintf MaxBuf) pf (c_str format) args ∧
    ∀ text : List Char, NUL ∉ text → text.length < MaxBuf → snprintf MaxBuf text = text :=
  ⟨scan_eq_scanSpec pf format args hb, fun text h1 h2 => snprintf_of_short MaxBuf text h1 h2⟩

theorem C17_scan_refines_reference_witness :
    scan examplePlatform "%c: %s took %d ms (%x)%".toList
        [.chr 'A', .str "snap".toList, .int 12]
      = scanSpec (snprintf MaxBuf) examplePlatform (c_str "%c: %s took %d ms (%x)%".toList)
          [.chr 'A', .str "snap".toList, .int 12] ∧
    ∀ text : List Char, NUL ∉ text → text.length < MaxBuf → snprintf MaxBuf text = text :=
  C17_scan_refines_reference examplePlatform "%c: %s took %d ms (%x)%".toList
    [.chr 'A', .str "snap".toList, .int 12]
    (by intro c hc; simp at hc; subst hc; decide)

/-! ## C18: the precision directive -/

/-- C18: where the template holds `%.Nf` (for every character N, so for every
digit) and the next argument is a floating-point number, one iteration of the
loop consumes the three characters after the percent sign and that one
argument, appends the text the C library renders for the conversion `%.Nf`,
and goes on with the character after `f` and the remaining arguments; when the
library renders 3.14159 under `%.2f` as `3.14`, the body
`value=%d ratio=%.2f` with arguments 42 and 3.14159 renders as
`value=42 ratio=3.14`. -/
theorem C18_precision_directive (pf : Platform) (format : List Char) (fuel i : Nat)
    (N : Char) (x : Rat) (rest : List VArg) (w : List Char)
    (h0 : strAt format i = '%') (h1 : strAt format (i + 1) = '.')
    (h2 : strAt format (i + 2) = N) (h3 : strAt format (i + 3) = 'f')
    (hin : i + 3 < strlen format) :
    scanLoop pf format (strlen format) (fuel + 1) i (.dbl x :: rest) w
        = scanLoop pf format (strlen format) fuel (i + 4) rest
            (w ++ snprintf MaxBuf (pf.snprintf_f ['%', '.', N, 'f'] x)) ∧
    (pf.snprintf_f "%.2f".toList 3.14159 = "3.14".toList →
      scan pf "value=%d ratio=%.2f".toList [.int 42, .dbl 3.14159]
        = .ok "value=42 ratio=3.14".toList) := by
  constructor
  · conv_lhs => unfold scanLoop
    rw [h0, if_neg (by decide), if_pos rfl, directive_dot _ _ _ _ _ h1]
    have hcond : i + 1 < strlen format - 1 := by omega
    simp only [va_arg_double, hcond, if_true, h2]
    rw [show i + 1 + 2 = i + 3 by omega, h3, if_neg (by decide)]
  · intro hlib
    rw [scan_eq_scanSpec _ _ _ (by intro c hc; simp at hc),
      show c_str "value=%d ratio=%.2f".toList = "value=%d ratio=%.2f".toList from by decide]
    have hlib2 : pf.snprintf_f ['%', '.', '2', 'f'] 3.14159 = ['3', '.', '1', '4'] := hlib
    have hs : snprintf MaxBuf ['3', '.', '1', '4'] = ['3', '.', '1', '4'] := by decide
    have h42 : snprintf MaxBuf (toString (42 : Int)).data = ['4', '2'] := by decide
    simp only [scanSpec_plain, scanSpec_d, scanSpec_dot, nextArg, intText, dblText,
      scanSpec_nil, Except.map, String.toList, ne_eq, Char.reduceEq, not_false_eq_true,
      hlib2, hs, h42]
    rfl

theorem C18_precision_directive_witness :
    (strAt "ratio=%.2f!".toList 6 = '%' ∧ strAt "ratio=%.2f!".toList 7 = '.' ∧
      strAt "ratio=%.2f!".toList 8 = '2' ∧ strAt "ratio=%.2f!".toList 9 = 'f' ∧
      9 < strlen "ratio=%.2f!".toList ∧
      decimalPlatform.snprintf_f "%.2f".toList 3.14159 = "3.14".toList) ∧
    scanLoop decimalPlatform "ratio=%.2f!".toList (strlen "ratio=%.2f!".toList) (5 + 1) 6
          [.dbl ratioArgument] "ratio=".toList
        = scanLoop decimalPlatform "ratio=%.2f!".toList (strlen "ratio=%.2f!".toList) 5 (6 + 4) []
            ("ratio=".toList
              ++ snprintf MaxBuf (decimalPlatform.snprintf_f ['%', '.', '2', 'f']
                  ratioArgument)) ∧
    scan decimalPlatform "value=%d ratio=%.2f".toList [.int 42, .dbl 3.14159]
        = .ok "value=42 ratio=3.14".toList :=
  ⟨⟨by decide, by decide, by decide, by decide, by decide,
      by rw [← ratioArgument_eq]; decide⟩,
   (C18_precision_directive decimalPlatform "ratio=%.2f!".toList 5 6 '2' ratioArgument []
      "ratio=".toList (by decide) (by decide) (by decide) (by decide) (by decide)).1,
   (C18_precision_directive decimalPlatform "ratio=%.2f!".toList 5 6 '2' ratioArgument []
      "ratio=".toList (by decide) (by decide) (by decide) (by decide) (by decide)).2
      (by rw [← ratioArgument_eq]; decide)⟩
/-! ## The replacement loops against a single pass over the text -/

theorem expandToken_cons_of_ne (c : Char) (text : List Char) (x : Char) (z : List Char)
    (hx : x ≠ '%') : expandToken c text (x :: z) = x :: expandToken c text z := by
  cases z with
  | nil => rfl
  | cons y rest =>
    rw [expandToken]
    simp [hx]

theorem expandToken_append_left (c : Char) (text : List Char) (u v : List Char)
    (hu : '%' ∉ u) : expandToken c text (u ++ v) = u ++ expandToken c text v := by
  induction u with
  | nil => rfl
  | cons a u ih =>
    have ha : a ≠ '%' := fun e => hu (e ▸ List.mem_cons_self _ _)
    have hu2 : '%' ∉ u := fun h => hu (List.mem_cons_of_mem _ h)
    rw [List.cons_append, expandToken_cons_of_ne _ _ _ _ ha, ih hu2, List.cons_append]

theorem expandToken_token (c : Char) (text z : List Char) :
    expandToken c text ('%' :: c :: z) = text ++ expandToken c text z := by
  rw [expandToken]
  simp

theorem expandToken_pct (c : Char) (text z : List Char) (hz : z.head? ≠ some c) :
    expandToken c text ('%' :: z) = '%' :: expandToken c text z := by
  cases z with
  | nil => rfl
  | cons y rest =>
    have hy : y ≠ c := by
      intro e; apply hz; simp [e]
    rw [expandToken]
    simp [hy]

theorem head_expandToken (c d : Char) (text z : List Char) (hz : z.head? ≠ some d)
    (h1 : text ≠ []) (h2 : text.head? ≠ some d) :
    (expandToken c text z).head? ≠ some d := by
  cases z with
  | nil => exact hz
  | cons x r =>
    cases r with
    | nil => exact hz
    | cons y rest =>
      rw [expandToken]
      split_ifs with h
      · cases text with
        | nil => exact absurd rfl h1
        | cons a t => simpa using h2
      · simpa using hz

theorem count_expandToken (c : Char) (text : List Char) (htext : '%' ∉ text) :
    ∀ (n : Nat) (w : List Char), w.length ≤ n →
      List.count '%' (expandToken c text w) ≤ List.count '%' w := by
  intro n
  induction n with
  | zero =>
    intro w hw
    have : w = [] := List.length_eq_zero.mp (by omega)
    subst this
    exact Nat.le_refl _
  | succ n ih =>
    intro w hw
    cases w with
    | nil => exact Nat.le_refl _
    | cons x r =>
      cases r with
      | nil => exact Nat.le_refl _
      | cons y rest =>
        rw [expandToken]
        split_ifs with h
        · have := ih rest (by simp at hw; omega)
          rw [List.count_append, List.count_eq_zero_of_not_mem htext]
          simp only [List.count_cons]
          omega
        · have := ih (y :: rest) (by simp at hw ⊢; omega)
          simp only [List.count_cons] at this ⊢
          omega
theorem isPrefixOf_token (c x y : Char) (rest : List Char) :
    List.isPrefixOf ['%', c] (x :: y :: rest) = true ↔ x = '%' ∧ y = c := by
  simp only [List.isPrefixOf, Bool.and_true, Bool.and_eq_true, beq_iff_eq]
  constructor <;> rintro ⟨a, b⟩ <;> exact ⟨a.symm, b.symm⟩

theorem find_cons_none (c x : Char) (w : List Char) (h : find (x :: w) ['%', c] = none) :
    List.isPrefixOf ['%', c] (x :: w) = false ∧ find w ['%', c] = none := by
  unfold find at h
  split_ifs at h with hp
  refine ⟨(Bool.not_eq_true _).mp hp, ?_⟩
  cases hf : find w ['%', c] with
  | none => rfl
  | some k => rw [hf] at h; simp at h

theorem find_cons_some (c x : Char) (w : List Char) (i : Nat)
    (h : find (x :: w) ['%', c] = some i) :
    (List.isPrefixOf ['%', c] (x :: w) = true ∧ i = 0) ∨
    (List.isPrefixOf ['%', c] (x :: w) = false ∧ ∃ k, find w ['%', c] = some k ∧ i = k + 1) := by
  unfold find at h
  split_ifs at h with hp
  · left
    injection h with h
    exact ⟨hp, h.symm⟩
  · right
    refine ⟨(Bool.not_eq_true _).mp hp, ?_⟩
    cases hf : find w ['%', c] with
    | none => rw [hf] at h; simp at h
    | some k =>
      rw [hf] at h
      simp only [Option.map_some', Option.some.injEq] at h
      exact ⟨k, rfl, h.symm⟩

theorem find_nil (c : Char) : find [] ['%', c] = none := by
  unfold find
  simp [List.isPrefixOf]

/-- A text without the token is left as it is. -/
theorem expandToken_of_find_none (c : Char) (text : List Char) :
    ∀ w : List Char, find w ['%', c] = none → expandToken c text w = w := by
  intro w
  induction w with
  | nil => intro _; rfl
  | cons x w ih =>
    intro h
    obtain ⟨hp, hf⟩ := find_cons_none c x w h
    cases w with
    | nil => rfl
    | cons y rest =>
      have hne : ¬ (x = '%' ∧ y = c) := by
        intro hxy
        have := (isPrefixOf_token c x y rest).mpr hxy
        rw [this] at hp
        exact absurd hp (by decide)
      rw [expandToken, if_neg hne, ih hf]

/-- Up to the first occurrence that `find` reports the text is copied, and a
replacement text put there is copied too. -/
theorem expandToken_of_find (c : Char) (text : List Char) (hc : c ≠ '%') (h1 : text ≠ [])
    (h2 : text.head? ≠ some c) (h3 : '%' ∉ text) :
    ∀ (w : List Char) (i : Nat), find w ['%', c] = some i → ∀ z : List Char,
      expandToken c text (w.take i ++ (text ++ z))
          = w.take i ++ (text ++ expandToken c text z) ∧
      expandToken c text (w.take i ++ '%' :: c :: z)
          = w.take i ++ (text ++ expandToken c text z) := by
  intro w
  induction w with
  | nil => intro i h; rw [find_nil] at h; cases h
  | cons x w ih =>
    intro i h z
    rcases find_cons_some c x w i h with ⟨-, hi⟩ | ⟨hp, k, hk, hi⟩
    · subst hi
      simp only [List.take_zero, List.nil_append]
      exact ⟨expandToken_append_left c text text z h3, expandToken_token c text z⟩
    · subst hi
      obtain ⟨ih1, ih2⟩ := ih k hk z
      simp only [List.take_succ_cons, List.cons_append]
      by_cases hx : x = '%'
      · subst hx
        have hhead : ∀ X : List Char, X.head? ≠ some c → (w.take k ++ X).head? ≠ some c := by
          intro X hX
          cases k with
          | zero => simpa using hX
          | succ j =>
            cases w with
            | nil => rw [find_nil] at hk; cases hk
            | cons y rest =>
              simp only [List.take_succ_cons, List.cons_append, List.head?_cons]
              intro e
              injection e with e
              have := (isPrefixOf_token c '%' y rest).mpr ⟨rfl, e⟩
              rw [this] at hp
              exact absurd hp (by decide)
        have hX1 : (text ++ z).head? ≠ some c := by
          cases text with
          | nil => exact absurd rfl h1
          | cons a t => simpa using h2
        have hX2 : ('%' :: c :: z).head? ≠ some c := by
          simp only [List.head?_cons]
          intro e
          injection e with e
          exact hc e.symm
        rw [expandToken_pct c text _ (hhead _ hX1), expandToken_pct c text _ (hhead _ hX2),
          ih1, ih2]
        exact ⟨rfl, rfl⟩
      · rw [expandToken_cons_of_ne c text x _ hx, expandToken_cons_of_ne c text x _ hx,
          ih1, ih2]
        exact ⟨rfl, rfl⟩

/-- A replacement loop whose text is not empty, has no percent sign and does
not begin with the character of the token computes the single pass. -/
theorem replaceLoop_eq_expandToken (c : Char) (text : List Char) (hc : c ≠ '%')
    (h1 : text ≠ []) (h2 : text.head? ≠ some c) (h3 : '%' ∉ text) :
    ∀ (n : Nat) (w : List Char), List.count '%' w ≤ n →
      ∀ fuel, n < fuel → replaceLoop ['%', c] text fuel w = .ok (expandToken c text w) := by
  intro n
  induction n with
  | zero =>
    intro w hn fuel hf
    obtain ⟨f, rfl⟩ : ∃ f, fuel = f + 1 := ⟨fuel - 1, by omega⟩
    unfold replaceLoop
    cases hfind : find w ['%', c] with
    | none => simp only; rw [expandToken_of_find_none c text w hfind]
    | some i =>
      have := count_replace w text c i h3 hc hfind
      omega
  | succ n ih =>
    intro w hn fuel hf
    obtain ⟨f, rfl⟩ : ∃ f, fuel = f + 1 := ⟨fuel - 1, by omega⟩
    unfold replaceLoop
    cases hfind : find w ['%', c] with
    | none => simp only; rw [expandToken_of_find_none c text w hfind]
    | some i =>
      have hcount := count_replace w text c i h3 hc hfind
      simp only
      rw [ih (replace w i 2 text) (by omega) f (by omega)]
      have hw := find_some ['%', c] w i hfind
      have key := expandToken_of_find c text hc h1 h2 h3 w i hfind (w.drop (i + 2))
      unfold replace
      rw [List.append_assoc, key.1]
      conv_rhs => rw [hw]
      rw [List.append_assoc]
      exact congrArg _ key.2.symm
theorem head_append_of_ne_nil (text z : List Char) (h : text ≠ []) :
    (text ++ z).head? = text.head? := by
  cases text with
  | nil => exact absurd rfl h
  | cons a t => rfl

/-- The three replacement passes, one after the other, are one pass that
replaces the three tokens. -/
theorem expandToken_three (pf : Platform) (hD : stampOk pf.todaysDate)
    (ht : stampOk pf.percentt) (hP : stampOk pf.percentP) :
    ∀ (n : Nat) (w : List Char), w.length ≤ n →
      expandToken 'P' pf.percentP (expandToken 't' pf.percentt
        (expandToken 'D' pf.todaysDate w)) = expandTokens pf w := by
  obtain ⟨d1, d2, -, d4, d5⟩ := hD
  obtain ⟨t1, t2, -, -, t5⟩ := ht
  obtain ⟨-, -, -, -, -⟩ := hP
  intro n
  induction n with
  | zero =>
    intro w hw
    have : w = [] := List.length_eq_zero.mp (by omega)
    subst this
    rfl
  | succ n ih =>
    intro w hw
    cases w with
    | nil => rfl
    | cons x r =>
      cases r with
      | nil => rfl
      | cons y rest =>
        have hrest : rest.length ≤ n := by simp at hw; omega
        have hyrest : (y :: rest).length ≤ n := by simp at hw ⊢; omega
        by_cases hx : x = '%'
        · subst hx
          by_cases hyD : y = 'D'
          · subst hyD
            rw [expandToken_token, expandToken_append_left _ _ _ _ d2,
              expandToken_append_left _ _ _ _ d2, ih rest hrest]
            conv_rhs => rw [expandTokens]
            simp
          · by_cases hyt : y = 't'
            · subst hyt
              rw [expandToken_pct 'D' _ _ (by simp),
                expandToken_cons_of_ne 'D' _ 't' _ (by decide), expandToken_token,
                expandToken_append_left _ _ _ _ t2, ih rest hrest]
              conv_rhs => rw [expandTokens]
              simp
            · by_cases hyP : y = 'P'
              · subst hyP
                rw [expandToken_pct 'D' _ _ (by simp),
                  expandToken_cons_of_ne 'D' _ 'P' _ (by decide),
                  expandToken_pct 't' _ _ (by simp),
                  expandToken_cons_of_ne 't' _ 'P' _ (by decide), expandToken_token,
                  ih rest hrest]
                conv_rhs => rw [expandTokens]
                simp
              · have hy1 : (y :: rest).head? ≠ some 'D' := by simpa using hyD
                have hy2 : (y :: rest).head? ≠ some 't' := by simpa using hyt
                have hy3 : (y :: rest).head? ≠ some 'P' := by simpa using hyP
                have g1 := head_expandToken 'D' 't' pf.todaysDate _ hy2 d1 d4
                have g2 := head_expandToken 'D' 'P' pf.todaysDate _ hy3 d1 d5
                have g3 := head_expandToken 't' 'P' pf.percentt _ g2 t1 t5
                rw [expandToken_pct 'D' _ _ hy1, expandToken_pct 't' _ _ g1,
                  expandToken_pct 'P' _ _ g3, ih (y :: rest) hyrest]
                conv_rhs => rw [expandTokens]
                simp [hyD, hyt, hyP]
        · rw [expandToken_cons_of_ne _ _ _ _ hx, expandToken_cons_of_ne _ _ _ _ hx,
            expandToken_cons_of_ne _ _ _ _ hx, ih (y :: rest) hyrest]
          conv_rhs => rw [expandTokens]
          simp [hx]
/-! ## No token is left -/

theorem hasToken_cons_of_ne (d x : Char) (z : List Char) (hx : x ≠ '%') :
    hasToken d (x :: z) = hasToken d z := by
  cases z with
  | nil => rfl
  | cons y rest =>
    rw [hasToken]
    simp [hx]

theorem hasToken_append_left (d : Char) (u v : List Char) (hu : '%' ∉ u) :
    hasToken d (u ++ v) = hasToken d v := by
  induction u with
  | nil => rfl
  | cons a u ih =>
    have ha : a ≠ '%' := fun e => hu (e ▸ List.mem_cons_self _ _)
    have hu2 : '%' ∉ u := fun h => hu (List.mem_cons_of_mem _ h)
    rw [List.cons_append, hasToken_cons_of_ne _ _ _ ha, ih hu2]

theorem hasToken_pct (d : Char) (z : List Char) (hz : z.head? ≠ some d) :
    hasToken d ('%' :: z) = hasToken d z := by
  cases z with
  | nil => rfl
  | cons y rest =>
    have hy : y ≠ d := by
      intro e; apply hz; simp [e]
    rw [hasToken]
    simp [hy]

theorem head_expandTokens (pf : Platform) (d : Char) (z : List Char)
    (hz : z.head? ≠ some d)
    (h1 : pf.todaysDate ≠ []) (h2 : pf.todaysDate.head? ≠ some d)
    (h3 : pf.percentt ≠ []) (h4 : pf.percentt.head? ≠ some d)
    (h5 : pf.percentP ≠ []) (h6 : pf.percentP.head? ≠ some d) :
    (expandTokens pf z).head? ≠ some d := by
  cases z with
  | nil => exact hz
  | cons x r =>
    cases r with
    | nil => exact hz
    | cons y rest =>
      rw [expandTokens]
      split_ifs
      · rw [head_append_of_ne_nil _ _ h1]; exact h2
      · rw [head_append_of_ne_nil _ _ h3]; exact h4
      · rw [head_append_of_ne_nil _ _ h5]; exact h6
      · simpa using hz

/-- The single pass leaves none of the three tokens. -/
theorem hasToken_expandTokens (pf : Platform) (d : Char) (hd : d = 'D' ∨ d = 't' ∨ d = 'P')
    (hD : stampOk pf.todaysDate) (ht : stampOk pf.percentt) (hP : stampOk pf.percentP) :
    ∀ (n : Nat) (w : List Char), w.length ≤ n → hasToken d (expandTokens pf w) = false := by
  have a2 : pf.todaysDate.head? ≠ some d := by
    rcases hd with h | h | h <;> subst h
    · exact hD.2.2.1
    · exact hD.2.2.2.1
    · exact hD.2.2.2.2
  have a4 : pf.percentt.head? ≠ some d := by
    rcases hd with h | h | h <;> subst h
    · exact ht.2.2.1
    · exact ht.2.2.2.1
    · exact ht.2.2.2.2
  have a6 : pf.percentP.head? ≠ some d := by
    rcases hd with h | h | h <;> subst h
    · exact hP.2.2.1
    · exact hP.2.2.2.1
    · exact hP.2.2.2.2
  intro n
  induction n with
  | zero =>
    intro w hw
    have : w = [] := List.length_eq_zero.mp (by omega)
    subst this
    rfl
  | succ n ih =>
    intro w hw
    cases w with
    | nil => rfl
    | cons x r =>
      cases r with
      | nil => rfl
      | cons y rest =>
        have hrest : rest.length ≤ n := by simp at hw; omega
        have hyrest : (y :: rest).length ≤ n := by simp at hw ⊢; omega
        rw [expandTokens]
        split_ifs with c1 c2 c3
        · rw [hasToken_append_left _ _ _ hD.2.1]; exact ih rest hrest
        · rw [hasToken_append_left _ _ _ ht.2.1]; exact ih rest hrest
        · rw [hasToken_append_left _ _ _ hP.2.1]; exact ih rest hrest
        · by_cases hx : x = '%'
          · subst hx
            have hy : (y :: rest).head? ≠ some d := by
              simp only [List.head?_cons]
              intro e
              injection e with e
              rcases hd with h | h | h <;> subst h
              · exact c1 ⟨rfl, e⟩
              · exact c2 ⟨rfl, e⟩
              · exact c3 ⟨rfl, e⟩
            rw [hasToken_pct d _ (head_expandTokens pf d _ hy hD.1 a2 ht.1 a4 hP.1 a6)]
            exact ih _ hyrest
          · rw [hasToken_cons_of_ne _ _ _ hx]
            exact ih _ hyrest

/-- `find` reports no occurrence where the token does not occur. -/
theorem find_none_of_hasToken (d : Char) :
    ∀ w : List Char, hasToken d w = false → find w ['%', d] = none := by
  intro w
  induction w with
  | nil => intro _; exact find_nil d
  | cons x w ih =>
    intro h
    cases w with
    | nil =>
      unfold find
      rw [if_neg (by simp [List.isPrefixOf]), find_nil]
      rfl
    | cons y rest =>
      rw [hasToken] at h
      simp only [Bool.or_eq_false_iff, Bool.and_eq_false_imp, beq_iff_eq] at h
      unfold find
      have hp : ¬ List.isPrefixOf ['%', d] (x :: y :: rest) = true := by
        rw [isPrefixOf_token]
        intro hxy
        have := h.1 hxy.1
        simp [hxy.2] at this
      rw [if_neg hp, ih h.2]
      rfl

theorem hasToken_dropLast (d : Char) :
    ∀ w : List Char, hasToken d w = false → hasToken d w.dropLast = false := by
  intro w
  induction w with
  | nil => intro _; rfl
  | cons x w ih =>
    intro h
    cases w with
    | nil => rfl
    | cons y rest =>
      cases rest with
      | nil => rfl
      | cons z r =>
        rw [hasToken] at h
        simp only [Bool.or_eq_false_iff] at h
        have := ih h.2
        simp only [List.dropLast_cons₂] at this ⊢
        rw [hasToken]
        simp only [Bool.or_eq_false_iff]
        exact ⟨h.1, this⟩

theorem hasToken_stripNewline (d : Char) (w : List Char) (h : hasToken d w = false) :
    hasToken d (stripNewline w) = false := by
  unfold stripNewline
  split_ifs
  · exact hasToken_dropLast d w h
  · exact h
/-! ## The queued line -/

theorem stripNewline_of_last (w : List Char) (last : Char)
    (h : string_at w (w.length - 1) = some last) :
    (if last = '\n' then replace w (w.length - 1) 1 [] else w) = stripNewline w := by
  unfold string_at at h
  have hlen : w.length - 1 < w.length := (List.get?_eq_some.mp h).1
  have hlast : w.getLast? = some last := by
    rw [List.getLast?_eq_getElem?, ← List.get?_eq_getElem?]
    exact h
  unfold stripNewline replace
  rw [hlast]
  by_cases hn : last = '\n'
  · rw [if_pos hn, if_pos (by rw [hn])]
    rw [List.append_nil, show w.length - 1 + 1 = w.length by omega, List.drop_length,
      List.append_nil, List.dropLast_eq_take]
  · rw [if_neg hn, if_neg (by intro e; injection e with e; exact hn e)]

/-- With platform texts that are not empty, hold no percent sign and do not
begin with `D`, `t` or `P`, the line that `formatLine` renders is the prefix
and the body with every token replaced in one pass, without its final
newline. -/
theorem formatLine_eq_expandTokens (pf : Platform) (s : State) (ace_p : Nat)
    (format : List Char) (args : List VArg) (body : List Char)
    (hD : stampOk pf.todaysDate) (ht : stampOk pf.percentt) (hP : stampOk pf.percentP)
    (hscan : scan pf format args = .ok body) :
    ∀ fuel, List.count '%' (GetFormatPrefix s ace_p ++ body) < fuel →
      formatLine fuel pf s ace_p format args
        = .ok (stripNewline (expandTokens pf (GetFormatPrefix s ace_p ++ body))) := by
  intro fuel hf
  have c1 := count_expandToken 'D' pf.todaysDate hD.2.1 _ (GetFormatPrefix s ace_p ++ body)
    (Nat.le_refl _)
  have c2 := count_expandToken 't' pf.percentt ht.2.1 _
    (expandToken 'D' pf.todaysDate (GetFormatPrefix s ace_p ++ body)) (Nat.le_refl _)
  have r1 := replaceLoop_eq_expandToken 'D' pf.todaysDate (by decide) hD.1 hD.2.2.1 hD.2.1
    _ (GetFormatPrefix s ace_p ++ body) (Nat.le_refl _) fuel hf
  have r2 := replaceLoop_eq_expandToken 't' pf.percentt (by decide) ht.1 ht.2.2.2.1 ht.2.1
    _ (expandToken 'D' pf.todaysDate (GetFormatPrefix s ace_p ++ body)) (Nat.le_refl _) fuel
    (by omega)
  have r3 := replaceLoop_eq_expandToken 'P' pf.percentP (by decide) hP.1 hP.2.2.2.2 hP.2.1
    _ (expandToken 't' pf.percentt
        (expandToken 'D' pf.todaysDate (GetFormatPrefix s ace_p ++ body))) (Nat.le_refl _) fuel
    (by omega)
  rw [expandToken_three pf hD ht hP _ _ (Nat.le_refl _)] at r3
  obtain ⟨line, -, hline⟩ := formatLine_ok pf s ace_p format args body hD.2.1 ht.2.1 hP.2.1
    hscan
  have hl := hline fuel hf
  unfold formatLine at hl ⊢
  simp only [hscan, r1, r2, r3] at hl ⊢
  cases hat : string_at (expandTokens pf (GetFormatPrefix s ace_p ++ body))
      ((expandTokens pf (GetFormatPrefix s ace_p ++ body)).length - 1) with
  | none => rw [hat] at hl; cases hl
  | some last =>
    simp only
    rw [← stripNewline_of_last _ last hat]
    split_ifs <;> rfl
theorem expandTokens_cons_of_ne (pf : Platform) (x : Char) (z : List Char) (hx : x ≠ '%') :
    expandTokens pf (x :: z) = x :: expandTokens pf z := by
  cases z with
  | nil => rfl
  | cons y rest =>
    rw [expandTokens]
    simp [hx]

theorem expandTokens_D (pf : Platform) (z : List Char) :
    expandTokens pf ('%' :: 'D' :: z) = pf.todaysDate ++ expandTokens pf z := by
  rw [expandTokens]
  simp

theorem expandTokens_t (pf : Platform) (z : List Char) :
    expandTokens pf ('%' :: 't' :: z) = pf.percentt ++ expandTokens pf z := by
  rw [expandTokens]
  simp

theorem expandTokens_P (pf : Platform) (z : List Char) :
    expandTokens pf ('%' :: 'P' :: z) = pf.percentP ++ expandTokens pf z := by
  rw [expandTokens]
  simp

theorem expandTokens_of_no_percent (pf : Platform) (w : List Char) (h : '%' ∉ w) :
    expandTokens pf w = w := by
  induction w with
  | nil => rfl
  | cons a w ih =>
    have ha : a ≠ '%' := fun e => h (e ▸ List.mem_cons_self _ _)
    rw [expandTokens_cons_of_ne pf a w ha, ih (fun hm => h (List.mem_cons_of_mem _ hm))]

/-- The prefix ends with a blank, so the pass over the prefix and the body is
the pass over the prefix followed by the pass over the body. -/
theorem expandTokens_prefix (pf : Platform) (s : State) (ace_p : Nat) (body : List Char) :
    expandTokens pf (GetFormatPrefix s ace_p ++ body)
      = expandTokens pf (GetFormatPrefix s ace_p) ++ expandTokens pf body := by
  have hdbg : ∀ z : List Char, expandTokens pf ("%D p:%P t:%t [dbg] ".toList ++ z)
      = pf.todaysDate ++ (" p:".toList ++ (pf.percentP ++ (" t:".toList
          ++ (pf.percentt ++ (" [dbg] ".toList ++ expandTokens pf z))))) := by
    intro z
    simp only [String.toList, List.cons_append, List.nil_append, expandTokens_D,
      expandTokens_P, expandTokens_t]
    simp only [expandTokens_cons_of_ne pf ' ' _ (by decide),
      expandTokens_cons_of_ne pf 'p' _ (by decide), expandTokens_cons_of_ne pf ':' _ (by decide),
      expandTokens_cons_of_ne pf 't' _ (by decide), expandTokens_cons_of_ne pf '[' _ (by decide),
      expandTokens_cons_of_ne pf 'd' _ (by decide), expandTokens_cons_of_ne pf 'b' _ (by decide),
      expandTokens_cons_of_ne pf 'g' _ (by decide), expandTokens_cons_of_ne pf ']' _ (by decide),
      expandTokens_P, expandTokens_t]
  have hlog : ∀ z : List Char, expandTokens pf ("%D p:%P t:%t [LOG] ".toList ++ z)
      = pf.todaysDate ++ (" p:".toList ++ (pf.percentP ++ (" t:".toList
          ++ (pf.percentt ++ (" [LOG] ".toList ++ expandTokens pf z))))) := by
    intro z
    simp only [String.toList, List.cons_append, List.nil_append, expandTokens_D,
      expandTokens_P, expandTokens_t]
    simp only [expandTokens_cons_of_ne pf ' ' _ (by decide),
      expandTokens_cons_of_ne pf 'p' _ (by decide), expandTokens_cons_of_ne pf ':' _ (by decide),
      expandTokens_cons_of_ne pf 't' _ (by decide), expandTokens_cons_of_ne pf '[' _ (by decide),
      expandTokens_cons_of_ne pf 'L' _ (by decide), expandTokens_cons_of_ne pf 'O' _ (by decide),
      expandTokens_cons_of_ne pf 'G' _ (by decide), expandTokens_cons_of_ne pf ']' _ (by decide),
      expandTokens_P, expandTokens_t]
  have hd0 := hdbg []
  have hl0 := hlog []
  rw [List.append_nil] at hd0 hl0
  unfold GetFormatPrefix CORE_DEBUG_PREFIX_T CORE_LOG_PREFIX_T CORE_DEBUG_PREFIX CORE_LOG_PREFIX
  split_ifs
  · rw [hdbg, hd0]; simp [List.append_assoc]; rfl
  · rw [hlog, hl0]; simp [List.append_assoc]; rfl
  · rw [hdbg, hd0]; simp [List.append_assoc]; rfl
  · rw [hlog, hl0]; simp [List.append_assoc]; rfl
/-- `%s` in the loop: the text of the string argument goes into the body. -/
theorem scanLoop_s_step (pf : Platform) (format : List Char) (fuel i : Nat)
    (text : List Char) (rest : List VArg) (w : List Char)
    (h0 : strAt format i = '%') (h1 : strAt format (i + 1) = 's')
    (hnul : NUL ∉ text) (hlen : text.length < MaxBuf) :
    scanLoop pf format (strlen format) (fuel + 1) i (.str text :: rest) w
      = scanLoop pf format (strlen format) fuel (i + 2) rest (w ++ text) := by
  conv_lhs => unfold scanLoop
  rw [h0, if_neg (by decide), if_pos rfl, directive_s _ _ _ _ _ h1]
  simp only [va_arg_str]
  rw [h1, if_neg (by decide), snprintf_of_short MaxBuf text hnul hlen]

/-- `%c` in the loop: the character argument goes into the body. -/
theorem scanLoop_c_step (pf : Platform) (format : List Char) (fuel i : Nat)
    (c : Char) (rest : List VArg) (w : List Char)
    (h0 : strAt format i = '%') (h1 : strAt format (i + 1) = 'c')
    (hnul : c ≠ NUL) (hbyte : c.toNat < 256) :
    scanLoop pf format (strlen format) (fuel + 1) i (.chr c :: rest) w
      = scanLoop pf format (strlen format) fuel (i + 2) rest (w ++ [c]) := by
  conv_lhs => unfold scanLoop
  rw [h0, if_neg (by decide), if_pos rfl, directive_c _ _ _ _ _ h1]
  simp only [va_arg_int]
  rw [h1, if_neg (by decide), toChar_toNat c hbyte,
    snprintf_of_short MaxBuf [c] (by simpa using hnul.symm) (by simp [MaxBuf])]

/-! ## C19: the three replacement loops -/

/-- C19: with a timestamp, a thread id and a process id that are not empty,
hold no percent sign and do not begin with `D`, `t` or `P`, the three
replacement loops end on every text (given more fuel than the text has percent
signs) and compute the text with every `%D`, `%t` and `%P` replaced by its
value, in which `find` finds none of the three tokens; so for every template
and argument list the arguments match, the line `Log` queues is the prefix and
the body with every token replaced, has no token left, and is queued whatever
fuel above the bound the loops get. -/
theorem C19_tokens_replaced (pf : Platform) (s : State) (p : priority) (format : List Char)
    (args : List VArg) (body : List Char)
    (hD : stampOk pf.todaysDate) (ht : stampOk pf.percentt) (hP : stampOk pf.percentP)
    (hscan : scan pf format args = .ok body)
    (hfile : s.plogFile_g ≠ none) (hgate : MatchACEPriority p.toNat &&& s.level_ ≠ 0) :
    (∀ (w0 : List Char) (fuel : Nat), List.count '%' w0 < fuel →
      replaceLoop ['%', 'D'] pf.todaysDate fuel w0
        = .ok (expandToken 'D' pf.todaysDate w0) ∧
      replaceLoop ['%', 't'] pf.percentt fuel (expandToken 'D' pf.todaysDate w0)
        = .ok (expandToken 't' pf.percentt (expandToken 'D' pf.todaysDate w0)) ∧
      replaceLoop ['%', 'P'] pf.percentP fuel
          (expandToken 't' pf.percentt (expandToken 'D' pf.todaysDate w0))
        = .ok (expandTokens pf w0) ∧
      find (expandTokens pf w0) ['%', 'D'] = none ∧
      find (expandTokens pf w0) ['%', 't'] = none ∧
      find (expandTokens pf w0) ['%', 'P'] = none) ∧
    ∃ line, line = stripNewline
        (expandTokens pf (GetFormatPrefix s (MatchACEPriority p.toNat) ++ body)) ∧
      find line ['%', 'D'] = none ∧ find line ['%', 't'] = none ∧
      find line ['%', 'P'] = none ∧
      ∀ fuel, List.count '%' (GetFormatPrefix s (MatchACEPriority p.toNat) ++ body) < fuel →
        formatLine fuel pf s (MatchACEPriority p.toNat) format args = .ok line ∧
        Log fuel pf s p format args = .ok (appendLine s (String.mk line)) := by
  have hno : ∀ (d : Char), d = 'D' ∨ d = 't' ∨ d = 'P' → ∀ w : List Char,
      hasToken d (expandTokens pf w) = false :=
    fun d hd w => hasToken_expandTokens pf d hd hD ht hP _ w (Nat.le_refl _)
  refine ⟨?_, ?_⟩
  · intro w0 fuel hf
    have c1 := count_expandToken 'D' pf.todaysDate hD.2.1 _ w0 (Nat.le_refl _)
    have c2 := count_expandToken 't' pf.percentt ht.2.1 _
      (expandToken 'D' pf.todaysDate w0) (Nat.le_refl _)
    have r1 := replaceLoop_eq_expandToken 'D' pf.todaysDate (by decide) hD.1 hD.2.2.1 hD.2.1
      _ w0 (Nat.le_refl _) fuel hf
    have r2 := replaceLoop_eq_expandToken 't' pf.percentt (by decide) ht.1 ht.2.2.2.1 ht.2.1
      _ (expandToken 'D' pf.todaysDate w0) (Nat.le_refl _) fuel (by omega)
    have r3 := replaceLoop_eq_expandToken 'P' pf.percentP (by decide) hP.1 hP.2.2.2.2 hP.2.1
      _ (expandToken 't' pf.percentt (expandToken 'D' pf.todaysDate w0)) (Nat.le_refl _) fuel
      (by omega)
    rw [expandToken_three pf hD ht hP _ _ (Nat.le_refl _)] at r3
    exact ⟨r1, r2, r3,
      find_none_of_hasToken 'D' _ (hno 'D' (Or.inl rfl) w0),
      find_none_of_hasToken 't' _ (hno 't' (Or.inr (Or.inl rfl)) w0),
      find_none_of_hasToken 'P' _ (hno 'P' (Or.inr (Or.inr rfl)) w0)⟩
  · refine ⟨_, rfl,
      find_none_of_hasToken 'D' _ (hasToken_stripNewline 'D' _ (hno 'D' (Or.inl rfl) _)),
      find_none_of_hasToken 't' _
        (hasToken_stripNewline 't' _ (hno 't' (Or.inr (Or.inl rfl)) _)),
      find_none_of_hasToken 'P' _
        (hasToken_stripNewline 'P' _ (hno 'P' (Or.inr (Or.inr rfl)) _)), ?_⟩
    intro fuel hf
    have hfl := formatLine_eq_expandTokens pf s (MatchACEPriority p.toNat) format args body
      hD ht hP hscan fuel hf
    exact ⟨hfl, Log_appends fuel pf s p format args _ hfile hgate hfl⟩

theorem C19_tokens_replaced_witness :
    (stampOk examplePlatform.todaysDate ∧ stampOk examplePlatform.percentt ∧
      stampOk examplePlatform.percentP ∧
      scan examplePlatform "%s: %D%t%%P".toList [.str "at 50%P".toList]
        = .ok "at 50%P: %D%tP".toList) ∧
    ∃ line, line = stripNewline
        (expandTokens examplePlatform
          (GetFormatPrefix openState (MatchACEPriority priority.info.toNat)
            ++ "at 50%P: %D%tP".toList)) ∧
      find line ['%', 'D'] = none ∧ find line ['%', 't'] = none ∧
      find line ['%', 'P'] = none ∧
      ∀ fuel, List.count '%' (GetFormatPrefix openState (MatchACEPriority priority.info.toNat)
          ++ "at 50%P: %D%tP".toList) < fuel →
        formatLine fuel examplePlatform openState (MatchACEPriority priority.info.toNat)
          "%s: %D%t%%P".toList [.str "at 50%P".toList] = .ok line ∧
        Log fuel examplePlatform openState .info "%s: %D%t%%P".toList [.str "at 50%P".toList]
          = .ok (appendLine openState (String.mk line)) :=
  ⟨⟨⟨by decide, by decide, by decide, by decide, by decide⟩,
     ⟨by decide, by decide, by decide, by decide, by decide⟩,
     ⟨by decide, by decide, by decide, by decide, by decide⟩, by decide⟩,
   (C19_tokens_replaced examplePlatform openState .info "%s: %D%t%%P".toList
      [.str "at 50%P".toList] "at 50%P: %D%tP".toList
      ⟨by decide, by decide, by decide, by decide, by decide⟩
      ⟨by decide, by decide, by decide, by decide, by decide⟩
      ⟨by decide, by decide, by decide, by decide, by decide⟩
      (by decide) (by decide) (by decide)).2⟩
/-! ## C20: tokens in argument text -/

/-- C20 (as stated, refuted): a string argument whose text is `%P` is not
emitted verbatim: in the queued line the process id stands in its place. -/
theorem C20_counterexample :
    (Log 8 examplePlatform openState .info "pump %s".toList [.str "%P".toList]).map
        (fun r => r.stringToWrite_g)
      = .ok "2009-11-11T10:20:30.123456 p:4242 t:140735 [LOG] pump 4242" ∧
    (Log 8 examplePlatform openState .info "%c%s".toList [.chr '%', .str "Done".toList]).map
        (fun r => r.stringToWrite_g)
      = .ok ("2009-11-11T10:20:30.123456 p:4242 t:140735 [LOG] "
          ++ "2009-11-11T10:20:30.123456one") := by
  decide

/-- C20 (amended): the replacement of the logger tokens runs over the whole
rendered text, argument text included.  The scan copies the text of a string
argument (no terminator inside, shorter than the buffer) and a character
argument (a byte other than the terminator) into the body unchanged; the
queued line is the rendered prefix followed by the body with every `%D`, `%t`
and `%P` in it replaced, whether it comes from the template or from an
argument, without the final newline; so a body without percent sign, and with
it every argument text in it, is queued verbatim, and for the template `%s`
the queued line is the rendered prefix followed by the argument text with its
tokens replaced. -/
theorem C20_tokens_in_arguments (pf : Platform) (s : State) (ace_p : Nat) (format : List Char)
    (args : List VArg) (body : List Char)
    (hD : stampOk pf.todaysDate) (ht : stampOk pf.percentt) (hP : stampOk pf.percentP)
    (hscan : scan pf format args = .ok body) :
    (∀ (fuel i : Nat) (text : List Char) (rest : List VArg) (w : List Char),
      strAt format i = '%' → strAt format (i + 1) = 's' → NUL ∉ text →
      text.length < MaxBuf →
      scanLoop pf format (strlen format) (fuel + 1) i (.str text :: rest) w
        = scanLoop pf format (strlen format) fuel (i + 2) rest (w ++ text)) ∧
    (∀ (fuel i : Nat) (c : Char) (rest : List VArg) (w : List Char),
      strAt format i = '%' → strAt format (i + 1) = 'c' → c ≠ NUL → c.toNat < 256 →
      scanLoop pf format (strlen format) (fuel + 1) i (.chr c :: rest) w
        = scanLoop pf format (strlen format) fuel (i + 2) rest (w ++ [c])) ∧
    (∀ fuel, List.count '%' (GetFormatPrefix s ace_p ++ body) < fuel →
      formatLine fuel pf s ace_p format args
        = .ok (stripNewline
            (expandTokens pf (GetFormatPrefix s ace_p) ++ expandTokens pf body))) ∧
    ('%' ∉ body → ∀ fuel, List.count '%' (GetFormatPrefix s ace_p ++ body) < fuel →
      formatLine fuel pf s ace_p format args
        = .ok (stripNewline (expandTokens pf (GetFormatPrefix s ace_p) ++ body))) ∧
    (∀ text : List Char, NUL ∉ text → text.length < MaxBuf →
      ∀ fuel, List.count '%' (GetFormatPrefix s ace_p ++ text) < fuel →
        formatLine fuel pf s ace_p ['%', 's'] [.str text]
          = .ok (stripNewline
              (expandTokens pf (GetFormatPrefix s ace_p) ++ expandTokens pf text))) := by
  have hline : ∀ fuel, List.count '%' (GetFormatPrefix s ace_p ++ body) < fuel →
      formatLine fuel pf s ace_p format args
        = .ok (stripNewline
            (expandTokens pf (GetFormatPrefix s ace_p) ++ expandTokens pf body)) := by
    intro fuel hf
    rw [formatLine_eq_expandTokens pf s ace_p format args body hD ht hP hscan fuel hf,
      expandTokens_prefix]
  refine ⟨?_, ?_, hline, ?_, ?_⟩
  · intro fuel i text rest w h0 h1 hnul hlen
    exact scanLoop_s_step pf format fuel i text rest w h0 h1 hnul hlen
  · intro fuel i c rest w h0 h1 hnul hbyte
    exact scanLoop_c_step pf format fuel i c rest w h0 h1 hnul hbyte
  · intro hbody fuel hf
    rw [hline fuel hf, expandTokens_of_no_percent pf body hbody]
  · intro text hnul hlen fuel hf
    have hs : scan pf ['%', 's'] [.str text] = .ok text := by
      rw [scan_eq_scanSpec _ _ _ (by intro c hc; simp at hc),
        show c_str ['%', 's'] = ['%', 's'] from by decide, scanSpec_s]
      simp [nextArg, strText, scanSpec_nil, Except.map,
        snprintf_of_short MaxBuf text hnul hlen]
    rw [formatLine_eq_expandTokens pf s ace_p ['%', 's'] [.str text] text hD ht hP hs fuel hf,
      expandTokens_prefix]

theorem C20_tokens_in_arguments_witness :
    (stampOk examplePlatform.todaysDate ∧ stampOk examplePlatform.percentt ∧
      stampOk examplePlatform.percentP ∧
      scan examplePlatform "pump %s".toList [.str "%P".toList] = .ok "pump %P".toList) ∧
    (∀ fuel, List.count '%' (GetFormatPrefix openState FL_INFO ++ "pump %P".toList) < fuel →
      formatLine fuel examplePlatform openState FL_INFO "pump %s".toList [.str "%P".toList]
        = .ok (stripNewline
            (expandTokens examplePlatform (GetFormatPrefix openState FL_INFO)
              ++ expandTokens examplePlatform "pump %P".toList))) ∧
    expandTokens examplePlatform "pump %P".toList = "pump 4242".toList :=
  ⟨⟨⟨by decide, by decide, by decide, by decide, by decide⟩,
     ⟨by decide, by decide, by decide, by decide, by decide⟩,
     ⟨by decide, by decide, by decide, by decide, by decide⟩, by decide⟩,
   (C20_tokens_in_arguments examplePlatform openState FL_INFO "pump %s".toList
      [.str "%P".toList] "pump %P".toList
      ⟨by decide, by decide, by decide, by decide, by decide⟩
      ⟨by decide, by decide, by decide, by decide, by decide⟩
      ⟨by decide, by decide, by decide, by decide, by decide⟩
      (by decide)).2.2.1,
   by decide⟩
/-! ## C21: the final newline -/

theorem replaceLoop_mem (text : List Char) (c x : Char) (hx1 : x ≠ '%') (hx2 : x ≠ c) :
    ∀ (fuel : Nat) (w w2 : List Char), replaceLoop ['%', c] text fuel w = .ok w2 →
      x ∈ w → x ∈ w2 := by
  intro fuel
  induction fuel with
  | zero =>
    intro w w2 h
    simp [replaceLoop] at h
  | succ n ih =>
    intro w w2 h hx
    unfold replaceLoop at h
    cases hf : find w ['%', c] with
    | none =>
      rw [hf] at h
      simp only [Except.ok.injEq] at h
      rw [← h]
      exact hx
    | some i =>
      rw [hf] at h
      exact ih _ _ h (mem_replace w text c x i hx1 hx2 hf hx)

theorem rendered_last (fuel : Nat) (pf : Platform) (s : State) (ace_p : Nat)
    (body w1 w2 w3 : List Char)
    (h1 : replaceLoop ['%', 'D'] pf.todaysDate fuel (GetFormatPrefix s ace_p ++ body) = .ok w1)
    (h2 : replaceLoop ['%', 't'] pf.percentt fuel w1 = .ok w2)
    (h3 : replaceLoop ['%', 'P'] pf.percentP fuel w2 = .ok w3) :
    ' ' ∈ w3 ∧ ∃ last, string_at w3 (w3.length - 1) = some last := by
  have hsp : ' ' ∈ GetFormatPrefix s ace_p ++ body :=
    List.mem_append_left _ (space_mem_GetFormatPrefix s ace_p)
  have m1 := replaceLoop_mem pf.todaysDate 'D' ' ' (by decide) (by decide) _ _ _ h1 hsp
  have m2 := replaceLoop_mem pf.percentt 't' ' ' (by decide) (by decide) _ _ _ h2 m1
  have m3 := replaceLoop_mem pf.percentP 'P' ' ' (by decide) (by decide) _ _ _ h3 m2
  refine ⟨m3, ?_⟩
  have hlen : 0 < w3.length := List.length_pos_of_mem m3
  cases hat : string_at w3 (w3.length - 1) with
  | none =>
    exfalso
    unfold string_at at hat
    rw [List.get?_eq_none] at hat
    omega
  | some last => exact ⟨last, rfl⟩

theorem formatLine_of_rendered (fuel : Nat) (pf : Platform) (s : State) (ace_p : Nat)
    (format : List Char) (args : List VArg) (body w1 w2 w3 : List Char)
    (hscan : scan pf format args = .ok body)
    (h1 : replaceLoop ['%', 'D'] pf.todaysDate fuel (GetFormatPrefix s ace_p ++ body) = .ok w1)
    (h2 : replaceLoop ['%', 't'] pf.percentt fuel w1 = .ok w2)
    (h3 : replaceLoop ['%', 'P'] pf.percentP fuel w2 = .ok w3) :
    formatLine fuel pf s ace_p format args = .ok (stripNewline w3) := by
  obtain ⟨_, last, hat⟩ := rendered_last fuel pf s ace_p body w1 w2 w3 h1 h2 h3
  unfold formatLine
  simp only [hscan, h1, h2, h3, hat]
  rw [← stripNewline_of_last w3 last hat]
  by_cases hnl : last = '\n'
  · simp only [hnl, if_true]
  · simp only [hnl, if_false]

theorem stripNewline_cases (w : List Char) :
    (w.getLast? = some '\n' ∧ w = stripNewline w ++ ['\n']) ∨
      (w.getLast? ≠ some '\n' ∧ stripNewline w = w) := by
  unfold stripNewline
  by_cases h : w.getLast? = some '\n'
  · left
    refine ⟨h, ?_⟩
    rw [if_pos h]
    have hne : w ≠ [] := by
      intro e
      rw [e] at h
      simp at h
    have hl : w.getLast hne = '\n' := by
      rw [List.getLast?_eq_getLast _ hne] at h
      exact Option.some.inj h
    conv_lhs => rw [← List.dropLast_append_getLast hne]
    rw [hl]
  · right
    exact ⟨h, by rw [if_neg h]⟩

/-- C21: whenever the scan and the three replacement loops of a `Log` call
that passes the handle check and the gate have produced the rendered text (the
prefix followed by the body, tokens replaced), the call queues a line such
that either the rendered text ends with a newline and is that line followed by
exactly this one newline, or the rendered text does not end with a newline and
is the line itself. -/
theorem C21_one_trailing_newline_stripped (fuel : Nat) (pf : Platform) (s : State)
    (p : priority) (format : List Char) (args : List VArg) (body w1 w2 w3 : List Char)
    (hfile : s.plogFile_g ≠ none)
    (hgate : MatchACEPriority p.toNat &&& s.level_ ≠ 0)
    (hscan : scan pf format args = .ok body)
    (h1 : replaceLoop ['%', 'D'] pf.todaysDate fuel
      (GetFormatPrefix s (MatchACEPriority p.toNat) ++ body) = .ok w1)
    (h2 : replaceLoop ['%', 't'] pf.percentt fuel w1 = .ok w2)
    (h3 : replaceLoop ['%', 'P'] pf.percentP fuel w2 = .ok w3) :
    ∃ line, formatLine fuel pf s (MatchACEPriority p.toNat) format args = .ok line ∧
      Log fuel pf s p format args = .ok (appendLine s (String.mk line)) ∧
      ((w3.getLast? = some '\n' ∧ w3 = line ++ ['\n']) ∨
        (w3.getLast? ≠ some '\n' ∧ line = w3)) := by
  have hline := formatLine_of_rendered fuel pf s _ format args body w1 w2 w3 hscan h1 h2 h3
  exact ⟨stripNewline w3, hline, Log_appends fuel pf s p format args _ hfile hgate hline,
    stripNewline_cases w3⟩

theorem C21_one_trailing_newline_stripped_witness :
    ∃ line,
      formatLine 8 examplePlatform openState (MatchACEPriority priority.info.toNat)
        "ready\n\n".toList [] = .ok line ∧
      Log 8 examplePlatform openState .info "ready\n\n".toList []
        = .ok (appendLine openState (String.mk line)) ∧
      (("2009-11-11T10:20:30.123456 p:4242 t:140735 [LOG] ready\n\n".toList.getLast?
            = some '\n' ∧
          "2009-11-11T10:20:30.123456 p:4242 t:140735 [LOG] ready\n\n".toList
            = line ++ ['\n']) ∨
        ("2009-11-11T10:20:30.123456 p:4242 t:140735 [LOG] ready\n\n".toList.getLast?
            ≠ some '\n' ∧
          line = "2009-11-11T10:20:30.123456 p:4242 t:140735 [LOG] ready\n\n".toList)) :=
  C21_one_trailing_newline_stripped 8 examplePlatform openState .info "ready\n\n".toList []
    "ready\n\n".toList
    "2009-11-11T10:20:30.123456 p:%P t:%t [LOG] ready\n\n".toList
    "2009-11-11T10:20:30.123456 p:%P t:140735 [LOG] ready\n\n".toList
    "2009-11-11T10:20:30.123456 p:4242 t:140735 [LOG] ready\n\n".toList
    (by decide) (by decide) (by decide) (by decide) (by decide) (by decide)
/-! ## C22, C23: the prefix -/

theorem GetFormatPrefix_eq (s : State) (p : Nat) :
    GetFormatPrefix s p
      = "%D p:%P t:%t ".toList
          ++ (if p = FL_DEBUG then "[dbg] ".toList else "[LOG] ".toList) := by
  unfold GetFormatPrefix CORE_DEBUG_PREFIX_T CORE_LOG_PREFIX_T CORE_DEBUG_PREFIX CORE_LOG_PREFIX
  split_ifs <;> rfl

/-- C22: for every logger state and every priority, the prefix that `Log`
takes for the line contains the tag `[dbg]` and not the tag `[LOG]` when the
priority is `debug` or below, and contains `[LOG]` and not `[dbg]` when the
priority is above `debug`. -/
theorem C22_prefix_tag_by_severity (s : State) (p : priority) :
    (p.toNat ≤ priority.debug.toNat →
      "[dbg]".toList <:+: GetFormatPrefix s (MatchACEPriority p.toNat) ∧
        ¬ "[LOG]".toList <:+: GetFormatPrefix s (MatchACEPriority p.toNat)) ∧
    (priority.debug.toNat < p.toNat →
      "[LOG]".toList <:+: GetFormatPrefix s (MatchACEPriority p.toNat) ∧
        ¬ "[dbg]".toList <:+: GetFormatPrefix s (MatchACEPriority p.toNat)) := by
  rw [GetFormatPrefix_eq]
  cases p <;> decide

theorem C22_prefix_tag_by_severity_witness :
    (priority.trace.toNat ≤ priority.debug.toNat ∧
      "[dbg]".toList <:+: GetFormatPrefix openState (MatchACEPriority priority.trace.toNat) ∧
      ¬ "[LOG]".toList <:+: GetFormatPrefix openState (MatchACEPriority priority.trace.toNat)) ∧
    (priority.debug.toNat < priority.warning.toNat ∧
      "[LOG]".toList <:+: GetFormatPrefix openState (MatchACEPriority priority.warning.toNat) ∧
      ¬ "[dbg]".toList
          <:+: GetFormatPrefix openState (MatchACEPriority priority.warning.toNat)) :=
  ⟨⟨by decide, (C22_prefix_tag_by_severity openState .trace).1 (by decide)⟩,
   ⟨by decide, (C22_prefix_tag_by_severity openState .warning).2 (by decide)⟩⟩

/-- C23 (as stated, refuted): in the logger after `Initialize` the timestamp
threshold does not include debug lines, and the prefix of a debug line still
holds the tokens `%D`, `%P` and `%t` in front of the tag, so the queued line
begins with the timestamp, the process id and the thread id. -/
theorem C23_counterexample :
    MatchACEPriority openState.timestamp_level_ &&& MatchACEPriority priority.debug.toNat = 0 ∧
    GetFormatPrefix openState (MatchACEPriority priority.debug.toNat)
      = "%D p:%P t:%t [dbg] ".toList ∧
    GetFormatPrefix openState (MatchACEPriority priority.debug.toNat) ≠ "[dbg] ".toList ∧
    (Log 8 examplePlatform openState .debug "shutter closed".toList []).map
        (fun r => r.stringToWrite_g)
      = .ok "2009-11-11T10:20:30.123456 p:4242 t:140735 [dbg] shutter closed" := by
  decide

/-- C23 (amended): for every logger state and every level bit, the prefix is
the three tokens `%D p:%P t:%t ` followed by the tag and a blank, whether or
not the timestamp threshold includes the level; changing the threshold does
not change the prefix. -/
theorem C23_prefix_ignores_timestamp_policy (s : State) (p : Nat) :
    GetFormatPrefix s p
        = "%D p:%P t:%t ".toList
            ++ (if p = FL_DEBUG then "[dbg] ".toList else "[LOG] ".toList) ∧
      ∀ level : Nat, GetFormatPrefix { s with timestamp_level_ := level } p
        = GetFormatPrefix s p := by
  refine ⟨GetFormatPrefix_eq s p, ?_⟩
  intro level
  rw [GetFormatPrefix_eq, GetFormatPrefix_eq]
/-! ## C24: `Log` does not raise -/

theorem replaceLoop_fault (token text : List Char) :
    ∀ (fuel : Nat) (w : List Char) (e : Fault),
      replaceLoop token text fuel w = .error e → e = .outOfFuel := by
  intro fuel
  induction fuel with
  | zero =>
    intro w e h
    simp only [replaceLoop, Except.error.injEq] at h
    exact h.symm
  | succ n ih =>
    intro w e h
    unfold replaceLoop at h
    cases hf : find w token with
    | none =>
      rw [hf] at h
      simp at h
    | some i =>
      rw [hf] at h
      exact ih _ _ h

theorem formatLine_not_thrown (fuel : Nat) (pf : Platform) (s : State) (ace_p : Nat)
    (format : List Char) (args : List VArg) :
    formatLine fuel pf s ace_p format args ≠ .error .thrown := by
  intro h
  cases hscan : scan pf format args with
  | error e =>
    have he := scan_fault pf format args e hscan
    unfold formatLine at h
    simp only [hscan] at h
    rw [he] at h
    exact absurd h (by decide)
  | ok body =>
    cases h1 : replaceLoop ['%', 'D'] pf.todaysDate fuel (GetFormatPrefix s ace_p ++ body) with
    | error e =>
      have he := replaceLoop_fault _ _ _ _ _ h1
      unfold formatLine at h
      simp only [hscan, h1] at h
      rw [he] at h
      exact absurd h (by decide)
    | ok w1 =>
      cases h2 : replaceLoop ['%', 't'] pf.percentt fuel w1 with
      | error e =>
        have he := replaceLoop_fault _ _ _ _ _ h2
        unfold formatLine at h
        simp only [hscan, h1, h2] at h
        rw [he] at h
        exact absurd h (by decide)
      | ok w2 =>
        cases h3 : replaceLoop ['%', 'P'] pf.percentP fuel w2 with
        | error e =>
          have he := replaceLoop_fault _ _ _ _ _ h3
          unfold formatLine at h
          simp only [hscan, h1, h2, h3] at h
          rw [he] at h
          exact absurd h (by decide)
        | ok w3 =>
          rw [formatLine_of_rendered fuel pf s ace_p format args body w1 w2 w3 hscan h1 h2 h3]
            at h
          exact absurd h (by simp)

theorem Log_not_thrown (fuel : Nat) (pf : Platform) (s : State) (p : priority)
    (format : List Char) (args : List VArg) :
    Log fuel pf s p format args ≠ .error .thrown := by
  unfold Log
  cases s.plogFile_g with
  | none => simp
  | some f =>
    dsimp only
    split_ifs
    · simp
    · cases hline : formatLine fuel pf s (MatchACEPriority p.toNat) format args with
      | ok line => simp
      | error e => cases e <;> simp

theorem Log_returns (pf : Platform) (s : State) (p : priority) (format : List Char)
    (args : List VArg)
    (hargs : scan pf format args ≠ .error .undefinedBehaviour)
    (hD : '%' ∉ pf.todaysDate) (ht : '%' ∉ pf.percentt) (hP : '%' ∉ pf.percentP) :
    ∃ bound r, ∀ fuel, bound ≤ fuel → Log fuel pf s p format args = .ok r := by
  cases hpf : s.plogFile_g with
  | none =>
    exact ⟨0, _, fun fuel _ => Log_of_null fuel pf s p format args hpf⟩
  | some f =>
    by_cases hgate : MatchACEPriority p.toNat &&& s.level_ = 0
    · refine ⟨0, s, fun fuel _ => ?_⟩
      unfold Log
      simp only [hpf, hgate, if_true]
    · cases hscan : scan pf format args with
      | error e =>
        exact absurd (by rw [hscan, scan_fault pf format args e hscan]) hargs
      | ok body =>
        obtain ⟨line, _, hline⟩ :=
          formatLine_ok pf s (MatchACEPriority p.toNat) format args body hD ht hP hscan
        refine ⟨List.count '%' (GetFormatPrefix s (MatchACEPriority p.toNat) ++ body) + 1,
          appendLine s (String.mk line), fun fuel hf => ?_⟩
        exact Log_appends fuel pf s p format args line (by rw [hpf]; simp) hgate
          (hline fuel (by omega))

theorem LogWithFailure_not_thrown (failure : Option Exhaustion) (fuel : Nat) (pf : Platform)
    (s : State) (p : priority) (format : List Char) (args : List VArg) :
    LogWithFailure failure fuel pf s p format args ≠ .error .thrown := by
  unfold LogWithFailure
  cases s.plogFile_g with
  | none => simp
  | some f =>
    dsimp only
    cases hline : formatLine fuel pf s (MatchACEPriority p.toNat) format args with
    | ok line => split_ifs <;> simp
    | error e => cases e <;> (split_ifs <;> simp)

theorem LogWithFailure_of_bigBuffer (fuel : Nat) (pf : Platform) (s : State) (p : priority)
    (format : List Char) (args : List VArg) (hfile : s.plogFile_g ≠ none)
    (hgate : MatchACEPriority p.toNat &&& s.level_ ≠ 0) :
    LogWithFailure (some .bigBuffer) fuel pf s p format args = .ok (ReportLogFailure s) := by
  unfold LogWithFailure
  cases hpf : s.plogFile_g with
  | none => exact absurd hpf hfile
  | some f =>
    dsimp only
    rw [if_neg hgate, if_pos rfl]

theorem LogWithFailure_of_separator (fuel : Nat) (pf : Platform) (s : State) (p : priority)
    (format : List Char) (args : List VArg) (line : List Char) (hfile : s.plogFile_g ≠ none)
    (hgate : MatchACEPriority p.toNat &&& s.level_ ≠ 0)
    (hline : formatLine fuel pf s (MatchACEPriority p.toNat) format args = .ok line)
    (hbuf : 0 < s.stringToWrite_g.length) :
    LogWithFailure (some .separator) fuel pf s p format args = .ok (ReportLogFailure s) := by
  unfold LogWithFailure
  cases hpf : s.plogFile_g with
  | none => exact absurd hpf hfile
  | some f =>
    dsimp only
    rw [if_neg hgate, if_neg (by decide), hline]
    dsimp only
    rw [if_pos hbuf, if_pos rfl]

theorem LogWithFailure_of_workingString (fuel : Nat) (pf : Platform) (s : State)
    (p : priority) (format : List Char) (args : List VArg) (line : List Char)
    (hfile : s.plogFile_g ≠ none)
    (hgate : MatchACEPriority p.toNat &&& s.level_ ≠ 0)
    (hline : formatLine fuel pf s (MatchACEPriority p.toNat) format args = .ok line) :
    LogWithFailure (some .workingString) fuel pf s p format args
      = .ok (ReportLogFailure { s with stringToWrite_g := pending s.stringToWrite_g }) := by
  unfold LogWithFailure pending
  cases hpf : s.plogFile_g with
  | none => exact absurd hpf hfile
  | some f =>
    dsimp only
    rw [if_neg hgate, if_neg (by decide), hline]
    dsimp only
    by_cases hb : 0 < s.stringToWrite_g.length
    · rw [if_pos hb, if_neg (by decide), if_pos rfl, if_pos hb]
    · rw [if_neg hb, if_pos rfl, if_neg hb]
      simp only [← hpf]

theorem LogWithFailure_fuel (failure : Option Exhaustion) (fuel1 fuel2 : Nat) (pf : Platform)
    (s : State) (p : priority) (format : List Char) (args : List VArg)
    (h : formatLine fuel1 pf s (MatchACEPriority p.toNat) format args
      = formatLine fuel2 pf s (MatchACEPriority p.toNat) format args) :
    LogWithFailure failure fuel1 pf s p format args
      = LogWithFailure failure fuel2 pf s p format args := by
  unfold LogWithFailure
  dsimp only
  rw [h]

theorem LogWithFailure_ok_of_line (failure : Option Exhaustion) (fuel : Nat) (pf : Platform)
    (s : State) (p : priority) (format : List Char) (args : List VArg) (line : List Char)
    (hline : formatLine fuel pf s (MatchACEPriority p.toNat) format args = .ok line) :
    ∃ r, LogWithFailure failure fuel pf s p format args = .ok r := by
  unfold LogWithFailure
  cases s.plogFile_g with
  | none => exact ⟨_, rfl⟩
  | some f =>
    dsimp only
    rw [hline]
    dsimp only
    split_ifs <;> exact ⟨_, rfl⟩

theorem LogWithFailure_returns (pf : Platform) (s : State) (p : priority)
    (format : List Char) (args : List VArg)
    (hargs : scan pf format args ≠ .error .undefinedBehaviour)
    (hD : '%' ∉ pf.todaysDate) (ht : '%' ∉ pf.percentt) (hP : '%' ∉ pf.percentP) :
    ∃ bound, ∀ failure : Option Exhaustion, ∃ r, ∀ fuel, bound ≤ fuel →
      LogWithFailure failure fuel pf s p format args = .ok r := by
  cases hscan : scan pf format args with
  | error e =>
    exact absurd (by rw [hscan, scan_fault pf format args e hscan]) hargs
  | ok body =>
    obtain ⟨line, _, hline⟩ :=
      formatLine_ok pf s (MatchACEPriority p.toNat) format args body hD ht hP hscan
    refine ⟨List.count '%' (GetFormatPrefix s (MatchACEPriority p.toNat) ++ body) + 1,
      fun failure => ?_⟩
    obtain ⟨r, hr⟩ := LogWithFailure_ok_of_line failure _ pf s p format args line
      (hline (List.count '%' (GetFormatPrefix s (MatchACEPriority p.toNat) ++ body) + 1)
        (by omega))
    refine ⟨r, fun fuel hf => ?_⟩
    rw [← hr]
    apply LogWithFailure_fuel
    rw [hline fuel (by omega), hline _ (Nat.lt_succ_self _)]

/-- C24 (as stated, refuted): with one line waiting in the buffer, a `Log`
call in which the append of the line itself (line 458) throws returns
normally with the failure reported, and the buffer has gained the separating
newline that line 457 had already appended. -/
theorem C24_counterexample :
    pendingState.stringToWrite_g = "earlier line" ∧
    (LogWithFailure (some .workingString) 8 examplePlatform pendingState .info
        "laser on".toList []).map (fun r => r.stringToWrite_g) = .ok "earlier line\n" ∧
    (LogWithFailure (some .workingString) 8 examplePlatform pendingState .info
        "laser on".toList []).map (fun r => r.failureReported) = .ok true ∧
    (LogWithFailure none 8 examplePlatform pendingState .info
        "laser on".toList []).map (fun r => r.stringToWrite_g)
      = .ok ("earlier line\n"
          ++ "2009-11-11T10:20:30.123456 p:4242 t:140735 [LOG] laser on") := by
  decide

/-- C24 (amended): for every logger state, priority, template and argument
list, `Log` never ends with an exception, whichever of the statements taken as
able to fail throws, and without such a failure the call is `Log` itself.  The
formatter does not throw: whenever the three replacement loops have produced
the rendered text, it still holds the blank of the non-empty prefix, so it is
not empty and `at(length() - 1)` yields a character.  When the arguments match
the template and the platform texts hold no percent sign, the call returns a
state for every sufficient fuel, with or without a failure.  When the handle
is present and the gate open, a failure is forwarded to `ReportLogFailure`: a
failing allocation of the conversion buffer, or a failing append of the
separator, leaves the state of entry to the handler, the buffer unchanged;
a failing append of the line leaves the buffer with the separating newline
added when it was not empty, and unchanged when it was empty.
`ReportLogFailure` itself does not touch the buffer. -/
theorem C24_log_never_raises (pf : Platform) (s : State) (p : priority) (format : List Char)
    (args : List VArg) :
    (∀ failure fuel, LogWithFailure failure fuel pf s p format args ≠ .error .thrown) ∧
    (∀ fuel, LogWithFailure none fuel pf s p format args = Log fuel pf s p format args) ∧
    (∀ fuel, formatLine fuel pf s (MatchACEPriority p.toNat) format args ≠ .error .thrown) ∧
    (∀ fuel body w1 w2 w3,
      replaceLoop ['%', 'D'] pf.todaysDate fuel
          (GetFormatPrefix s (MatchACEPriority p.toNat) ++ body) = .ok w1 →
      replaceLoop ['%', 't'] pf.percentt fuel w1 = .ok w2 →
      replaceLoop ['%', 'P'] pf.percentP fuel w2 = .ok w3 →
      GetFormatPrefix s (MatchACEPriority p.toNat) ≠ [] ∧ w3 ≠ [] ∧
        ∃ last, string_at w3 (w3.length - 1) = some last) ∧
    (scan pf format args ≠ .error .undefinedBehaviour →
      '%' ∉ pf.todaysDate → '%' ∉ pf.percentt → '%' ∉ pf.percentP →
      ∃ bound, ∀ failure : Option Exhaustion, ∃ r, ∀ fuel, bound ≤ fuel →
        LogWithFailure failure fuel pf s p format args = .ok r) ∧
    (s.plogFile_g ≠ none → MatchACEPriority p.toNat &&& s.level_ ≠ 0 →
      (∀ fuel, LogWithFailure (some .bigBuffer) fuel pf s p format args
        = .ok (ReportLogFailure s)) ∧
      ∀ fuel line, formatLine fuel pf s (MatchACEPriority p.toNat) format args = .ok line →
        (0 < s.stringToWrite_g.length →
          LogWithFailure (some .separator) fuel pf s p format args
            = .ok (ReportLogFailure s)) ∧
        LogWithFailure (some .workingString) fuel pf s p format args
          = .ok (ReportLogFailure { s with stringToWrite_g := pending s.stringToWrite_g })) ∧
    (∀ t : State, (ReportLogFailure t).stringToWrite_g = t.stringToWrite_g ∧
      (ReportLogFailure t).failureReported = true) := by
  refine ⟨fun failure fuel => LogWithFailure_not_thrown failure fuel pf s p format args, ?_,
    fun fuel => formatLine_not_thrown fuel pf s _ format args, ?_,
    LogWithFailure_returns pf s p format args, ?_, ?_⟩
  · intro fuel
    unfold LogWithFailure Log appendLine
    cases s.plogFile_g with
    | none => rfl
    | some f =>
      dsimp only
      by_cases hgate : MatchACEPriority p.toNat &&& s.level_ = 0
      · rw [if_pos hgate, if_pos hgate]
      · rw [if_neg hgate, if_neg hgate, if_neg (by decide)]
        cases formatLine fuel pf s (MatchACEPriority p.toNat) format args with
        | ok line =>
          dsimp only
          by_cases hb : 0 < s.stringToWrite_g.length
          · rw [if_pos hb, if_pos hb, if_neg (by decide), if_neg (by decide)]
          · rw [if_neg hb, if_neg hb, if_neg (by decide)]
        | error e => cases e <;> rfl
  · intro fuel body w1 w2 w3 h1 h2 h3
    obtain ⟨hm, hlast⟩ := rendered_last fuel pf s _ body w1 w2 w3 h1 h2 h3
    exact ⟨List.ne_nil_of_mem (space_mem_GetFormatPrefix s _), List.ne_nil_of_mem hm, hlast⟩
  · intro hfile hgate
    refine ⟨fun fuel => LogWithFailure_of_bigBuffer fuel pf s p format args hfile hgate, ?_⟩
    intro fuel line hline
    exact ⟨fun hbuf =>
        LogWithFailure_of_separator fuel pf s p format args line hfile hgate hline hbuf,
      LogWithFailure_of_workingString fuel pf s p format args line hfile hgate hline⟩
  · intro t
    unfold ReportLogFailure
    by_cases h : t.failureReported = true
    · simp [h]
    · simp [h]

theorem C24_log_never_raises_witness :
    ((scan examplePlatform "power %d mW\n".toList [.int 50] ≠ .error .undefinedBehaviour ∧
        '%' ∉ examplePlatform.todaysDate ∧ '%' ∉ examplePlatform.percentt ∧
        '%' ∉ examplePlatform.percentP) ∧
      ∃ bound, ∀ failure : Option Exhaustion, ∃ r, ∀ fuel, bound ≤ fuel →
        LogWithFailure failure fuel examplePlatform pendingState .info
          "power %d mW\n".toList [.int 50] = .ok r) ∧
    ((pendingState.plogFile_g ≠ none ∧
        MatchACEPriority priority.info.toNat &&& pendingState.level_ ≠ 0 ∧
        formatLine 8 examplePlatform pendingState (MatchACEPriority priority.info.toNat)
            "power %d mW\n".toList [.int 50]
          = .ok "2009-11-11T10:20:30.123456 p:4242 t:140735 [LOG] power 50 mW".toList ∧
        0 < pendingState.stringToWrite_g.length) ∧
      LogWithFailure (some .separator) 8 examplePlatform pendingState .info
          "power %d mW\n".toList [.int 50] = .ok (ReportLogFailure pendingState) ∧
      LogWithFailure (some .workingString) 8 examplePlatform pendingState .info
          "power %d mW\n".toList [.int 50]
        = .ok (ReportLogFailure
            { pendingState with stringToWrite_g := pending pendingState.stringToWrite_g })) :=
  ⟨⟨⟨by decide, by decide, by decide, by decide⟩,
     (C24_log_never_raises examplePlatform pendingState .info "power %d mW\n".toList
        [.int 50]).2.2.2.2.1 (by decide) (by decide) (by decide) (by decide)⟩,
   ⟨⟨by decide, by decide, by decide, by decide⟩,
    (((C24_log_never_raises examplePlatform pendingState .info "power %d mW\n".toList
        [.int 50]).2.2.2.2.2.1 (by decide) (by decide)).2 8
        "2009-11-11T10:20:30.123456 p:4242 t:140735 [LOG] power 50 mW".toList
        (by decide)).1 (by decide),
    (((C24_log_never_raises examplePlatform pendingState .info "power %d mW\n".toList
        [.int 50]).2.2.2.2.2.1 (by decide) (by decide)).2 8
        "2009-11-11T10:20:30.123456 p:4242 t:140735 [LOG] power 50 mW".toList
        (by decide)).2⟩⟩

/-! ## C25: the two locks are never nested -/

theorem holds_append : ∀ (events later : List LockEvent) (held : Option Lock),
    holds held (events ++ later) = (holds held events).bind (fun h => holds h later) := by
  intro events
  induction events with
  | nil => intro later held; cases held <;> rfl
  | cons e rest ih =>
    intro later held
    cases e with
    | acquire l =>
      cases held with
      | none => simp only [List.cons_append, holds]; exact ih later _
      | some h => simp [holds]
    | release l =>
      cases held with
      | none => simp [holds]
      | some h =>
        simp only [List.cons_append, holds]
        by_cases hl : h = l
        · rw [if_pos hl, if_pos hl]; exact ih later _
        · rw [if_neg hl, if_neg hl]; rfl

theorem neverNested_append (events later : List LockEvent)
    (h1 : neverNested events = true) (h2 : neverNested later = true) :
    neverNested (events ++ later) = true := by
  unfold neverNested at *
  simp only [decide_eq_true_eq] at *
  rw [holds_append, h1]
  exact h2

theorem svcBody_neverNested : ∀ p ∈ svcBody_skeleton.paths, neverNested p.1 = true := by
  decide

theorem svc_neverNested : ∀ (n : Nat), ∀ p ∈ (svc_skeleton n).paths, neverNested p.1 = true := by
  intro n
  induction n with
  | zero => exact svcBody_neverNested
  | succ k ih =>
    intro p hp
    have hpaths : (svc_skeleton (k + 1)).paths
        = svcBody_skeleton.paths.flatMap (fun a =>
            match a.2 with
            | .normal => (svc_skeleton k).paths.map (fun q => (a.1 ++ q.1, q.2))
            | _ => [a]) := rfl
    rw [hpaths, List.mem_flatMap] at hp
    obtain ⟨a, ha, hp⟩ := hp
    have hA := svcBody_neverNested a ha
    obtain ⟨ev, ex⟩ := a
    cases ex with
    | normal =>
      simp only [List.mem_map] at hp
      obtain ⟨q, hq, rfl⟩ := hp
      exact neverNested_append _ _ hA (ih q hq)
    | returned =>
      simp only [List.mem_singleton] at hp
      rw [hp]; exact hA
    | thrown =>
      simp only [List.mem_singleton] at hp
      rw [hp]; exact hA

theorem step_disciplined (th : ThreadState) (h : th.disciplined = true) :
    th.step.disciplined = true := by
  obtain ⟨held, todo⟩ := th
  unfold ThreadState.disciplined at *
  simp only [decide_eq_true_eq] at *
  cases todo with
  | nil => exact h
  | cons e rest =>
    cases e with
    | acquire l =>
      cases held with
      | none => simpa [ThreadState.step, holds] using h
      | some x => simp [holds] at h
    | release l =>
      cases held with
      | none => simp [holds] at h
      | some x =>
        simp only [holds] at h
        by_cases hl : x = l
        · rw [if_pos hl] at h
          simpa [ThreadState.step] using h
        · rw [if_neg hl] at h
          exact absurd h (by simp)

theorem pool_progress (pool : List ThreadState)
    (hd : ∀ th ∈ pool, th.disciplined = true) (hne : ∃ th ∈ pool, th.todo ≠ []) :
    ∃ th ∈ pool, canStep pool th = true := by
  obtain ⟨th, hth, htodo⟩ := hne
  obtain ⟨held, todo⟩ := th
  cases todo with
  | nil => exact absurd rfl htodo
  | cons e rest =>
    cases e with
    | release l => exact ⟨_, hth, rfl⟩
    | acquire l =>
      by_cases hfree : pool.all (fun other => decide (other.held ≠ some l)) = true
      · exact ⟨_, hth, hfree⟩
      · simp only [List.all_eq_true, decide_eq_true_eq, not_forall, Classical.not_not,
          exists_prop] at hfree
        obtain ⟨o, ho, hheld⟩ := hfree
        have hdo := hd o ho
        obtain ⟨oh, otodo⟩ := o
        simp only at hheld
        subst hheld
        unfold ThreadState.disciplined at hdo
        simp only [decide_eq_true_eq] at hdo
        cases otodo with
        | nil => simp [holds] at hdo
        | cons e2 rest2 =>
          cases e2 with
          | acquire l2 => simp [holds] at hdo
          | release l2 => exact ⟨_, ho, rfl⟩

/-- C25: on every path through `Log`, `Initialize`, `Shutdown`, `Reset`,
`LogContents` and `ReportLogFailure` (a path may end by an exception, and a
handler that calls `ReportLogFailure` runs after the guards of its `try` block
have released), and through any number of rounds of `LoggerThread::svc`, the
thread never acquires a lock while it holds one and ends with no lock held;
such paths stay so when they follow one another.  Hence among threads that
keep this discipline a thread that holds a lock has its release as next lock
event: each step keeps the discipline, and whenever some thread still has a
lock event to perform, some thread can perform its next one, so the threads
never block each other for good. -/
theorem C25_locks_never_nested :
    (∀ c ∈ [Log_skeleton, Initialize_skeleton, Shutdown_skeleton, Reset_skeleton,
        LogContents_skeleton, ReportLogFailure_skeleton],
      ∀ p ∈ c.paths, neverNested p.1 = true) ∧
    (∀ n : Nat, ∀ p ∈ (svc_skeleton n).paths, neverNested p.1 = true) ∧
    (∀ events later : List LockEvent, neverNested events = true → neverNested later = true →
      neverNested (events ++ later) = true) ∧
    (∀ th : ThreadState, th.disciplined = true → th.step.disciplined = true) ∧
    (∀ pool : List ThreadState, (∀ th ∈ pool, th.disciplined = true) →
      (∃ th ∈ pool, th.todo ≠ []) → ∃ th ∈ pool, canStep pool th = true) :=
  ⟨by decide, svc_neverNested, neverNested_append, step_disciplined, pool_progress⟩

theorem C25_locks_never_nested_witness :
    ((∀ th ∈ examplePool, th.disciplined = true) ∧ ∃ th ∈ examplePool, th.todo ≠ []) ∧
    ∃ th ∈ examplePool, canStep examplePool th = true :=
  ⟨⟨by decide, by decide⟩,
   C25_locks_never_nested.2.2.2.2 examplePool (by decide) (by decide)⟩

/-! ## C26: no drain when the worker stops -/

theorem destructor_frame (s : State) :
    (destructor s).stringToWrite_g = s.stringToWrite_g ∧ (destructor s).cerr = s.cerr ∧
      (destructor s).disk = s.disk := by
  unfold destructor
  rw [Shutdown_eq]
  cases s.pLogThread_g <;> exact ⟨rfl, rfl, rfl⟩

theorem svcIteration_buffer (s : State) : (svcIteration s).stringToWrite_g = "" := by
  unfold svcIteration
  dsimp only
  split_ifs
  · cases s.plogFile_g with
    | none => rfl
    | some f =>
      dsimp only [ofstream_write]
      split_ifs <;> rfl
  · cases s.plogFile_g with
    | none => rfl
    | some f =>
      dsimp only [ofstream_write]
      split_ifs <;> rfl
  · rfl

theorem run_appends (s : State) (hbuf : s.stringToWrite_g = "") :
    ∀ lines : List String, (∀ l ∈ lines, l ≠ "") →
      (run s (lines.map Step.append)).stringToWrite_g = joined lines ∧
      (run s (lines.map Step.append)).cerr = s.cerr ∧
      (run s (lines.map Step.append)).disk = s.disk := by
  intro lines
  induction lines using List.reverseRecOn with
  | nil =>
    intro _
    exact ⟨hbuf, rfl, rfl⟩
  | append_singleton ls l ih =>
    intro hne
    have hls : ∀ x ∈ ls, x ≠ "" := fun x hx => hne x (List.mem_append_left _ hx)
    obtain ⟨hb, hc, hd⟩ := ih hls
    rw [List.map_append, List.map_singleton, run_snoc]
    refine ⟨?_, hc, hd⟩
    show (appendLine (run s (ls.map Step.append)) l).stringToWrite_g = joined (ls ++ [l])
    unfold appendLine
    dsimp only
    rw [hb, joined_snoc]
    by_cases hnil : ls = []
    · subst hnil
      rw [if_pos rfl]
      simp [joined]
    · rw [if_neg hnil]
      have hj : joined ls ≠ "" := fun e => hnil ((joined_eq_empty ls hls).mp e)
      rw [if_pos ((string_length_pos _).mpr hj)]

theorem svc_append (rounds later : List (List String × Bool))
    (hrun : ∀ r ∈ rounds, r.2 = false) :
    ∀ s : State, svc s (rounds ++ later) = svc (svc s rounds) later := by
  induction rounds with
  | nil => intro s; rfl
  | cons r rest ih =>
    intro s
    obtain ⟨during, stop⟩ := r
    have hstop : stop = false := hrun (during, stop) (List.mem_cons_self _ _)
    subst hstop
    simp only [List.cons_append, svc, Bool.false_eq_true, if_false]
    exact ih (fun x hx => hrun x (List.mem_cons_of_mem _ hx)) _

/-- C26: the destructor changes neither the accumulation buffer nor the
console text nor any file content.  For every run of the worker loop whose
tests read `stop_` as false until a last round in which the producers append
non-empty lines after the drain and the test then reads `stop_` as true, the
buffer is empty right after that last drain, and after the loop has ended and
the destructor has run the buffer holds exactly those lines (joined by
newlines) while the console text and every file are as that last drain left
them. -/
theorem C26_no_final_drain (s : State) (rounds : List (List String × Bool))
    (lines : List String)
    (hrun : ∀ r ∈ rounds, r.2 = false) (hne : ∀ l ∈ lines, l ≠ "") :
    (∀ t : State, (destructor t).stringToWrite_g = t.stringToWrite_g ∧
      (destructor t).cerr = t.cerr ∧ (destructor t).disk = t.disk) ∧
    (svcIteration (svc s rounds)).stringToWrite_g = "" ∧
    (destructor (svc s (rounds ++ [(lines, true)]))).stringToWrite_g = joined lines ∧
    (destructor (svc s (rounds ++ [(lines, true)]))).cerr
      = (svcIteration (svc s rounds)).cerr ∧
    (destructor (svc s (rounds ++ [(lines, true)]))).disk
      = (svcIteration (svc s rounds)).disk := by
  have hb := svcIteration_buffer (svc s rounds)
  have hsvc : svc s (rounds ++ [(lines, true)])
      = run (svcIteration (svc s rounds)) (lines.map Step.append) := by
    rw [svc_append rounds _ hrun]
    simp only [svc, if_true]
  obtain ⟨h1, h2, h3⟩ := run_appends _ hb lines hne
  obtain ⟨f1, f2, f3⟩ := destructor_frame (svc s (rounds ++ [(lines, true)]))
  rw [hsvc] at f1 f2 f3 ⊢
  exact ⟨destructor_frame, hb, by rw [f1, h1], by rw [f2, h2], by rw [f3, h3]⟩

theorem C26_no_final_drain_witness :
    ((∀ r ∈ [(["laser on"], false)], r.2 = false) ∧
      ∀ l ∈ ["shutter closed", "laser off"], l ≠ "") ∧
    (destructor (svc pendingState
        ([(["laser on"], false)] ++ [(["shutter closed", "laser off"], true)]))).stringToWrite_g
      = joined ["shutter closed", "laser off"] ∧
    (destructor (svc pendingState
        ([(["laser on"], false)] ++ [(["shutter closed", "laser off"], true)]))).cerr
      = (svcIteration (svc pendingState [(["laser on"], false)])).cerr ∧
    (destructor (svc pendingState
        ([(["laser on"], false)] ++ [(["shutter closed", "laser off"], true)]))).disk
      = (svcIteration (svc pendingState [(["laser on"], false)])).disk :=
  ⟨⟨by decide, by decide⟩,
   (C26_no_final_drain pendingState [(["laser on"], false)] ["shutter closed", "laser off"]
      (by decide) (by decide)).2.2⟩

/-! ## C27: one character of precision -/

theorem strAt_ne_NUL_of_lt_strlen : ∀ (format : List Char) (i : Nat), i < strlen format →
    strAt format i ≠ NUL := by
  intro format
  induction format with
  | nil =>
    intro i hi
    simp [strlen, c_str] at hi
  | cons c rest ih =>
    intro i hi
    by_cases hc : c = NUL
    · simp [strlen, c_str, List.takeWhile, hc] at hi
    · cases i with
      | zero => simpa [strAt] using hc
      | succ k =>
        have hk : k < strlen rest := by
          simp [strlen, c_str, List.takeWhile, hc] at hi
          simpa [strlen, c_str] using hi
        have := ih k hk
        simpa [strAt] using this

/-- C27: where the template holds `%.` followed by two characters c and x
inside the template and the next argument is a floating-point number, one
iteration of the loop builds the conversion `%.cf` from c alone, consumes that
one argument and goes on with the character after x, whatever c and x are.
So the template `%.10f` renders its argument under `%.1f` followed by a
literal `f` (the `0` is dropped), and `%.3d` renders a floating-point argument
under `%.3f`; reading an integer argument there is undefined behaviour. -/
theorem C27_precision_takes_one_character (pf : Platform) (format : List Char)
    (fuel i : Nat) (v : Rat) (rest : List VArg) (w : List Char)
    (h0 : strAt format i = '%') (h1 : strAt format (i + 1) = '.')
    (hin : i + 3 < strlen format) :
    scanLoop pf format (strlen format) (fuel + 1) i (.dbl v :: rest) w
        = scanLoop pf format (strlen format) fuel (i + 4) rest
            (w ++ snprintf MaxBuf (pf.snprintf_f ['%', '.', strAt format (i + 2), 'f'] v)) ∧
    (∀ x : Rat, scan pf "%.10f".toList [.dbl x]
        = .ok (snprintf MaxBuf (pf.snprintf_f "%.1f".toList x) ++ ['f'])) ∧
    (∀ x : Rat, scan pf "%.3d".toList [.dbl x]
        = .ok (snprintf MaxBuf (pf.snprintf_f "%.3f".toList x))) ∧
    (∀ n : Int, scan pf "%.3d".toList [.int n] = .error .undefinedBehaviour) := by
  refine ⟨?_, ?_, ?_, ?_⟩
  · conv_lhs => unfold scanLoop
    rw [h0, if_neg (by decide), if_pos rfl, directive_dot _ _ _ _ _ h1]
    have hcond : i + 1 < strlen format - 1 := by omega
    simp only [va_arg_double, hcond, if_true]
    rw [show i + 1 + 2 = i + 3 by omega,
      if_neg (strAt_ne_NUL_of_lt_strlen format (i + 3) hin)]
  · intro x
    rw [scan_eq_scanSpec _ _ _ (by intro c hc; simp at hc),
      show c_str "%.10f".toList = "%.10f".toList from by decide]
    simp only [String.toList, scanSpec_dot, scanSpec_plain, nextArg, dblText, scanSpec_nil,
      Except.map, ne_eq, Char.reduceEq, not_false_eq_true]
    rfl
  · intro x
    rw [scan_eq_scanSpec _ _ _ (by intro c hc; simp at hc),
      show c_str "%.3d".toList = "%.3d".toList from by decide]
    simp only [String.toList, scanSpec_dot, nextArg, dblText, scanSpec_nil, Except.map,
      List.append_nil]
  · intro n
    rw [scan_eq_scanSpec _ _ _ (by intro c hc; simp at hc),
      show c_str "%.3d".toList = "%.3d".toList from by decide]
    simp only [String.toList, scanSpec_dot, nextArg, dblText]

theorem C27_precision_takes_one_character_witness :
    (strAt "t=%.10f C".toList 2 = '%' ∧ strAt "t=%.10f C".toList 3 = '.' ∧
      2 + 3 < strlen "t=%.10f C".toList) ∧
    scanLoop examplePlatform "t=%.10f C".toList (strlen "t=%.10f C".toList) (7 + 1) 2
          [.dbl ratioArgument] "t=".toList
        = scanLoop examplePlatform "t=%.10f C".toList (strlen "t=%.10f C".toList) 7 (2 + 4) []
            ("t=".toList ++ snprintf MaxBuf
              (examplePlatform.snprintf_f ['%', '.', strAt "t=%.10f C".toList (2 + 2), 'f']
                ratioArgument)) :=
  ⟨⟨by decide, by decide, by decide⟩,
   (C27_precision_takes_one_character examplePlatform "t=%.10f C".toList 7 2 ratioArgument []
      "t=".toList (by decide) (by decide) (by decide)).1⟩

/-! ## C28: the dispatch of `LaserFactory::Create` -/

theorem string_find_eq_zero (text token : List Char) :
    string_find text token = 0 ↔ token.isPrefixOf text = true := by
  unfold string_find
  cases text with
  | nil =>
    unfold find
    by_cases h : token.isPrefixOf [] = true
    · simp [h]
    · simp [h, npos]
  | cons c w =>
    unfold find
    by_cases h : token.isPrefixOf (c :: w) = true
    · simp [h]
    · rw [if_neg h]
      cases find w token with
      | none => simp [h, npos]
      | some i => simp [h]

theorem no_common_start (text a b : List Char) (hlen : a.length = b.length) (hab : a ≠ b)
    (ha : string_find text a = 0) (hb : string_find text b = 0) : False := by
  rw [string_find_eq_zero, List.isPrefixOf_iff_prefix] at ha hb
  have hp : a <+: b := List.prefix_of_prefix_length_le ha hb (Nat.le_of_eq hlen)
  exact hab (List.IsPrefix.eq_of_length hp hlen)

theorem gen5_condition (modelString : List Char) :
    string_find modelString "-05-01-".toList ≠ 0 ∨
      string_find modelString "-05-03-".toList ≠ 0 ∨
      string_find modelString "-05-41-".toList ≠ 0 := by
  by_cases h1 : string_find modelString "-05-01-".toList = 0
  · by_cases h2 : string_find modelString "-05-03-".toList = 0
    · exact absurd (no_common_start modelString _ _ (by decide) (by decide) h1 h2) id
    · exact Or.inr (Or.inl h2)
  · exact Or.inl h1

/-- C28: for every model string, a `find` result is zero exactly when the
token starts the string, so the condition of lines 117-119 holds; hence for
every driver, firmware version, model string and wavelength text, `Create`
returns a `Gen5Laser` whenever the four earlier conditions fail, and it never
returns a `SkyraLaser`, the generic `Laser` or NULL. -/
theorem C28_gen5_branch_takes_every_remaining_laser (driver : LaserDriver)
    (firmwareVersion modelString wavelength : List Char) :
    (∀ token : List Char,
      string_find modelString token = 0 ↔ token.isPrefixOf modelString = true) ∧
    (string_find modelString "-05-01-".toList ≠ 0 ∨
      string_find modelString "-05-03-".toList ≠ 0 ∨
      string_find modelString "-05-41-".toList ≠ 0) ∧
    (¬ (string_find modelString "-06-51-".toList ≠ npos ∨
        string_find modelString "-06-53-".toList ≠ npos ∨
        string_find modelString "-06-57-".toList ≠ npos ∨
        string_find modelString "-06-91-".toList ≠ npos ∨
        string_find modelString "-06-93-".toList ≠ npos ∨
        string_find modelString "-06-97-".toList ≠ npos) →
      ¬ string_find firmwareVersion "/1005.".toList ≠ npos →
      ¬ (string_find modelString "-06-01-".toList ≠ npos ∨
        string_find modelString "-06-03-".toList ≠ npos) →
      ¬ string_find firmwareVersion "/1004.".toList ≠ npos →
      Create driver firmwareVersion modelString wavelength = some (.Gen5Laser wavelength)) ∧
    (∀ line1 line2 line3 line4 : Bool,
      Create driver firmwareVersion modelString wavelength
        ≠ some (.SkyraLaser line1 line2 line3 line4)) ∧
    (∀ name : List Char,
      Create driver firmwareVersion modelString wavelength ≠ some (.Laser name)) ∧
    Create driver firmwareVersion modelString wavelength ≠ none := by
  have h5 := gen5_condition modelString
  refine ⟨fun token => string_find_eq_zero modelString token, h5, ?_, ?_, ?_, ?_⟩
  · intro c1 c2 c3 c4
    unfold Create
    rw [if_neg c1, if_neg c2, if_neg c3, if_neg c4, if_pos h5]
  · intro l1 l2 l3 l4
    unfold Create
    split_ifs <;> simp
  · intro name
    unfold Create
    split_ifs <;> simp
  · unfold Create
    split_ifs <;> simp

theorem C28_gen5_branch_takes_every_remaining_laser_witness :
    (¬ (string_find "Skyra-4".toList "-06-51-".toList ≠ npos ∨
        string_find "Skyra-4".toList "-06-53-".toList ≠ npos ∨
        string_find "Skyra-4".toList "-06-57-".toList ≠ npos ∨
        string_find "Skyra-4".toList "-06-91-".toList ≠ npos ∨
        string_find "Skyra-4".toList "-06-93-".toList ≠ npos ∨
        string_find "Skyra-4".toList "-06-97-".toList ≠ npos) ∧
      ¬ string_find "9.001.2".toList "/1005.".toList ≠ npos ∧
      ¬ (string_find "Skyra-4".toList "-06-01-".toList ≠ npos ∨
        string_find "Skyra-4".toList "-06-03-".toList ≠ npos) ∧
      ¬ string_find "9.001.2".toList "/1004.".toList ≠ npos ∧
      string_find "9.001.2".toList "9.001".toList ≠ npos) ∧
    Create silentDriver "9.001.2".toList "Skyra-4".toList "0".toList
      = some (.Gen5Laser "0".toList) :=
  ⟨⟨by decide, by decide, by decide, by decide, by decide⟩,
   (C28_gen5_branch_takes_every_remaining_laser silentDriver "9.001.2".toList
      "Skyra-4".toList "0".toList).2.2.1 (by decide) (by decide) (by decide) (by decide)⟩

end FastLogger
